import Mathlib

/-!
# Verification of the job engine of `ethereum-address-metrics-exporter`

A shallow embedding of `pkg/exporter/jobs` (`utils.go`, `account.go`,
`erc4337.go`, `erc4626.go`) together with the standard-library routines these
files call (`encoding/hex`, `bytes`, `math/big`), followed by theorems about
the embedded functions.

Conventions:

* a Go `string` or `[]byte` is a list of bytes (`GoString`), each byte a `Nat`;
* a function that can hit a run-time panic returns `Outcome` with the
  constructor `panic`;
* a `float64` is modelled by its exact value (`F64`): sign, integer mantissa
  and binary exponent, or an infinity.
-/

namespace Jobs

/-! ## Strings and outcomes -/

/-- A Go string (or byte slice): the sequence of its bytes. -/
abbrev GoString := List Nat

/-- The bytes of an ASCII text. -/
def bytesOf (s : String) : GoString := s.toList.map Char.toNat

/-- Go error values that occur in the package: the two errors of
`encoding/hex`, and any other error (for instance one returned by the RPC
client), identified by its message. -/
inductive GoError where
  | invalidByte (b : Nat)
  | errLength
  | other (msg : GoString)
  deriving DecidableEq, Repr

/-- Result of a Go call of type `(T, error)` that may also panic. -/
inductive Outcome (α : Type) where
  | ok (v : α)
  | error (e : GoError)
  | panic
  deriving DecidableEq, Repr

deriving instance DecidableEq for Except

/-! ## Label constants (`utils.go`) -/

def LabelAddress : GoString := bytesOf "address"
def LabelContract : GoString := bytesOf "contract"
def LabelDefaultValue : GoString := bytesOf ""
def LabelFrom : GoString := bytesOf "from"
def LabelName : GoString := bytesOf "name"
def LabelSymbol : GoString := bytesOf "symbol"
def LabelTo : GoString := bytesOf "to"
def LabelTokenID : GoString := bytesOf "token_id"

/-! ## `encoding/hex` -/

/-- Value of a hexadecimal digit byte (`reverseHexTable` of `encoding/hex`),
`none` for any other byte. -/
def fromHexChar (c : Nat) : Option Nat :=
  if 48 ≤ c ∧ c ≤ 57 then some (c - 48)
  else if 97 ≤ c ∧ c ≤ 102 then some (c - 97 + 10)
  else if 65 ≤ c ∧ c ≤ 70 then some (c - 65 + 10)
  else none

/-- `hex.DecodeString`: decodes pairs of digits from the left; the first byte
that is not a hexadecimal digit gives `InvalidByteError`, and an odd number of
digits gives `ErrLength`. -/
def hexDecodeString : GoString → Except GoError GoString
  | [] => .ok []
  | [p] =>
    match fromHexChar p with
    | none => .error (.invalidByte p)
    | some _ => .error .errLength
  | p :: q :: rest =>
    match fromHexChar p with
    | none => .error (.invalidByte p)
    | some a =>
      match fromHexChar q with
      | none => .error (.invalidByte q)
      | some b =>
        match hexDecodeString rest with
        | .ok bs => .ok ((a * 16 + b) :: bs)
        | .error e => .error e

/-! ## `bytes.Trim` and `bytes.TrimSpace` -/

/-- `trimRightByte` of package `bytes`. -/
def trimRightByte (s : GoString) (c : Nat) : GoString :=
  (s.reverse.dropWhile (fun b => b == c)).reverse

/-- `trimLeftByte` of package `bytes`. -/
def trimLeftByte (s : GoString) (c : Nat) : GoString :=
  s.dropWhile (fun b => b == c)

/-- `bytes.Trim(s, cutset)` for a cutset of one ASCII byte `c`: the byte is
removed from both ends. -/
def bytesTrim (s : GoString) (c : Nat) : GoString :=
  trimLeftByte (trimRightByte s c) c

/-- The table `asciiSpace` of package `bytes`: tab, line feed, vertical tab,
form feed, carriage return, space. -/
def asciiSpace (c : Nat) : Bool :=
  c == 9 || c == 10 || c == 11 || c == 12 || c == 13 || c == 32

/-- `unicode.IsSpace`. -/
def unicodeIsSpace (r : Nat) : Bool :=
  if r ≤ 255 then
    r == 9 || r == 10 || r == 11 || r == 12 || r == 13 || r == 32 || r == 133 || r == 160
  else
    r == 5760 || (8192 ≤ r && r ≤ 8202) || r == 8232 || r == 8233 || r == 8239
      || r == 8287 || r == 12288

/-- The Unicode replacement character `utf8.RuneError`. -/
def runeError : Nat := 65533

/-- Continuation byte test of `unicode/utf8` (`locb ≤ b ≤ hicb`). -/
def isContinuation (b : Nat) : Bool := 128 ≤ b && b ≤ 191

/-- `utf8.DecodeRune`: the first rune of `p` and its width in bytes; an
invalid or truncated encoding gives `(RuneError, 1)`, the empty input
`(RuneError, 0)`. -/
def decodeRune (p : GoString) : Nat × Nat :=
  match p with
  | [] => (runeError, 0)
  | p0 :: rest =>
    if p0 < 128 then (p0, 1)
    else if 194 ≤ p0 ∧ p0 ≤ 223 then
      match rest with
      | b1 :: _ =>
        if isContinuation b1 then ((p0 % 32) * 64 + b1 % 64, 2) else (runeError, 1)
      | _ => (runeError, 1)
    else if 224 ≤ p0 ∧ p0 ≤ 239 then
      match rest with
      | b1 :: b2 :: _ =>
        let lo := if p0 = 224 then 160 else 128
        let hi := if p0 = 237 then 159 else 191
        if b1 < lo ∨ hi < b1 then (runeError, 1)
        else if !isContinuation b2 then (runeError, 1)
        else ((p0 % 16) * 4096 + (b1 % 64) * 64 + b2 % 64, 3)
      | _ => (runeError, 1)
    else if 240 ≤ p0 ∧ p0 ≤ 244 then
      match rest with
      | b1 :: b2 :: b3 :: _ =>
        let lo := if p0 = 240 then 144 else 128
        let hi := if p0 = 244 then 143 else 191
        if b1 < lo ∨ hi < b1 then (runeError, 1)
        else if !isContinuation b2 then (runeError, 1)
        else if !isContinuation b3 then (runeError, 1)
        else ((p0 % 8) * 262144 + (b1 % 64) * 4096 + (b2 % 64) * 64 + b3 % 64, 4)
      | _ => (runeError, 1)
    else (runeError, 1)

/-- `utf8.ValidString` with explicit fuel: every rune decodes, an ASCII byte
to itself and any other leading byte to an encoding of two to four bytes. -/
def validStringAux : Nat → GoString → Bool
  | 0, s => s.isEmpty
  | fuel + 1, s =>
    match s with
    | [] => true
    | p0 :: rest =>
      if p0 < 128 then validStringAux fuel rest
      else if (decodeRune s).2 ≤ 1 then false
      else validStringAux fuel (s.drop (decodeRune s).2)

/-- `utf8.ValidString`. -/
def utf8ValidString (s : GoString) : Bool := validStringAux s.length s

/-- Search of `utf8.DecodeLastRune` for the start of the last rune: going
down from `start`, at most `steps` positions not below `lim`, stopping at a
byte that is not a continuation byte. Returns the position reached, `none`
when the search ran below `lim`. -/
def lastRuneStart (p : GoString) (lim : Nat) : Nat → Nat → Option Nat
  | 0, _ => none
  | steps + 1, start =>
    if start < lim then none
    else if !isContinuation (p.getD start 0) then some start
    else if start = 0 then none
    else lastRuneStart p lim steps (start - 1)

/-- `utf8.DecodeLastRune`: the last rune of `p` and its width. -/
def decodeLastRune (p : GoString) : Nat × Nat :=
  let e := p.length
  if e = 0 then (runeError, 0)
  else
    let last := p.getD (e - 1) 0
    if last < 128 then (last, 1)
    else
      let lim := e - 4
      let start : Nat :=
        if e < 2 then 0
        else
          match lastRuneStart p lim 3 (e - 2) with
          | some s => s
          | none => lim - 1
      let rs := decodeRune (p.drop start)
      if start + rs.2 ≠ e then (runeError, 1) else rs

/-- `bytes.TrimLeftFunc(s, unicode.IsSpace)`: runes are decoded from the left
and dropped while they are white space. -/
def trimLeftSpaceFunc : Nat → GoString → GoString
  | 0, s => s
  | fuel + 1, s =>
    match s with
    | [] => []
    | _ :: _ =>
      let rs := decodeRune s
      if unicodeIsSpace rs.1 then trimLeftSpaceFunc fuel (s.drop rs.2) else s

/-- `bytes.TrimRightFunc(s, unicode.IsSpace)`: runes are decoded from the
right and dropped while they are white space. -/
def trimRightSpaceFunc : Nat → GoString → GoString
  | 0, s => s
  | fuel + 1, s =>
    match s with
    | [] => []
    | _ :: _ =>
      let rs := decodeLastRune s
      if unicodeIsSpace rs.1 then trimRightSpaceFunc fuel (s.take (s.length - rs.2)) else s

/-- `bytes.TrimFunc(s, unicode.IsSpace)`. -/
def trimSpaceFunc (s : GoString) : GoString :=
  let l := trimLeftSpaceFunc s.length s
  trimRightSpaceFunc l.length l

/-- Second loop of `bytes.TrimSpace`, on the reversed remainder: drops ASCII
white space from the end; at a non-ASCII byte the remainder is handed to the
Unicode-aware `TrimFunc`. -/
def trimSpaceRight : GoString → GoString
  | [] => []
  | c :: rest =>
    if 128 ≤ c then trimSpaceFunc (c :: rest).reverse
    else if asciiSpace c then trimSpaceRight rest
    else (c :: rest).reverse

/-- `bytes.TrimSpace`: an ASCII fast path from both ends, falling back to the
Unicode-aware `TrimFunc` at the first non-ASCII byte met. -/
def bytesTrimSpace : GoString → GoString
  | [] => []
  | c :: rest =>
    if 128 ≤ c then trimSpaceFunc (c :: rest)
    else if asciiSpace c then bytesTrimSpace rest
    else trimSpaceRight (c :: rest).reverse

/-! ## `math/big`: integers -/

/-- `big.Int.SetBytes`: the big-endian unsigned integer held in a byte
slice. -/
def bigIntSetBytes (bs : GoString) : Nat :=
  bs.foldl (fun acc b => acc * 256 + b) 0

/-- `big.Int.Int64` on a non-negative integer: the low 64 bits, read as a
two's complement `int64`. -/
def bigIntInt64 (x : Nat) : Int :=
  let w : Nat := x % 2 ^ 64
  if w < 2 ^ 63 then (w : Int) else (w : Int) - 2 ^ 64

/-! ## `hexStringToString` (`utils.go`) -/

/-- The fallback of `hexStringToString`: `bytes.Trim(bs, "\x00")` followed by
`bytes.TrimSpace`. -/
def trimFallback (bs : GoString) : GoString :=
  bytesTrimSpace (bytesTrim bs 0)

/-- `hexStringToString`: the slice expression `hexStr[2:]` panics on a string
shorter than two bytes; a failing `hex.DecodeString` gives the error;
otherwise the ABI string layout is tried and the trimming fallback used when
the buffer is short or the length word does not fit. -/
def hexStringToString (hexStr : GoString) : Outcome GoString :=
  if hexStr.length < 2 then .panic
  else
    match hexDecodeString (hexStr.drop 2) with
    | .error e => .error e
    | .ok bs =>
      if bs.length < 64 then .ok (trimFallback bs)
      else
        let lengthBig := bigIntSetBytes ((bs.drop 32).take 32)
        let length := bigIntInt64 lengthBig
        if length ≤ 0 ∨ length > (bs.length : Int) - 64 then .ok (trimFallback bs)
        else .ok ((bs.drop 64).take length.toNat)

/-! ## `math/big`: floats -/

/-- The `form` of a `big.Float`. -/
inductive Form where
  | zero
  | finite
  | inf
  deriving DecidableEq, Repr

/-- A `big.Float`: precision, sign, form, mantissa and exponent. The mantissa
is kept as a natural number `mant` standing for the binary fraction `0.mant`,
so a finite value is `mant * 2 ^ (exp - bitLen mant)`. -/
structure BigFloat where
  prec : Nat
  neg : Bool
  form : Form
  mant : Nat
  exp : Int
  deriving DecidableEq, Repr

/-- `big.MaxExp`. -/
def MaxExp : Int := 2147483647

/-- `big.MinExp`. -/
def MinExp : Int := -2147483648

/-- Bit length with explicit fuel. -/
def bitLenAux : Nat → Nat → Nat
  | 0, _ => 0
  | fuel + 1, n => if n = 0 then 0 else bitLenAux fuel (n / 2) + 1

/-- `nat.bitLen`: the number of bits of `n`, `0` for `0`. -/
def bitLen (n : Nat) : Nat := bitLenAux n n

/-- A `float64`, by its exact value: `finite neg mant exp` is the number
`± mant * 2 ^ exp` (`finite true 0 0` is the negative zero), `inf neg` an
infinity. No operation of the package produces a NaN. -/
inductive F64 where
  | finite (neg : Bool) (mant : Nat) (exp : Int)
  | inf (neg : Bool)
  deriving DecidableEq, Repr

/-- The rational value of a finite `float64` (`0` for an infinity). -/
def F64.toRat : F64 → ℚ
  | .finite neg mant exp => (if neg then -1 else 1) * (mant : ℚ) * (2 : ℚ) ^ exp
  | .inf _ => 0

/-- Whether a `float64` is finite. -/
def F64.isFinite : F64 → Bool
  | .finite _ _ _ => true
  | .inf _ => false

/-- Whether a `float64` has its sign bit clear. -/
def F64.nonNeg : F64 → Bool
  | .finite neg _ _ => !neg
  | .inf neg => !neg

/-- `Float.round` in the mode `ToNearestEven`: the mantissa is cut to `prec`
bits; it is incremented when the first dropped bit is set and either a lower
bit (or the sticky bit `sbit`) is set or the kept mantissa is odd; a carry out
of the mantissa raises the exponent, and overflows to an infinity at
`MaxExp`. -/
def BigFloat.round (z : BigFloat) (sbit : Bool) : BigFloat :=
  if z.form ≠ Form.finite then z
  else
    let bits := bitLen z.mant
    if bits ≤ z.prec then z
    else
      let r := bits - z.prec - 1
      let rbit : Bool := (z.mant / 2 ^ r) % 2 == 1
      let sticky : Bool := sbit || z.mant % 2 ^ r != 0
      let q := z.mant / 2 ^ (r + 1)
      let inc : Bool := rbit && (sticky || q % 2 == 1)
      if inc then
        if q + 1 = 2 ^ z.prec then
          if z.exp ≥ MaxExp then { z with form := Form.inf }
          else { z with mant := 2 ^ (z.prec - 1), exp := z.exp + 1 }
        else { z with mant := q + 1 }
      else { z with mant := q }

/-- `Float.setExpAndRound`: underflow to zero below `MinExp`, overflow to an
infinity above `MaxExp`, otherwise the exponent is set and the mantissa
rounded. -/
def BigFloat.setExpAndRound (z : BigFloat) (exp : Int) (sbit : Bool) : BigFloat :=
  if exp < MinExp then { z with form := Form.zero }
  else if exp > MaxExp then { z with form := Form.inf }
  else ({ z with form := Form.finite, exp := exp }).round sbit

/-- `z.Mul(x, y)` for a receiver of precision `prec` and non-negative
operands that are not zero: the exact product, rounded. -/
def BigFloat.mul (prec : Nat) (x y : BigFloat) : BigFloat :=
  let z : BigFloat := { prec := prec, neg := x.neg != y.neg, form := Form.zero, mant := 0, exp := 0 }
  if x.form = Form.finite ∧ y.form = Form.finite then
    let m := x.mant * y.mant
    ({ z with mant := m }).setExpAndRound
      (x.exp + y.exp - ((bitLen x.mant + bitLen y.mant : Nat) : Int) + (bitLen m : Int)) false
  else if x.form = Form.inf ∨ y.form = Form.inf then { z with form := Form.inf }
  else z

/-- `z.Quo(x, y)` for a receiver of precision `prec` and a finite non-zero
dividend: the quotient of the mantissas is computed with more than `prec + 1`
bits, a non-zero remainder sets the sticky bit, and the result is rounded. -/
def BigFloat.quo (prec : Nat) (x y : BigFloat) : BigFloat :=
  let z : BigFloat := { prec := prec, neg := x.neg != y.neg, form := Form.zero, mant := 0, exp := 0 }
  if x.form = Form.finite ∧ y.form = Form.finite then
    let k := prec + 2 + bitLen y.mant
    let q := (x.mant * 2 ^ k) / y.mant
    let r := (x.mant * 2 ^ k) % y.mant
    ({ z with mant := q }).setExpAndRound
      (x.exp - y.exp + (bitLen y.mant : Int) - (bitLen x.mant : Int) - (k : Int) + (bitLen q : Int))
      (r != 0)
  else if x.form = Form.inf then { z with form := Form.inf }
  else z

/-- `z.SetUint64(x)` for a receiver of precision `prec ≥ 64`. -/
def BigFloat.setUint64 (prec : Nat) (x : Nat) : BigFloat :=
  if x = 0 then { prec := prec, neg := false, form := Form.zero, mant := 0, exp := 0 }
  else { prec := prec, neg := false, form := Form.finite, mant := x, exp := bitLen x }

/-- The loop of `Float.pow5` (square and multiply), `z` of precision `prec`
and `f` of precision `prec + 64`. -/
def pow5Loop (prec : Nat) : Nat → Nat → BigFloat → BigFloat → BigFloat
  | 0, _, z, _ => z
  | fuel + 1, n, z, f =>
    if n = 0 then z
    else
      let z1 := if n % 2 = 1 then BigFloat.mul prec z f else z
      pow5Loop prec fuel (n / 2) z1 (BigFloat.mul (prec + 64) f f)

/-- `z.pow5(n)` for a receiver of precision `prec`: exact from the table
`pow5tab` up to `5 ^ 27`, by square and multiply above. -/
def BigFloat.pow5 (prec : Nat) (n : Nat) : BigFloat :=
  if n ≤ 27 then BigFloat.setUint64 prec (5 ^ n)
  else pow5Loop prec n (n - 27) (BigFloat.setUint64 prec (5 ^ 27))
    (BigFloat.setUint64 (prec + 64) 5)

/-- Conversion of an integer to `int32`: two's complement wrap-around. -/
def wrapInt32 (i : Int) : Int := (i + 2147483648) % 4294967296 - 2147483648

/-- `Float.Float64`: the nearest `float64` (ties to even), an infinity above
the largest finite `float64`, a signed zero below half the smallest
denormal. The exponent `e := x.exp - 1` is an `int32`: at `x.exp = MinExp` it
wraps around to `MaxExp`. -/
def BigFloat.Float64 (x : BigFloat) : F64 :=
  match x.form with
  | Form.zero => F64.finite x.neg 0 0
  | Form.inf => F64.inf x.neg
  | Form.finite =>
    let e := wrapInt32 (x.exp - 1)
    let p : Int := if e < -1022 then 1075 + e else 53
    if p < 0 ∨ (p = 0 ∧ x.mant = 2 ^ (bitLen x.mant - 1)) then F64.finite x.neg 0 0
    else if p = 0 then F64.finite x.neg 1 (-1074)
    else
      let r := if p.toNat < x.prec then ({ x with prec := p.toNat }).round false else x
      if r.form = Form.inf ∨ wrapInt32 (r.exp - 1) > 1023 then F64.inf x.neg
      else F64.finite x.neg r.mant (r.exp - (bitLen r.mant : Int))

/-! ### Scanning a number (`nat.scan`, `scanExponent`, `Float.scan`) -/

/-- State of the digit loop of `nat.scan`: the value read so far, the digit
count, the previous character class (`'.'`, `'0'` or `'_'`), whether a
misplaced separator was seen, whether a radix point is still allowed, and the
digit count at the radix point. -/
structure MantScan where
  z : Nat
  count : Nat
  prev : Nat
  invalSep : Bool
  fracOk : Bool
  dp : Option Nat
  deriving DecidableEq, Repr

/-- Digit value of a character in `nat.scan`; `MaxBase + 1 = 63` for a
character that is no digit. -/
def digitValue (b ch : Nat) : Nat :=
  if 48 ≤ ch ∧ ch ≤ 57 then ch - 48
  else if 97 ≤ ch ∧ ch ≤ 122 then ch - 97 + 10
  else if 65 ≤ ch ∧ ch ≤ 90 then (if b ≤ 36 then ch - 65 + 10 else ch - 65 + 36)
  else 63

/-- The digit loop of `nat.scan` in base `b` (called with base argument 0):
returns the final state and the unread rest of the input. -/
def scanMantLoop (b : Nat) : GoString → MantScan → MantScan × GoString
  | [], st => (st, [])
  | ch :: rest, st =>
    if ch = 46 ∧ st.fracOk = true then
      scanMantLoop b rest { st with
        fracOk := false, invalSep := st.invalSep || st.prev == 95, prev := 46,
        dp := some st.count }
    else if ch = 95 then
      scanMantLoop b rest { st with invalSep := st.invalSep || st.prev != 48, prev := 95 }
    else
      let d1 := digitValue b ch
      if d1 ≥ b then (st, ch :: rest)
      else scanMantLoop b rest { st with prev := 48, count := st.count + 1, z := st.z * b + d1 }

/-- The base and the state after the optional base prefix, with the rest of
the input (`nat.scan` with base argument 0 and `fracOk`). -/
def scanBase (s : GoString) : Nat × MantScan × GoString :=
  let init : MantScan :=
    { z := 0, count := 0, prev := 46, invalSep := false, fracOk := true, dp := none }
  match s with
  | 48 :: ch :: rest =>
    if ch = 98 ∨ ch = 66 then (2, { init with prev := 48 }, rest)
    else if ch = 111 ∨ ch = 79 then (8, { init with prev := 48 }, rest)
    else if ch = 120 ∨ ch = 88 then (16, { init with prev := 48 }, rest)
    else (10, { init with prev := 48, count := 1 }, ch :: rest)
  | [48] => (10, { init with prev := 48, count := 1 }, [])
  | _ => (10, init, s)

/-- Result of `nat.scan`: value, base, digit count (minus the number of
fractional digits when there is a radix point), whether an error is returned,
and the unread input. -/
structure NatScan where
  res : Nat
  b : Nat
  count : Int
  err : Bool
  rest : GoString
  deriving DecidableEq, Repr

/-- `nat.scan(r, 0, true)`. -/
def natScan (s : GoString) : NatScan :=
  let pre := scanBase s
  let fin := scanMantLoop pre.1 pre.2.2 pre.2.1
  let st := fin.1
  { res := st.z
    b := pre.1
    count := match st.dp with
      | some dp => (dp : Int) - (st.count : Int)
      | none => (st.count : Int)
    err := st.count == 0 || st.invalSep || st.prev == 95
    rest := fin.2 }

/-- State of the digit loop of `scanExponent`. -/
structure ExpScan where
  digits : Nat
  hasDigits : Bool
  prev : Nat
  invalSep : Bool
  deriving DecidableEq, Repr

/-- The digit loop of `scanExponent` (separators allowed). -/
def scanExpLoop : GoString → ExpScan → ExpScan × GoString
  | [], st => (st, [])
  | ch :: rest, st =>
    if 48 ≤ ch ∧ ch ≤ 57 then
      scanExpLoop rest { st with digits := st.digits * 10 + (ch - 48), prev := 48, hasDigits := true }
    else if ch = 95 then
      scanExpLoop rest { st with invalSep := st.invalSep || st.prev != 48, prev := 95 }
    else (st, ch :: rest)

/-- Result of `scanExponent`: exponent, exponent base, error flag, unread
input. -/
structure ExpResult where
  exp : Int
  base : Nat
  err : Bool
  rest : GoString
  deriving DecidableEq, Repr

/-- `scanExponent(r, true, true)`: an optional `e`/`E` (base 10) or `p`/`P`
(base 2), an optional sign, decimal digits; the digits are converted by
`strconv.ParseInt(_, 10, 64)`, which fails outside the `int64` range. -/
def scanExponent (s : GoString) : ExpResult :=
  match s with
  | [] => { exp := 0, base := 10, err := false, rest := [] }
  | ch :: rest =>
    if ch = 101 ∨ ch = 69 ∨ ch = 112 ∨ ch = 80 then
      let base := if ch = 101 ∨ ch = 69 then 10 else 2
      let signed : Bool × GoString :=
        match rest with
        | 43 :: r => (false, r)
        | 45 :: r => (true, r)
        | r => (false, r)
      let fin := scanExpLoop signed.2 { digits := 0, hasDigits := false, prev := 46, invalSep := false }
      let st := fin.1
      let v : Int := if signed.1 then -(st.digits : Int) else (st.digits : Int)
      let rangeErr : Bool := v < -(2 : Int) ^ 63 || v > (2 : Int) ^ 63 - 1
      if !st.hasDigits || rangeErr then { exp := 0, base := base, err := true, rest := fin.2 }
      else { exp := v, base := base, err := st.invalSep || st.prev == 95, rest := fin.2 }
    else { exp := 0, base := 10, err := false, rest := ch :: rest }

/-- `scanSign`: `none` at the end of input (an error), else the sign and the
rest. -/
def scanSign (s : GoString) : Option (Bool × GoString) :=
  match s with
  | [] => none
  | 45 :: rest => some (true, rest)
  | 43 :: rest => some (false, rest)
  | ch :: rest => some (false, ch :: rest)

/-- Result of `Float.scan`: the receiver after the call, the error flag and
the unread input. -/
structure FloatScan where
  z : BigFloat
  err : Bool
  rest : GoString
  deriving DecidableEq, Repr

/-- `Float.scan(r, 0)` on a receiver of precision 0 (so the precision becomes
64). The receiver is written to as the scan proceeds: its form is `zero` until
the number has been scanned completely and its exponent found in range. -/
def floatScan (s : GoString) : FloatScan :=
  let zero (neg : Bool) (prec : Nat) (mant : Nat) : BigFloat :=
    { prec := prec, neg := neg, form := Form.zero, mant := mant, exp := 0 }
  match scanSign s with
  | none => { z := zero false 0 0, err := true, rest := [] }
  | some (neg, s1) =>
    let m := natScan s1
    if m.err then { z := zero neg 0 m.res, err := true, rest := m.rest }
    else
      let x := scanExponent m.rest
      if x.err then { z := zero neg 0 m.res, err := true, rest := x.rest }
      else if m.res = 0 then { z := zero neg 64 0, err := false, rest := x.rest }
      else
        let d : Int := if m.count < 0 then m.count else 0
        let exp5 : Int := (if m.b = 10 then d else 0) + (if x.base = 10 then x.exp else 0)
        let exp2 : Int := (bitLen m.res : Int)
          + (if m.b = 10 ∨ m.b = 2 then d else if m.b = 8 then d * 3 else d * 4) + x.exp
        if MinExp ≤ exp2 ∧ exp2 ≤ MaxExp then
          let z : BigFloat :=
            { prec := 64, neg := neg, form := Form.finite, mant := m.res, exp := exp2 }
          if exp5 = 0 then { z := z.round false, err := false, rest := x.rest }
          else if exp5 < 0 then
            { z := BigFloat.quo 64 z (BigFloat.pow5 128 (-exp5).toNat), err := false, rest := x.rest }
          else
            { z := BigFloat.mul 64 z (BigFloat.pow5 128 exp5.toNat), err := false, rest := x.rest }
        else { z := zero neg 0 m.res, err := true, rest := x.rest }

/-- `Float.Parse(s, 0)` as far as the receiver is concerned: the spellings of
the infinities are set directly, anything else is scanned. An error for
unread input after the number does not undo what the scan wrote to the
receiver. -/
def floatParse (s : GoString) : BigFloat :=
  let infinity (neg : Bool) : BigFloat :=
    { prec := 0, neg := neg, form := Form.inf, mant := 0, exp := 0 }
  if s = bytesOf "Inf" ∨ s = bytesOf "inf" ∨ s = bytesOf "+Inf" ∨ s = bytesOf "+inf" then
    infinity false
  else if s = bytesOf "-Inf" ∨ s = bytesOf "-inf" then infinity true
  else (floatScan s).z

/-- Whether `Float.SetString(s)` reports success: the scan succeeded and read
the entire string. -/
def floatSetStringOk (s : GoString) : Bool :=
  if s = bytesOf "Inf" ∨ s = bytesOf "inf" ∨ s = bytesOf "+Inf" ∨ s = bytesOf "+inf"
      ∨ s = bytesOf "-Inf" ∨ s = bytesOf "-inf" then true
  else !(floatScan s).err && (floatScan s).rest == []

/-! ## `hexStringToFloat64` (`utils.go`) -/

/-- `hexStringToFloat64`: `f := new(big.Float); f.SetString(hexStr)`, the
result of `SetString` being dropped, then `f.Float64()`. -/
def hexStringToFloat64 (hexStr : GoString) : F64 :=
  (floatParse hexStr).Float64

/-! ## Go maps -/

/-- A Go `map[string]string`: `none` is the nil map, otherwise the entries.
An index expression takes the first entry with the key. -/
abbrev StringMap := Option (List (GoString × GoString))

/-- The entries visited by a `range` over the map (none for the nil map). -/
def StringMap.entries (m : StringMap) : List (GoString × GoString) :=
  match m with
  | none => []
  | some es => es

/-- The keys visited by a `range` over the map, in the order of the visit. -/
def StringMap.keys (m : StringMap) : List GoString :=
  m.entries.map Prod.fst

/-- The index expression `m[k]`: the value stored under `k`, the zero value
`""` when the key is absent or the map is nil. -/
def StringMap.get (m : StringMap) (k : GoString) : GoString :=
  match m.entries.lookup k with
  | some v => v
  | none => []

/-- The `labelsMap` of a job, a Go `map[string]int`: its entries in the order
of insertion. -/
abbrev IndexMap := List (GoString × Nat)

/-! ## Address specs -/

/-- `AddressAccount` (`account.go`). -/
structure AddressAccount where
  Address : GoString
  Name : GoString
  Labels : StringMap
  deriving DecidableEq, Repr

/-- `AddressERC4337` (`erc4337.go`). -/
structure AddressERC4337 where
  Address : GoString
  Contract : GoString
  Name : GoString
  Labels : StringMap
  deriving DecidableEq, Repr

/-- `AddressERC4626` (`erc4626.go`). -/
structure AddressERC4626 where
  Address : GoString
  Contract : GoString
  Name : GoString
  Labels : StringMap
  deriving DecidableEq, Repr

/-! ## Label schema: the loops of the constructors -/

/-- Body of the inner constructor loop:
`if _, ok := labelsMap[label]; !ok { labelsMap[label] = len(labelsMap) }`. -/
def addLabel (labelsMap : IndexMap) (label : GoString) : IndexMap :=
  match labelsMap.lookup label with
  | some _ => labelsMap
  | none => labelsMap ++ [(label, labelsMap.length)]

/-- The nested constructor loop `for address := range addresses { for label :=
range addresses[address].Labels { ... } }`; `keys` lists, for each address in
order, the keys of its `Labels` in the order the `range` visits them. -/
def scanLabels (labelsMap : IndexMap) (keys : List (List GoString)) : IndexMap :=
  keys.foldl (fun m ks => ks.foldl addLabel m) labelsMap

/-- The assignment `s[i] = v` on a slice: a panic (`none`) when the index is
out of range. -/
def setIndex (s : List GoString) (i : Nat) (v : GoString) : Option (List GoString) :=
  if i < s.length then some (s.set i v) else none

/-- The constructor loop `labels := make([]string, len(labelsMap)); for label,
index := range labelsMap { labels[index] = label }`, the entries visited in
the order `order`. -/
def labelNamesIn (labelsMap order : IndexMap) : Option (List GoString) :=
  order.foldlM (fun labels e => setIndex labels e.2 e.1) (List.replicate labelsMap.length [])

/-- The loop of `getLabelValues`: `values := make([]string, len(labelsMap))`,
then for every entry `(label, index)` visited, `values[index] = value label`. -/
def fillLabelValues (value : GoString → GoString) (labelsMap order : IndexMap) :
    Option (List GoString) :=
  order.foldlM (fun values e => setIndex values e.2 (value e.1))
    (List.replicate labelsMap.length [])

/-! ## The three jobs -/

/-- The fields of `Account` that the verified functions use: the address
list, the label schema and the label names handed to the two instruments. -/
structure Account where
  addresses : List AddressAccount
  labelsMap : IndexMap
  labels : List GoString
  deriving DecidableEq, Repr

/-- The fields of `ERC4337` that the verified functions use. -/
structure ERC4337 where
  addresses : List AddressERC4337
  labelsMap : IndexMap
  labels : List GoString
  deriving DecidableEq, Repr

/-- The fields of `ERC4626` that the verified functions use. -/
structure ERC4626 where
  addresses : List AddressERC4626
  labelsMap : IndexMap
  labels : List GoString
  deriving DecidableEq, Repr

/-- The base labels with which `NewAccount` seeds `labelsMap`. -/
def accountBaseLabels : IndexMap := [(LabelName, 0), (LabelAddress, 1)]

/-- The base labels with which `NewERC4337` seeds `labelsMap`. -/
def erc4337BaseLabels : IndexMap := [(LabelName, 0), (LabelAddress, 1), (LabelContract, 2)]

/-- The base labels with which `NewERC4626` seeds `labelsMap`. -/
def erc4626BaseLabels : IndexMap :=
  [(LabelName, 0), (LabelAddress, 1), (LabelContract, 2), (LabelSymbol, 3)]

/-- The label schema built by `NewAccount`. -/
def accountLabelsMap (addresses : List AddressAccount) : IndexMap :=
  scanLabels accountBaseLabels (addresses.map fun a => a.Labels.keys)

/-- The label schema built by `NewERC4337`. -/
def erc4337LabelsMap (addresses : List AddressERC4337) : IndexMap :=
  scanLabels erc4337BaseLabels (addresses.map fun a => a.Labels.keys)

/-- The label schema built by `NewERC4626`. -/
def erc4626LabelsMap (addresses : List AddressERC4626) : IndexMap :=
  scanLabels erc4626BaseLabels (addresses.map fun a => a.Labels.keys)

/-! ### Registration of the instruments -/

/-- `prometheus.GaugeOpts` and `prometheus.CounterOpts`, the fields the
constructors set. -/
structure Opts where
  Namespace : GoString
  Name : GoString
  Help : GoString
  ConstLabels : StringMap
  deriving DecidableEq, Repr

/-- What the constructors hand to the registry: the vector made by
`prometheus.NewGaugeVec` or `prometheus.NewCounterVec` from its options and
its label names. -/
inductive Collector where
  | gaugeVec (opts : Opts) (labelNames : List GoString)
  | counterVec (opts : Opts) (labelNames : List GoString)
  deriving DecidableEq, Repr

/-- The registry behind `prometheus.MustRegister`, with state of type `ρ`:
`Register` accepts a collector and returns the next state, or returns an
error (for instance for a label name that is not valid, or for a collector
that is already registered). -/
structure Registerer (ρ : Type) where
  Register : ρ → Collector → Except GoError ρ

/-- `prometheus.MustRegister` for one collector: panics when `Register`
returns an error. -/
def MustRegister {ρ : Type} (reg : Registerer ρ) (r : ρ) (c : Collector) : Outcome Unit × ρ :=
  match reg.Register r c with
  | Except.ok r1 => (Outcome.ok (), r1)
  | Except.error _ => (Outcome.panic, r)

/-- The constant `NameAccount`. -/
def NameAccount : GoString := bytesOf "account"

/-- The constant `NameERC4337`. -/
def NameERC4337 : GoString := bytesOf "erc4337"

/-- The constant `NameERC4626`. -/
def NameERC4626 : GoString := bytesOf "erc4626"

/-- The two instruments of `NewAccount`. -/
def accountCollectors (ns : GoString) (constLabels : StringMap) (labels : List GoString) :
    Collector × Collector :=
  (Collector.gaugeVec
      { Namespace := ns ++ bytesOf "_" ++ NameAccount, Name := bytesOf "balance"
        Help := bytesOf "The balance of a account address.", ConstLabels := constLabels } labels,
    Collector.counterVec
      { Namespace := ns ++ bytesOf "_" ++ NameAccount, Name := bytesOf "errors_total"
        Help := bytesOf "The total errors when getting the balance of a account address."
        ConstLabels := constLabels } labels)

/-- The two instruments of `NewERC4337`. -/
def erc4337Collectors (ns : GoString) (constLabels : StringMap) (labels : List GoString) :
    Collector × Collector :=
  (Collector.gaugeVec
      { Namespace := ns ++ bytesOf "_" ++ NameERC4337, Name := bytesOf "balance"
        Help := bytesOf "The deposit balance of a ethereum ERC4337 account in the EntryPoint contract."
        ConstLabels := constLabels } labels,
    Collector.counterVec
      { Namespace := ns ++ bytesOf "_" ++ NameERC4337, Name := bytesOf "errors_total"
        Help := bytesOf "The total errors when getting the deposit balance of a ethereum ERC4337 account."
        ConstLabels := constLabels } labels)

/-- The two instruments of `NewERC4626`. -/
def erc4626Collectors (ns : GoString) (constLabels : StringMap) (labels : List GoString) :
    Collector × Collector :=
  (Collector.gaugeVec
      { Namespace := ns ++ bytesOf "_" ++ NameERC4626, Name := bytesOf "assets"
        Help := bytesOf "The asset value from ERC4626 vault convertToAssets function."
        ConstLabels := constLabels } labels,
    Collector.counterVec
      { Namespace := ns ++ bytesOf "_" ++ NameERC4626, Name := bytesOf "errors_total"
        Help := bytesOf "The total errors when calling ERC4626 vault functions."
        ConstLabels := constLabels } labels)

/-- The end of the three constructors: `MustRegister` on the value instrument,
then on the error instrument, then the return of the instance; a panic when
either registration fails. -/
def registerBoth {ρ α : Type} (reg : Registerer ρ) (r : ρ) (cs : Collector × Collector)
    (inst : α) : Outcome α × ρ :=
  match MustRegister reg r cs.1 with
  | (Outcome.ok _, r1) =>
    match MustRegister reg r1 cs.2 with
    | (Outcome.ok _, r2) => (Outcome.ok inst, r2)
    | (_, r2) => (Outcome.panic, r2)
  | (_, r1) => (Outcome.panic, r1)

/-- `NewAccount(client, log, checkInterval, namespace, constLabels,
addresses)`: builds the schema from the base labels and the custom label
keys, then the label-name slice (a panic if an index were out of range), then
the two instruments, which it registers. The `range` over `labelsMap` visits
its entries in the order `order`; `r` is the state of the registry `reg`. -/
def NewAccountIn {ρ : Type} (order : IndexMap) (reg : Registerer ρ) (r : ρ) (ns : GoString)
    (constLabels : StringMap) (addresses : List AddressAccount) : Outcome Account × ρ :=
  let labelsMap := accountLabelsMap addresses
  match labelNamesIn labelsMap order with
  | none => (Outcome.panic, r)
  | some labels =>
    registerBoth reg r (accountCollectors ns constLabels labels)
      { addresses := addresses, labelsMap := labelsMap, labels := labels }

/-- `NewAccount`, the schema ranged over in insertion order. -/
def NewAccount {ρ : Type} (reg : Registerer ρ) (r : ρ) (ns : GoString)
    (constLabels : StringMap) (addresses : List AddressAccount) : Outcome Account × ρ :=
  NewAccountIn (accountLabelsMap addresses) reg r ns constLabels addresses

/-- `NewERC4337`, the `range` over `labelsMap` visiting `order`. -/
def NewERC4337In {ρ : Type} (order : IndexMap) (reg : Registerer ρ) (r : ρ) (ns : GoString)
    (constLabels : StringMap) (addresses : List AddressERC4337) : Outcome ERC4337 × ρ :=
  let labelsMap := erc4337LabelsMap addresses
  match labelNamesIn labelsMap order with
  | none => (Outcome.panic, r)
  | some labels =>
    registerBoth reg r (erc4337Collectors ns constLabels labels)
      { addresses := addresses, labelsMap := labelsMap, labels := labels }

/-- `NewERC4337`, the schema ranged over in insertion order. -/
def NewERC4337 {ρ : Type} (reg : Registerer ρ) (r : ρ) (ns : GoString)
    (constLabels : StringMap) (addresses : List AddressERC4337) : Outcome ERC4337 × ρ :=
  NewERC4337In (erc4337LabelsMap addresses) reg r ns constLabels addresses

/-- `NewERC4626`, the `range` over `labelsMap` visiting `order`. -/
def NewERC4626In {ρ : Type} (order : IndexMap) (reg : Registerer ρ) (r : ρ) (ns : GoString)
    (constLabels : StringMap) (addresses : List AddressERC4626) : Outcome ERC4626 × ρ :=
  let labelsMap := erc4626LabelsMap addresses
  match labelNamesIn labelsMap order with
  | none => (Outcome.panic, r)
  | some labels =>
    registerBoth reg r (erc4626Collectors ns constLabels labels)
      { addresses := addresses, labelsMap := labelsMap, labels := labels }

/-- `NewERC4626`, the schema ranged over in insertion order. -/
def NewERC4626 {ρ : Type} (reg : Registerer ρ) (r : ρ) (ns : GoString)
    (constLabels : StringMap) (addresses : List AddressERC4626) : Outcome ERC4626 × ρ :=
  NewERC4626In (erc4626LabelsMap addresses) reg r ns constLabels addresses

/-! ## `getLabelValues` -/

/-- The value `Account.getLabelValues` stores for one label: the custom label
when the map is not nil and holds a non-empty value, else the `switch`. -/
def Account.labelValue (address : AddressAccount) (label : GoString) : GoString :=
  if address.Labels ≠ none ∧ address.Labels.get label ≠ [] then address.Labels.get label
  else if label = LabelName then address.Name
  else if label = LabelAddress then address.Address
  else LabelDefaultValue

/-- `Account.getLabelValues`, the `range` over `labelsMap` visiting `order`. -/
def Account.getLabelValuesIn (n : Account) (order : IndexMap) (address : AddressAccount) :
    Option (List GoString) :=
  fillLabelValues (Account.labelValue address) n.labelsMap order

/-- `Account.getLabelValues`, the schema ranged over in insertion order. -/
def Account.getLabelValues (n : Account) (address : AddressAccount) : Option (List GoString) :=
  n.getLabelValuesIn n.labelsMap address

/-- The value `ERC4337.getLabelValues` stores for one label. -/
def ERC4337.labelValue (address : AddressERC4337) (label : GoString) : GoString :=
  if address.Labels ≠ none ∧ address.Labels.get label ≠ [] then address.Labels.get label
  else if label = LabelName then address.Name
  else if label = LabelAddress then address.Address
  else if label = LabelContract then address.Contract
  else LabelDefaultValue

/-- `ERC4337.getLabelValues`, the `range` over `labelsMap` visiting `order`. -/
def ERC4337.getLabelValuesIn (n : ERC4337) (order : IndexMap) (address : AddressERC4337) :
    Option (List GoString) :=
  fillLabelValues (ERC4337.labelValue address) n.labelsMap order

/-- `ERC4337.getLabelValues`, the schema ranged over in insertion order. -/
def ERC4337.getLabelValues (n : ERC4337) (address : AddressERC4337) : Option (List GoString) :=
  n.getLabelValuesIn n.labelsMap address

/-- The value `ERC4626.getLabelValues` stores for one label. -/
def ERC4626.labelValue (address : AddressERC4626) (symbol label : GoString) : GoString :=
  if address.Labels ≠ none ∧ address.Labels.get label ≠ [] then address.Labels.get label
  else if label = LabelName then address.Name
  else if label = LabelAddress then address.Address
  else if label = LabelContract then address.Contract
  else if label = LabelSymbol then symbol
  else LabelDefaultValue

/-- `ERC4626.getLabelValues`, the `range` over `labelsMap` visiting `order`. -/
def ERC4626.getLabelValuesIn (n : ERC4626) (order : IndexMap) (address : AddressERC4626)
    (symbol : GoString) : Option (List GoString) :=
  fillLabelValues (ERC4626.labelValue address symbol) n.labelsMap order

/-- `ERC4626.getLabelValues`, the schema ranged over in insertion order. -/
def ERC4626.getLabelValues (n : ERC4626) (address : AddressERC4626) (symbol : GoString) :
    Option (List GoString) :=
  n.getLabelValuesIn n.labelsMap address symbol

/-! ## RPC client and metric instruments -/

/-- `api.ETHCallTransaction`, the two fields the jobs set. -/
structure ETHCallTransaction where
  To : GoString
  Data : GoString
  deriving DecidableEq, Repr

/-- The interface `api.ExecutionClient` as the jobs use it. The client may
keep state of type `σ`; a call returns the response or an error, and the next
state. -/
structure ExecutionClient (σ : Type) where
  ETHCall : σ → ETHCallTransaction → GoString → Except GoError GoString × σ
  ETHGetBalance : σ → GoString → GoString → Except GoError GoString × σ

/-- One call made on the RPC client. -/
inductive RpcCall where
  | ethCall (transaction : ETHCallTransaction) (block : GoString)
  | ethGetBalance (address : GoString) (block : GoString)
  deriving DecidableEq, Repr

/-- One write to the instruments of a job: `WithLabelValues(lvs...).Set(v)` on
the value instrument, `WithLabelValues(lvs...).Inc()` on the error
instrument. -/
inductive MetricOp where
  | set (labelValues : List GoString) (v : F64)
  | inc (labelValues : List GoString)
  deriving DecidableEq, Repr

/-- What a probe acts on: the state of the client and, in chronological
order, the RPC calls made and the instrument writes done so far. -/
structure World (σ : Type) where
  client : σ
  calls : List RpcCall
  ops : List MetricOp

/-- The cells of the two instruments of a job: the value instrument (a gauge
vector, `none` for a cell never set) and the error instrument (a counter
vector). -/
structure Instruments where
  gauge : List GoString → Option F64
  counter : List GoString → Nat

/-- Effect of one write on the instruments. -/
def Instruments.apply (i : Instruments) : MetricOp → Instruments
  | MetricOp.set lvs v =>
    { i with gauge := fun k => if k = lvs then some v else i.gauge k }
  | MetricOp.inc lvs =>
    { i with counter := fun k => if k = lvs then i.counter k + 1 else i.counter k }

/-- Effect of a sequence of writes on the instruments. -/
def Instruments.applyAll (i : Instruments) (ops : List MetricOp) : Instruments :=
  ops.foldl Instruments.apply i

/-- `validateLabelValues` of the Prometheus client, the check on which
`WithLabelValues` panics: as many values as the vector has label names, and
every value valid UTF-8. -/
def validateLabelValues (vals : List GoString) (expectedNumberOfValues : Nat) : Bool :=
  vals.length == expectedNumberOfValues && vals.all utf8ValidString

/-- The block tag shared by all calls. -/
def latest : GoString := bytesOf "latest"

/-! ## Per-address probes -/

/-- `Account.getBalance`. The deferred function increments the error
instrument when `err` is not nil at return. The label values are strings of
the address spec; the writes are modelled for address specs whose strings
`WithLabelValues` accepts. -/
def Account.getBalance {σ : Type} (n : Account) (c : ExecutionClient σ)
    (address : AddressAccount) (w : World σ) : Outcome Unit × World σ :=
  let r := c.ETHGetBalance w.client address.Address latest
  let w1 : World σ :=
    { client := r.2, calls := w.calls ++ [RpcCall.ethGetBalance address.Address latest],
      ops := w.ops }
  match r.1 with
  | Except.error err =>
    match n.getLabelValues address with
    | none => (Outcome.panic, w1)
    | some lvs => (Outcome.error err, { w1 with ops := w1.ops ++ [MetricOp.inc lvs] })
  | Except.ok balance =>
    let balanceFloat64 := hexStringToFloat64 balance
    match n.getLabelValues address with
    | none => (Outcome.panic, w1)
    | some lvs => (Outcome.ok (), { w1 with ops := w1.ops ++ [MetricOp.set lvs balanceFloat64] })

/-- The call data of `balanceOf(address)`:
`"0x70a08231000000000000000000000000" + address.Address[2:]`. -/
def balanceOfData (address : GoString) : GoString :=
  bytesOf "0x70a08231000000000000000000000000" ++ address.drop 2

/-- `ERC4337.getBalance`. The slice expression `address.Address[2:]` panics
on an address shorter than two bytes. The label values are strings of the
address spec; the writes are modelled for address specs whose strings
`WithLabelValues` accepts. -/
def ERC4337.getBalance {σ : Type} (n : ERC4337) (c : ExecutionClient σ)
    (address : AddressERC4337) (w : World σ) : Outcome Unit × World σ :=
  if address.Address.length < 2 then (Outcome.panic, w)
  else
    let transaction : ETHCallTransaction :=
      { To := address.Contract, Data := balanceOfData address.Address }
    let r := c.ETHCall w.client transaction latest
    let w1 : World σ :=
      { client := r.2, calls := w.calls ++ [RpcCall.ethCall transaction latest], ops := w.ops }
    match r.1 with
    | Except.error err =>
      match n.getLabelValues address with
      | none => (Outcome.panic, w1)
      | some lvs => (Outcome.error err, { w1 with ops := w1.ops ++ [MetricOp.inc lvs] })
    | Except.ok balanceStr =>
      match n.getLabelValues address with
      | none => (Outcome.panic, w1)
      | some lvs =>
        (Outcome.ok (),
          { w1 with ops := w1.ops ++ [MetricOp.set lvs (hexStringToFloat64 balanceStr)] })

/-- `strings.TrimPrefix`. -/
def stringsTrimLeading (s pre : GoString) : GoString :=
  if pre.isPrefixOf s then s.drop pre.length else s

/-- Rune count with explicit fuel. -/
def runeCountAux : Nat → GoString → Nat
  | 0, _ => 0
  | fuel + 1, s =>
    match s with
    | [] => 0
    | _ :: _ => runeCountAux fuel (s.drop (decodeRune s).2) + 1

/-- `utf8.RuneCountInString`: an invalid byte counts as one rune. -/
def runeCountInString (s : GoString) : Nat := runeCountAux s.length s

/-- `fmt.Sprintf("%064s", s)`: zeros on the left up to a width of 64, the
width being counted in runes. -/
def sprintf064s (s : GoString) : GoString :=
  List.replicate (64 - runeCountInString s) 48 ++ s

/-- The `shares` argument of `ERC4626.getAssets`: the response without a
leading `0x`, `"0"` when that is empty, padded when shorter than 64 bytes. -/
def sharesWord (sharesStr : GoString) : GoString :=
  let shares := stringsTrimLeading sharesStr (bytesOf "0x")
  let shares := if shares = [] then bytesOf "0" else shares
  if shares.length < 64 then sprintf064s shares else shares

/-- The call data of `convertToAssets(uint256)`. -/
def convertToAssetsData (sharesStr : GoString) : GoString :=
  bytesOf "0x07a2d13a" ++ sharesWord sharesStr

/-- The call data `symbolData` of `ERC4626.getAssets`. -/
def symbolData : GoString := bytesOf "0x95d89b41000000000000000000000000"

/-- The deferred function of `ERC4626.getAssets` on a return with an error:
`symbol` is still `""` on every such return, so that the label values are
strings of the address spec; the write is modelled for address specs whose
strings `WithLabelValues` accepts. -/
def ERC4626.fail {σ : Type} (n : ERC4626) (address : AddressERC4626) (err : GoError)
    (w : World σ) : Outcome Unit × World σ :=
  match n.getLabelValues address [] with
  | none => (Outcome.panic, w)
  | some lvs => (Outcome.error err, { w with ops := w.ops ++ [MetricOp.inc lvs] })

/-- `ERC4626.getAssets`: `balanceOf`, `convertToAssets`, `symbol`, the decoding
of the symbol, and the write to the value instrument. The decoded symbol, bytes
chosen by the contract, becomes a label value there: `WithLabelValues` panics
when `validateLabelValues` rejects the label values. -/
def ERC4626.getAssets {σ : Type} (n : ERC4626) (c : ExecutionClient σ)
    (address : AddressERC4626) (w : World σ) : Outcome Unit × World σ :=
  if address.Address.length < 2 then (Outcome.panic, w)
  else
    let t1 : ETHCallTransaction :=
      { To := address.Contract, Data := balanceOfData address.Address }
    let r1 := c.ETHCall w.client t1 latest
    let w1 : World σ :=
      { client := r1.2, calls := w.calls ++ [RpcCall.ethCall t1 latest], ops := w.ops }
    match r1.1 with
    | Except.error err => n.fail address err w1
    | Except.ok sharesStr =>
      let t2 : ETHCallTransaction :=
        { To := address.Contract, Data := convertToAssetsData sharesStr }
      let r2 := c.ETHCall w1.client t2 latest
      let w2 : World σ :=
        { client := r2.2, calls := w1.calls ++ [RpcCall.ethCall t2 latest], ops := w1.ops }
      match r2.1 with
      | Except.error err => n.fail address err w2
      | Except.ok assetsStr =>
        let t3 : ETHCallTransaction := { To := address.Contract, Data := symbolData }
        let r3 := c.ETHCall w2.client t3 latest
        let w3 : World σ :=
          { client := r3.2, calls := w2.calls ++ [RpcCall.ethCall t3 latest], ops := w2.ops }
        match r3.1 with
        | Except.error err => n.fail address err w3
        | Except.ok symbolHex =>
          match hexStringToString symbolHex with
          | Outcome.panic => (Outcome.panic, w3)
          | Outcome.error err => n.fail address err w3
          | Outcome.ok symbol =>
            match n.getLabelValues address symbol with
            | none => (Outcome.panic, w3)
            | some lvs =>
              if validateLabelValues lvs n.labels.length then
                (Outcome.ok (),
                  { w3 with ops := w3.ops ++ [MetricOp.set lvs (hexStringToFloat64 assetsStr)] })
              else (Outcome.panic, w3)

/-! ## Ticks and the scheduling loop -/

/-- The loop of `tick`: the probe is run for each address in order; an error
is logged and dropped; a panic ends the loop (and the process). -/
def tickLoop {α τ : Type} (probe : α → τ → Outcome Unit × τ) : List α → τ → Outcome Unit × τ
  | [], w => (Outcome.ok (), w)
  | a :: rest, w =>
    match probe a w with
    | (Outcome.panic, w1) => (Outcome.panic, w1)
    | (_, w1) => tickLoop probe rest w1

/-- The probes return along a run over the addresses: the probe of the first
address does not panic on `w`, the probe of the second does not panic on the
state that the first leaves, and so on. -/
def probesReturn {α τ : Type} (probe : α → τ → Outcome Unit × τ) : List α → τ → Prop
  | [], _ => True
  | a :: rest, w => (probe a w).1 ≠ Outcome.panic ∧ probesReturn probe rest (probe a w).2

/-- `Account.tick`. -/
def Account.tick {σ : Type} (n : Account) (c : ExecutionClient σ) (w : World σ) :
    Outcome Unit × World σ :=
  tickLoop (n.getBalance c) n.addresses w

/-- `ERC4337.tick`. -/
def ERC4337.tick {σ : Type} (n : ERC4337) (c : ExecutionClient σ) (w : World σ) :
    Outcome Unit × World σ :=
  tickLoop (n.getBalance c) n.addresses w

/-- `ERC4626.tick`. -/
def ERC4626.tick {σ : Type} (n : ERC4626) (c : ExecutionClient σ) (w : World σ) :
    Outcome Unit × World σ :=
  tickLoop (n.getAssets c) n.addresses w

/-- Which case of the `select` in `Start` is taken at one wait: the context
is done, or the timer of `time.After(checkInterval)` fired. -/
inductive SelectCase where
  | done
  | after
  deriving DecidableEq, Repr

/-- How a run of `Start` over a finite sequence of waits ends: it returned,
it is still blocked in the `select`, or a tick panicked. -/
inductive StartResult where
  | returned
  | waiting
  | panicked
  deriving DecidableEq, Repr

/-- The `for { select { ... } }` loop of `Start`. -/
def startLoop {τ : Type} (tick : τ → Outcome Unit × τ) : List SelectCase → τ → StartResult × τ
  | [], w => (StartResult.waiting, w)
  | SelectCase.done :: _, w => (StartResult.returned, w)
  | SelectCase.after :: rest, w =>
    match tick w with
    | (Outcome.panic, w1) => (StartResult.panicked, w1)
    | (_, w1) => startLoop tick rest w1

/-- `Start`, for a job whose `tick` is `tick`: one tick, then the loop. The
three jobs have the same `Start`. -/
def Start {τ : Type} (tick : τ → Outcome Unit × τ) (waits : List SelectCase) (w : τ) :
    StartResult × τ :=
  match tick w with
  | (Outcome.panic, w1) => (StartResult.panicked, w1)
  | (_, w1) => startLoop tick waits w1

/-- `Account.Start`. -/
def Account.Start {σ : Type} (n : Account) (c : ExecutionClient σ) (waits : List SelectCase)
    (w : World σ) : StartResult × World σ :=
  Jobs.Start (n.tick c) waits w

/-- `ERC4337.Start`. -/
def ERC4337.Start {σ : Type} (n : ERC4337) (c : ExecutionClient σ) (waits : List SelectCase)
    (w : World σ) : StartResult × World σ :=
  Jobs.Start (n.tick c) waits w

/-- `ERC4626.Start`. -/
def ERC4626.Start {σ : Type} (n : ERC4626) (c : ExecutionClient σ) (waits : List SelectCase)
    (w : World σ) : StartResult × World σ :=
  Jobs.Start (n.tick c) waits w

/-! ## The mock client of the tests (`erc4626_test.go`) -/

/-- `mockExecutionClient`, the fields read by `ETHCall` and `ETHGetBalance`
(the call log is kept in `World`). -/
structure mockExecutionClient where
  balanceOfResponse : GoString := []
  convertToAssetsResponse : GoString := []
  symbolResponse : GoString := []
  getReservesResponse : GoString := []
  latestAnswerResponse : GoString := []
  balanceOfError : Option GoError := none
  convertToAssetsError : Option GoError := none
  symbolError : Option GoError := none
  ethGetBalanceResponse : GoString := []
  ethGetBalanceError : Option GoError := none

/-- `mockExecutionClient.ETHCall`: dispatch on the first ten bytes of the
call data. -/
def mockExecutionClient.ETHCall (m : mockExecutionClient) (transaction : ETHCallTransaction) :
    Except GoError GoString :=
  let sel := transaction.Data.take 10
  let long : Bool := decide (transaction.Data.length ≥ 10)
  if long ∧ sel = bytesOf "0x70a08231" then
    match m.balanceOfError with
    | some e => Except.error e
    | none => Except.ok m.balanceOfResponse
  else if long ∧ sel = bytesOf "0x07a2d13a" then
    match m.convertToAssetsError with
    | some e => Except.error e
    | none => Except.ok m.convertToAssetsResponse
  else if long ∧ sel = bytesOf "0x95d89b41" then
    match m.symbolError with
    | some e => Except.error e
    | none =>
      if m.symbolResponse ≠ [] then Except.ok m.symbolResponse
      else Except.ok (bytesOf "0x0000000000000000000000000000000000000000000000000000000000000020000000000000000000000000000000000000000000000000000000000000000455544800000000000000000000000000000000000000000000000000000000")
  else if long ∧ sel = bytesOf "0x0902f1ac" then
    if m.getReservesResponse ≠ [] then Except.ok m.getReservesResponse
    else Except.ok (bytesOf "0x0000000000000000000000000000000000000000000000000de0b6b3a76400000000000000000000000000000000000000000000000000000de0b6b3a7640000")
  else if long ∧ sel = bytesOf "0x50d25bcd" then
    if m.latestAnswerResponse ≠ [] then Except.ok m.latestAnswerResponse
    else Except.ok (bytesOf "0x0000000000000000000000000000000000000000000000000000000000000000")
  else if long ∧ sel = bytesOf "0x00fdd58e" then
    match m.balanceOfError with
    | some e => Except.error e
    | none => Except.ok m.balanceOfResponse
  else Except.ok (bytesOf "0x0")

/-- `mockExecutionClient.ETHGetBalance`. -/
def mockExecutionClient.ETHGetBalance (m : mockExecutionClient) : Except GoError GoString :=
  match m.ethGetBalanceError with
  | some e => Except.error e
  | none =>
    if m.ethGetBalanceResponse ≠ [] then Except.ok m.ethGetBalanceResponse
    else Except.ok (bytesOf "0x0")

/-- The mock as an `ExecutionClient` without state of its own. -/
def mockExecutionClient.client (m : mockExecutionClient) : ExecutionClient Unit where
  ETHCall := fun s transaction _ => (m.ETHCall transaction, s)
  ETHGetBalance := fun s _ _ => (m.ETHGetBalance, s)

/-- The symbol response used throughout `erc4626_test.go`. -/
def testSymbolResponse : GoString :=
  bytesOf "0x0000000000000000000000000000000000000000000000000000000000000020000000000000000000000000000000000000000000000000000000000000000973555344432d5661756c74000000000000000000000000000000000000000000"

/-- The address of the first case of `TestERC4626_getAssets`. -/
def testVault : AddressERC4626 :=
  { Name := bytesOf "Test Vault"
    Address := bytesOf "0x1234567890123456789012345678901234567890"
    Contract := bytesOf "0xBEEF01735c132Ada46AA9aA4c54623cAA92A64CB"
    Labels := some [(bytesOf "type", bytesOf "usdc")] }

/-- The mock client of the first case of `TestERC4626_getAssets`. -/
def testVaultClient : mockExecutionClient :=
  { balanceOfResponse := bytesOf "0x0000000000000000000000000000000000000000000000000de0b6b3a7640000"
    convertToAssetsResponse := bytesOf "0x00000000000000000000000000000000000000000000000000038d7ea4c68000"
    symbolResponse := testSymbolResponse }

/-! ## Reference definitions used in the statements -/

/-- The integer that a string of hexadecimal digits denotes in base 16. -/
def hexValue (ds : GoString) : Nat :=
  ds.foldl (fun acc c => acc * 16 + (fromHexChar c).getD 0) 0

/-- Every byte of the string is a hexadecimal digit. -/
def isHexDigits (ds : GoString) : Prop :=
  ∀ c ∈ ds, (fromHexChar c).isSome = true

/-- The lower-case hexadecimal digit of a value below 16. -/
def hexDigit (d : Nat) : Nat := if d < 10 then 48 + d else 87 + d

/-- Hexadecimal text of a byte string, two digits per byte. -/
def hexEncode : GoString → GoString
  | [] => []
  | b :: bs => hexDigit (b / 16) :: hexDigit (b % 16) :: hexEncode bs

/-- The big-endian representation of `n` on `k` bytes. -/
def bigEndian : Nat → Nat → GoString
  | 0, _ => []
  | k + 1, n => bigEndian k (n / 256) ++ [n % 256]

/-- The standard ABI encoding of a byte string `s`, after the comment in
`hexStringToString`: a 32-byte offset word equal to `0x20`, a 32-byte
big-endian length word, then `s` padded on the right with zero bytes to a
multiple of 32 bytes. -/
def abiEncodeString (s : GoString) : GoString :=
  bigEndian 32 32 ++ bigEndian 32 s.length ++ s ++ List.replicate ((32 - s.length % 32) % 32) 0

instance (ds : GoString) : Decidable (isHexDigits ds) := by
  unfold isHexDigits
  infer_instance

/-- A response of 65 bytes whose length word is `2 ^ 64 + 1` and whose data
is the single byte `A`. -/
def wrapInput : GoString :=
  bytesOf "0x" ++ hexEncode (bigEndian 32 32 ++ bigEndian 32 (2 ^ 64 + 1) ++ [65])

/-- The buffer that `wrapInput` decodes to. -/
def wrapBuffer : GoString :=
  bigEndian 32 32 ++ bigEndian 32 (2 ^ 64 + 1) ++ [65]

/-- A schema is well formed when its keys are pairwise distinct and the
entry at position `p` carries the index `p`. -/
def Schema (m : IndexMap) : Prop :=
  (m.map Prod.fst).Nodup ∧ m.map Prod.snd = List.range m.length

/-- The label `a` occurs among the custom label keys of the address at
position `i` and of no earlier address; `keys` lists the keys per address. -/
def firstOccursAt (keys : List (List GoString)) (i : Nat) (a : GoString) : Prop :=
  (∃ ks, keys[i]? = some ks ∧ a ∈ ks)
    ∧ ∀ i', i' < i → ∀ ks, keys[i']? = some ks → a ∉ ks

/-- Every address introduces at most one label name that the schema built so
far does not hold. -/
def atMostOneNew : IndexMap → List (List GoString) → Prop
  | _, [] => True
  | m, ks :: rest =>
    (∀ k ∈ ks, ∀ k' ∈ ks, k ∉ m.map Prod.fst → k' ∉ m.map Prod.fst → k = k')
      ∧ atMostOneNew (ks.foldl addLabel m) rest

/-- Whether a byte may start a name under the naming rule
`[a-zA-Z_][a-zA-Z0-9_]*` of Prometheus. -/
def isNameStart (c : Nat) : Bool :=
  (97 ≤ c && c ≤ 122) || (65 ≤ c && c ≤ 90) || c == 95

/-- Whether a byte may follow in such a name. -/
def isNameByte (c : Nat) : Bool := isNameStart c || (48 ≤ c && c ≤ 57)

/-- A label name that the registry of the evaluations accepts: it follows the
naming rule and does not start with the reserved `__`. -/
def checkLabelName (l : GoString) : Bool :=
  match l with
  | [] => false
  | c :: rest => isNameStart c && rest.all isNameByte && !(bytesOf "__").isPrefixOf l

/-- Whether the entries of a list are pairwise distinct. -/
def allDistinct : List GoString → Bool
  | [] => true
  | a :: l => !l.contains a && allDistinct l

/-- The fully qualified name of a vector: namespace, `_`, name. -/
def Collector.fqName : Collector → GoString
  | Collector.gaugeVec opts _ => opts.Namespace ++ bytesOf "_" ++ opts.Name
  | Collector.counterVec opts _ => opts.Namespace ++ bytesOf "_" ++ opts.Name

/-- The label names of a vector. -/
def Collector.labelNames : Collector → List GoString
  | Collector.gaugeVec _ labelNames => labelNames
  | Collector.counterVec _ labelNames => labelNames

/-- The registry used in the evaluations; its state is the list of the names
registered. It accepts a vector when every label name passes
`checkLabelName`, the label names are pairwise distinct and no vector of that
name is registered yet. -/
def testRegistry : Registerer (List GoString) where
  Register := fun r c =>
    if c.labelNames.all checkLabelName && allDistinct c.labelNames && !r.contains c.fqName then
      Except.ok (r ++ [c.fqName])
    else Except.error (GoError.other (bytesOf "descriptor rejected"))

/-- The namespace used in the evaluations. -/
def testNamespace : GoString := bytesOf "eth_address"

/-- A registry that accepts no collector. -/
def closedRegistry : Registerer Unit where
  Register := fun _ _ => Except.error (GoError.other (bytesOf "registration refused"))

/-- An address of the Account job whose custom labels hold the key `name`
with an empty value. -/
def emptyNameAccount : AddressAccount :=
  { Name := bytesOf "Test Account"
    Address := bytesOf "0x1234567890123456789012345678901234567890"
    Labels := some [(bytesOf "name", bytesOf "")] }

/-- The first call of `getAssets`. -/
def call1 (address : AddressERC4626) : ETHCallTransaction :=
  { To := address.Contract, Data := balanceOfData address.Address }

/-- The second call of `getAssets`, for the response `sharesStr` to the
first. -/
def call2 (address : AddressERC4626) (sharesStr : GoString) : ETHCallTransaction :=
  { To := address.Contract, Data := convertToAssetsData sharesStr }

/-- The third call of `getAssets`. -/
def call3 (address : AddressERC4626) : ETHCallTransaction :=
  { To := address.Contract, Data := symbolData }

/-- The answers of the client, from the state `s` on, make `getAssets` fail
with `e`: the first call returns `e`; or it succeeds and the second returns
`e`; or both succeed and the third returns `e`; or the three succeed and the
decoding of the symbol response returns `e`. -/
def probeFails {σ : Type} (c : ExecutionClient σ) (address : AddressERC4626) (s : σ)
    (e : GoError) : Prop :=
  match (c.ETHCall s (call1 address) latest).1 with
  | Except.error e1 => e1 = e
  | Except.ok sharesStr =>
    match (c.ETHCall (c.ETHCall s (call1 address) latest).2 (call2 address sharesStr)
      latest).1 with
    | Except.error e2 => e2 = e
    | Except.ok _ =>
      match (c.ETHCall (c.ETHCall (c.ETHCall s (call1 address) latest).2
        (call2 address sharesStr) latest).2 (call3 address) latest).1 with
      | Except.error e3 => e3 = e
      | Except.ok symbolHex => hexStringToString symbolHex = Outcome.error e

/-- The job that `NewERC4626` returns for the single address `testVault`. -/
def testVaultJob : ERC4626 :=
  { addresses := [testVault], labelsMap := erc4626LabelsMap [testVault],
    labels := (erc4626LabelsMap [testVault]).map Prod.fst }

/-- The mock client of `testVaultClient` with a symbol response that is not
hexadecimal. -/
def badSymbolClient : mockExecutionClient :=
  { testVaultClient with symbolResponse := bytesOf "0xzz" }

/-- The mock client of `testVaultClient` with the symbol response `"0xff"`:
valid hex that decodes to a byte which is not valid UTF-8. -/
def invalidSymbolClient : mockExecutionClient :=
  { testVaultClient with symbolResponse := bytesOf "0xff" }

/-- The mock client of `testVaultClient` whose symbol response is the ABI
encoding of the one-byte string `ff`. -/
def invalidAbiSymbolClient : mockExecutionClient :=
  { testVaultClient with symbolResponse := bytesOf "0x" ++ hexEncode (abiEncodeString [255]) }

/-- The mock client of `testVaultClient` with a symbol response of one byte. -/
def shortSymbolClient : mockExecutionClient :=
  { testVaultClient with symbolResponse := bytesOf "0" }

/-- A mock client whose `balanceOf` call fails. -/
def failingClient : mockExecutionClient :=
  { balanceOfError := some (GoError.other (bytesOf "connection refused"))
    ethGetBalanceError := some (GoError.other (bytesOf "connection refused")) }

/-- The world before the first probe: no call made, no instrument written. -/
def World.init : World Unit := { client := (), calls := [], ops := [] }

/-- The address of the first case of `TestAccount_getBalance`. -/
def testAccount : AddressAccount :=
  { Name := bytesOf "Test Account"
    Address := bytesOf "0x1234567890123456789012345678901234567890"
    Labels := some [(bytesOf "type", bytesOf "friend")] }

/-- The job that `NewAccount` builds from the single address `testAccount`. -/
def testAccountJob : Account :=
  { addresses := [testAccount], labelsMap := accountLabelsMap [testAccount],
    labels := (accountLabelsMap [testAccount]).map Prod.fst }

/-- An address of the ERC4337 job, after `TestERC4337_tick`. -/
def testEntryPoint : AddressERC4337 :=
  { Name := bytesOf "Account 1"
    Address := bytesOf "0x1111111111111111111111111111111111111111"
    Contract := bytesOf "0xAAAAAAAAAAAAAAAAAAAAAAAAAAAAAAAAAAAAAAAA"
    Labels := some [] }

/-- The job that `NewERC4337` builds from the single address
`testEntryPoint`. -/
def testEntryPointJob : ERC4337 :=
  { addresses := [testEntryPoint], labelsMap := erc4337LabelsMap [testEntryPoint],
    labels := (erc4337LabelsMap [testEntryPoint]).map Prod.fst }

/-- The three possible ends of a probe, stated on its result `r` for the
instrument writes `ops` made before it. -/
def ProbeEnd {σ : Type} (ops : List MetricOp) (r : Outcome Unit × World σ) : Prop :=
  (r.1 = Outcome.ok () ∧ ∃ lvs v, r.2.ops = ops ++ [MetricOp.set lvs v])
    ∨ (∃ e, r.1 = Outcome.error e ∧ ∃ lvs, r.2.ops = ops ++ [MetricOp.inc lvs])
    ∨ (r.1 = Outcome.panic ∧ r.2.ops = ops)

/-- The call of `ERC4337.getBalance`. -/
def balanceCall (address : AddressERC4337) : ETHCallTransaction :=
  { To := address.Contract, Data := balanceOfData address.Address }

/-- A second vault address, after `TestERC4626_tick`. -/
def testVault2 : AddressERC4626 :=
  { Name := bytesOf "Vault 2"
    Address := bytesOf "0x2222222222222222222222222222222222222222"
    Contract := bytesOf "0xBEEF01735c132Ada46AA9aA4c54623cAA92A64CB"
    Labels := some [] }

/-- The job that `NewERC4626` builds from the two addresses `testVault` and
`testVault2`. -/
def twoVaultJob : ERC4626 :=
  { addresses := [testVault, testVault2], labelsMap := erc4626LabelsMap [testVault, testVault2],
    labels := (erc4626LabelsMap [testVault, testVault2]).map Prod.fst }

/-- An ERC4337 address spec whose `Address` has a single byte. -/
def shortEntryPoint : AddressERC4337 :=
  { testEntryPoint with Address := bytesOf "0" }

/-- The value of a natural number `v` rounded to `p` significant bits, ties
to even: what `Float.round` does to an integer mantissa, written on the value
(the quotient `q` keeps the top `p` bits and is incremented when the first
dropped bit is set and either a lower bit is set or `q` is odd). -/
def roundNat (p v : Nat) : Nat :=
  if bitLen v ≤ p then v
  else
    let r := bitLen v - p - 1
    let q := v / 2 ^ (r + 1)
    if ((v / 2 ^ r) % 2 == 1) && ((v % 2 ^ r != 0) || (q % 2 == 1)) then (q + 1) * 2 ^ (r + 1)
    else q * 2 ^ (r + 1)

/-- Order of `float64` values (no NaN occurs): an infinity is below or above
everything according to its sign, finite values compare by their value. -/
def F64.le : F64 → F64 → Prop
  | F64.inf true, _ => True
  | _, F64.inf false => True
  | F64.finite n m e, F64.finite n' m' e' =>
    (F64.finite n m e).toRat ≤ (F64.finite n' m' e').toRat
  | _, _ => False

/-- The empty instruments: no cell set, every count zero. -/
def Instruments.empty : Instruments :=
  { gauge := fun _ => none, counter := fun _ => 0 }

/-! ## Theorems: `hexStringToString` -/

theorem fromHexChar_hexDigit (d : Nat) (h : d < 16) : fromHexChar (hexDigit d) = some d := by
  have : ∀ d, d < 16 → fromHexChar (hexDigit d) = some d := by decide
  exact this d h

theorem hexDecodeString_hexEncode (bs : GoString) (h : ∀ b ∈ bs, b < 256) :
    hexDecodeString (hexEncode bs) = Except.ok bs := by
  induction bs with
  | nil => rfl
  | cons b bs ih =>
    have hb : b < 256 := h b (List.mem_cons_self _ _)
    have h1 : fromHexChar (hexDigit (b / 16)) = some (b / 16) :=
      fromHexChar_hexDigit _ (by omega)
    have h2 : fromHexChar (hexDigit (b % 16)) = some (b % 16) :=
      fromHexChar_hexDigit _ (by omega)
    have ih' := ih (fun x hx => h x (List.mem_cons_of_mem _ hx))
    simp only [hexEncode, hexDecodeString, h1, h2, ih']
    have : b / 16 * 16 + b % 16 = b := by omega
    rw [this]

theorem hexDecodeString_ok_of_hex : ∀ (n : Nat) (s : GoString), s.length ≤ n →
    isHexDigits s → s.length % 2 = 0 → ∃ bs, hexDecodeString s = Except.ok bs := by
  intro n
  induction n with
  | zero =>
    intro s hs _ _
    have : s = [] := List.length_eq_zero.mp (by omega)
    subst this
    exact ⟨[], rfl⟩
  | succ n ih =>
    intro s hs hh he
    match s, hs, hh, he with
    | [], _, _, _ => exact ⟨[], rfl⟩
    | [p], _, _, he => simp at he
    | p :: q :: rest, hs, hh, he =>
      have hp : (fromHexChar p).isSome = true := hh p (by simp)
      have hq : (fromHexChar q).isSome = true := hh q (by simp)
      obtain ⟨a, ha⟩ := Option.isSome_iff_exists.mp hp
      obtain ⟨b, hb⟩ := Option.isSome_iff_exists.mp hq
      have hrest : isHexDigits rest := fun c hc => hh c (by simp [hc])
      have hlen : rest.length ≤ n := by simp at hs; omega
      have hev : rest.length % 2 = 0 := by simp at he; omega
      obtain ⟨bs, hbs⟩ := ih rest hlen hrest hev
      exact ⟨(a * 16 + b) :: bs, by simp only [hexDecodeString, ha, hb, hbs]⟩

theorem hexDecodeString_error_of_not_hex : ∀ (n : Nat) (s : GoString), s.length ≤ n →
    ¬ (isHexDigits s ∧ s.length % 2 = 0) → ∃ e, hexDecodeString s = Except.error e := by
  intro n
  induction n with
  | zero =>
    intro s hs hn
    have : s = [] := List.length_eq_zero.mp (by omega)
    subst this
    exact absurd ⟨fun c hc => by simp at hc, rfl⟩ hn
  | succ n ih =>
    intro s hs hn
    match s, hs, hn with
    | [], _, hn => exact absurd ⟨fun c hc => by simp at hc, rfl⟩ hn
    | [p], _, _ =>
      cases hp : fromHexChar p with
      | none => exact ⟨GoError.invalidByte p, by simp only [hexDecodeString, hp]⟩
      | some a => exact ⟨GoError.errLength, by simp only [hexDecodeString, hp]⟩
    | p :: q :: rest, hs, hn =>
      cases hp : fromHexChar p with
      | none => exact ⟨GoError.invalidByte p, by simp only [hexDecodeString, hp]⟩
      | some a =>
        cases hq : fromHexChar q with
        | none => exact ⟨GoError.invalidByte q, by simp only [hexDecodeString, hp, hq]⟩
        | some b =>
          have hrest : ¬ (isHexDigits rest ∧ rest.length % 2 = 0) := by
            rintro ⟨h1, h2⟩
            apply hn
            refine ⟨?_, by simp; omega⟩
            intro c hc
            simp only [List.mem_cons] at hc
            rcases hc with rfl | rfl | hc
            · simp [hp]
            · simp [hq]
            · exact h1 c hc
          obtain ⟨e, he⟩ := ih rest (by simp at hs; omega) hrest
          exact ⟨e, by simp only [hexDecodeString, hp, hq, he]⟩

theorem hexStringToString_of_decode (hexStr bs : GoString) (h2 : 2 ≤ hexStr.length)
    (hd : hexDecodeString (hexStr.drop 2) = Except.ok bs) :
    hexStringToString hexStr =
      if bs.length < 64 then Outcome.ok (trimFallback bs)
      else if bigIntInt64 (bigIntSetBytes ((bs.drop 32).take 32)) ≤ 0
          ∨ bigIntInt64 (bigIntSetBytes ((bs.drop 32).take 32)) > (bs.length : Int) - 64 then
        Outcome.ok (trimFallback bs)
      else Outcome.ok ((bs.drop 64).take (bigIntInt64 (bigIntSetBytes ((bs.drop 32).take 32))).toNat) := by
  unfold hexStringToString
  rw [if_neg (by omega)]
  simp only [hd]

/-- The ABI branch of `hexStringToString` as long as the length word is below
`2 ^ 63`: the slice `bs[64 : 64+L]` when `0 < L ≤ len(bs) - 64`, the trimming
fallback otherwise. -/
theorem hexStringToString_abi (hexStr bs : GoString) (h2 : 2 ≤ hexStr.length)
    (hd : hexDecodeString (hexStr.drop 2) = Except.ok bs) (h64 : 64 ≤ bs.length)
    (hL : bigIntSetBytes ((bs.drop 32).take 32) < 2 ^ 63) :
    hexStringToString hexStr =
      if 0 < bigIntSetBytes ((bs.drop 32).take 32)
          ∧ bigIntSetBytes ((bs.drop 32).take 32) ≤ bs.length - 64 then
        Outcome.ok ((bs.drop 64).take (bigIntSetBytes ((bs.drop 32).take 32)))
      else Outcome.ok (trimFallback bs) := by
  rw [hexStringToString_of_decode hexStr bs h2 hd, if_neg (by omega)]
  have hI : bigIntInt64 (bigIntSetBytes ((bs.drop 32).take 32))
      = ((bigIntSetBytes ((bs.drop 32).take 32) : Nat) : Int) := by
    unfold bigIntInt64
    have : bigIntSetBytes ((bs.drop 32).take 32) % 2 ^ 64
        = bigIntSetBytes ((bs.drop 32).take 32) := Nat.mod_eq_of_lt (by omega)
    simp only [this, if_pos hL]
  rw [hI]
  by_cases hc : 0 < bigIntSetBytes ((bs.drop 32).take 32)
      ∧ bigIntSetBytes ((bs.drop 32).take 32) ≤ bs.length - 64
  · rw [if_pos hc, if_neg (by omega)]
    simp
  · rw [if_neg hc, if_pos (by omega)]

theorem bigIntSetBytes_append_singleton (xs : GoString) (b : Nat) :
    bigIntSetBytes (xs ++ [b]) = bigIntSetBytes xs * 256 + b := by
  simp [bigIntSetBytes, List.foldl_append]

theorem bigEndian_length (k n : Nat) : (bigEndian k n).length = k := by
  induction k generalizing n with
  | zero => rfl
  | succ k ih => simp [bigEndian, ih]

theorem bigIntSetBytes_bigEndian (k n : Nat) :
    bigIntSetBytes (bigEndian k n) = n % 256 ^ k := by
  induction k generalizing n with
  | zero => simp [bigEndian, bigIntSetBytes, Nat.mod_one]
  | succ k ih =>
    rw [bigEndian, bigIntSetBytes_append_singleton, ih, pow_succ]
    rw [Nat.mul_comm (256 ^ k) 256, Nat.mod_mul]
    omega

theorem bigEndian_lt (k n : Nat) : ∀ b ∈ bigEndian k n, b < 256 := by
  induction k generalizing n with
  | zero => intro b hb; simp [bigEndian] at hb
  | succ k ih =>
    intro b hb
    simp only [bigEndian, List.mem_append, List.mem_singleton] at hb
    rcases hb with hb | rfl
    · exact ih _ b hb
    · exact Nat.mod_lt _ (by norm_num)

theorem abiEncodeString_lt (s : GoString) (h : ∀ b ∈ s, b < 256) :
    ∀ b ∈ abiEncodeString s, b < 256 := by
  intro b hb
  simp only [abiEncodeString, List.mem_append, List.mem_replicate] at hb
  rcases hb with ((hb | hb) | hb) | hb
  · exact bigEndian_lt _ _ b hb
  · exact bigEndian_lt _ _ b hb
  · exact h b hb
  · omega

theorem abiEncodeString_length_word (s : GoString) :
    ((abiEncodeString s).drop 32).take 32 = bigEndian 32 s.length := by
  unfold abiEncodeString
  rw [List.append_assoc, List.append_assoc]
  rw [List.drop_left' (bigEndian_length 32 32)]
  rw [List.take_left' (bigEndian_length 32 s.length)]

theorem abiEncodeString_data (s : GoString) :
    ((abiEncodeString s).drop 64).take s.length = s := by
  unfold abiEncodeString
  have h : (bigEndian 32 32 ++ bigEndian 32 s.length).length = 64 := by
    simp [bigEndian_length]
  rw [List.append_assoc (bigEndian 32 32 ++ bigEndian 32 s.length)]
  rw [List.drop_left' h]
  rw [List.take_left' rfl]

theorem abiEncodeString_length (s : GoString) :
    (abiEncodeString s).length = 64 + s.length + (32 - s.length % 32) % 32 := by
  simp only [abiEncodeString, List.length_append, bigEndian_length, List.length_replicate]

set_option maxRecDepth 100000 in
/-- C3 (evaluation at the failing input): the buffer has 65 bytes and its
length word is `2 ^ 64 + 1`, which does not fit in the one byte that follows,
yet `hexStringToString` does not fall back to trimming the buffer: `Int64()`
keeps only the low 64 bits of the length word, so the length read is 1 and the
one byte `A` is returned. -/
theorem hexStringToString_length_word_truncated :
    hexDecodeString (wrapInput.drop 2) = Except.ok wrapBuffer
      ∧ ¬ (bigIntSetBytes ((wrapBuffer.drop 32).take 32) ≤ wrapBuffer.length - 64)
      ∧ hexStringToString wrapInput = Outcome.ok [65]
      ∧ Outcome.ok (trimFallback wrapBuffer) ≠ hexStringToString wrapInput := by
  refine ⟨by decide, by decide, by decide, by decide⟩

/-- C4 (counterexample): `"0xabc"` has only hexadecimal digits after its first
two characters, and `hexStringToString` returns the error `ErrLength`. -/
theorem hexStringToString_odd_length_error :
    isHexDigits ((bytesOf "0xabc").drop 2)
      ∧ hexStringToString (bytesOf "0xabc") = Outcome.error GoError.errLength := by
  constructor
  · unfold isHexDigits; decide
  · decide

/-- C4 (amended): for an input of at least two bytes, `hexStringToString`
returns an error exactly when the text after the first two bytes contains a
byte that is not a hexadecimal digit or has an odd number of bytes, and it
returns a string (with a nil error) exactly in the remaining case. -/
theorem hexStringToString_error_iff (hexStr : GoString) (h : 2 ≤ hexStr.length) :
    ((∃ e, hexStringToString hexStr = Outcome.error e)
        ↔ ¬ (isHexDigits (hexStr.drop 2) ∧ (hexStr.drop 2).length % 2 = 0))
      ∧ ((∃ v, hexStringToString hexStr = Outcome.ok v)
        ↔ (isHexDigits (hexStr.drop 2) ∧ (hexStr.drop 2).length % 2 = 0)) := by
  by_cases hc : isHexDigits (hexStr.drop 2) ∧ (hexStr.drop 2).length % 2 = 0
  · obtain ⟨bs, hbs⟩ := hexDecodeString_ok_of_hex _ _ (le_refl _) hc.1 hc.2
    have hv : ∃ v, hexStringToString hexStr = Outcome.ok v := by
      rw [hexStringToString_of_decode hexStr bs h hbs]
      split_ifs <;> exact ⟨_, rfl⟩
    refine ⟨⟨?_, fun hn => absurd hc hn⟩, ⟨fun _ => hc, fun _ => hv⟩⟩
    rintro ⟨e, he⟩
    obtain ⟨v, hv⟩ := hv
    rw [hv] at he
    cases he
  · obtain ⟨e, he⟩ := hexDecodeString_error_of_not_hex _ _ (le_refl _) hc
    have hE : hexStringToString hexStr = Outcome.error e := by
      unfold hexStringToString
      rw [if_neg (by omega)]
      simp only [he]
    refine ⟨⟨fun _ => hc, fun _ => ⟨e, hE⟩⟩, ⟨?_, fun h' => absurd h' hc⟩⟩
    rintro ⟨v, hv⟩
    rw [hE] at hv
    cases hv

/-- Witness of `hexStringToString_error_iff` at `"0x4"`. -/
theorem hexStringToString_error_iff_witness :
    2 ≤ (bytesOf "0x4").length
      ∧ (((∃ e, hexStringToString (bytesOf "0x4") = Outcome.error e)
          ↔ ¬ (isHexDigits ((bytesOf "0x4").drop 2) ∧ ((bytesOf "0x4").drop 2).length % 2 = 0))
        ∧ ((∃ v, hexStringToString (bytesOf "0x4") = Outcome.ok v)
          ↔ (isHexDigits ((bytesOf "0x4").drop 2) ∧ ((bytesOf "0x4").drop 2).length % 2 = 0))) :=
  ⟨by decide, hexStringToString_error_iff (bytesOf "0x4") (by decide)⟩

/-- C5 (counterexample): `"0x0041"` decodes to the two bytes `00 41`; the
claim keeps the leading NUL and expects `"\x00A"`, the code returns `"A"`. -/
theorem hexStringToString_leading_nul_removed :
    hexDecodeString ((bytesOf "0x0041").drop 2) = Except.ok [0, 65]
      ∧ bytesTrimSpace (trimRightByte [0, 65] 0) = [0, 65]
      ∧ hexStringToString (bytesOf "0x0041") = Outcome.ok [65] := by
  refine ⟨by decide, by decide, by decide⟩

/-- C5 (amended): when the text after the first two bytes decodes to a buffer
of fewer than 64 bytes, `hexStringToString` returns, with no error, that
buffer with its NUL bytes removed at both ends (first the trailing ones, then
the leading ones) and then its surrounding white space removed. -/
theorem hexStringToString_short_buffer (hexStr bs : GoString) (h : 2 ≤ hexStr.length)
    (hd : hexDecodeString (hexStr.drop 2) = Except.ok bs) (hlen : bs.length < 64) :
    hexStringToString hexStr
      = Outcome.ok (bytesTrimSpace
          (((bs.reverse.dropWhile (fun b => b == 0)).reverse).dropWhile (fun b => b == 0))) := by
  rw [hexStringToString_of_decode hexStr bs h hd, if_pos hlen]
  rfl

/-- Witness of `hexStringToString_short_buffer` at `"0x0041"`. -/
theorem hexStringToString_short_buffer_witness :
    hexStringToString (bytesOf "0x0041")
      = Outcome.ok (bytesTrimSpace
          ((([0, 65].reverse.dropWhile (fun b => b == 0)).reverse).dropWhile (fun b => b == 0))) :=
  hexStringToString_short_buffer (bytesOf "0x0041") [0, 65] (by decide) (by decide) (by decide)

set_option maxRecDepth 100000 in
/-- C6 (evaluation at the failing input): the symbol response of the ERC4626
tests holds the length word 9 in front of the 11 bytes of `"sUSDC-Vault"`, so
it is not the ABI encoding of `"sUSDC-Vault"` that the comments of the test
file announce. `hexStringToString` honours the length word: it returns the
nine bytes `"sUSDC-Vau"`, not `"sUSDC-Vault"`, and the gauge written by
`getAssets` in the first test case carries the symbol label value
`"sUSDC-Vau"` (label vector: name, address, contract, symbol, type). On the
ABI encoding of `"sUSDC-Vault"` it returns `"sUSDC-Vault"`. -/
theorem hexStringToString_testSymbol :
    hexStringToString testSymbolResponse = Outcome.ok (bytesOf "sUSDC-Vau")
      ∧ hexStringToString testSymbolResponse ≠ Outcome.ok (bytesOf "sUSDC-Vault")
      ∧ testSymbolResponse ≠ bytesOf "0x" ++ hexEncode (abiEncodeString (bytesOf "sUSDC-Vault"))
      ∧ hexStringToString (bytesOf "0x" ++ hexEncode (abiEncodeString (bytesOf "sUSDC-Vault")))
          = Outcome.ok (bytesOf "sUSDC-Vault")
      ∧ (testVaultJob.getAssets testVaultClient.client testVault ⟨(), [], []⟩).1 = Outcome.ok ()
      ∧ (testVaultJob.getAssets testVaultClient.client testVault ⟨(), [], []⟩).2.ops
        = [MetricOp.set
              [bytesOf "Test Vault", bytesOf "0x1234567890123456789012345678901234567890",
                bytesOf "0xBEEF01735c132Ada46AA9aA4c54623cAA92A64CB", bytesOf "sUSDC-Vau",
                bytesOf "usdc"]
              (F64.finite false 1000000000000000 0)] := by
  refine ⟨by decide, by decide, by decide, by decide, by decide, by decide⟩

/-- C7: for every byte string `s` (bytes below 256, length below `2 ^ 63` as
for any Go string), `hexStringToString` applied to `"0x"` followed by the
hexadecimal text of the ABI encoding of `s` returns exactly `s` and no
error. -/
theorem hexStringToString_abiEncode_roundtrip (s : GoString) (hb : ∀ b ∈ s, b < 256)
    (hlen : s.length < 2 ^ 63) :
    hexStringToString (bytesOf "0x" ++ hexEncode (abiEncodeString s)) = Outcome.ok s := by
  have h0x : bytesOf "0x" = [48, 120] := by decide
  have h2 : 2 ≤ (bytesOf "0x" ++ hexEncode (abiEncodeString s)).length := by
    rw [h0x]; simp
  have hdrop : (bytesOf "0x" ++ hexEncode (abiEncodeString s)).drop 2
      = hexEncode (abiEncodeString s) := by
    rw [h0x]; rfl
  have hd : hexDecodeString ((bytesOf "0x" ++ hexEncode (abiEncodeString s)).drop 2)
      = Except.ok (abiEncodeString s) := by
    rw [hdrop]
    exact hexDecodeString_hexEncode _ (abiEncodeString_lt s hb)
  have hL : bigIntSetBytes (((abiEncodeString s).drop 32).take 32) = s.length := by
    rw [abiEncodeString_length_word, bigIntSetBytes_bigEndian]
    apply Nat.mod_eq_of_lt
    calc s.length < 2 ^ 63 := hlen
      _ ≤ 256 ^ 32 := by norm_num
  have h64 : 64 ≤ (abiEncodeString s).length := by
    rw [abiEncodeString_length]; omega
  rw [hexStringToString_abi _ _ h2 hd h64 (by rw [hL]; exact hlen), hL]
  by_cases hs : s = []
  · subst hs
    rw [if_neg (by simp)]
    decide
  · have hpos : 0 < s.length := List.length_pos.mpr hs
    rw [if_pos ⟨hpos, by rw [abiEncodeString_length]; omega⟩, abiEncodeString_data]

/-- Witness of `hexStringToString_abiEncode_roundtrip` at `"ETH"`. -/
theorem hexStringToString_abiEncode_roundtrip_witness :
    hexStringToString (bytesOf "0x" ++ hexEncode (abiEncodeString (bytesOf "ETH")))
      = Outcome.ok (bytesOf "ETH") :=
  hexStringToString_abiEncode_roundtrip (bytesOf "ETH") (by decide) (by decide)

/-! ## Theorems: label schema -/

/-- The keys of a schema. -/
theorem lookup_eq_none_iff_not_mem (m : IndexMap) (l : GoString) :
    m.lookup l = none ↔ l ∉ m.map Prod.fst := by
  induction m with
  | nil => simp [List.lookup]
  | cons e m ih =>
    obtain ⟨k, v⟩ := e
    by_cases h : l = k
    · subst h
      simp [List.lookup]
    · have hb : (l == k) = false := by simpa using h
      simp [List.lookup, hb, ih, h]

theorem lookup_append_of_mem (m ext : IndexMap) (l : GoString) (h : l ∈ m.map Prod.fst) :
    (m ++ ext).lookup l = m.lookup l := by
  induction m with
  | nil => simp at h
  | cons e m ih =>
    obtain ⟨k, v⟩ := e
    by_cases hk : l = k
    · subst hk
      simp [List.lookup]
    · have hb : (l == k) = false := by simpa using hk
      have hm : l ∈ m.map Prod.fst := by
        simp only [List.map_cons, List.mem_cons] at h
        rcases h with h | h
        · exact absurd h hk
        · exact h
      simp [List.lookup, hb, ih hm]

theorem lookup_append_of_not_mem (m ext : IndexMap) (l : GoString) (h : l ∉ m.map Prod.fst) :
    (m ++ ext).lookup l = ext.lookup l := by
  induction m with
  | nil => rfl
  | cons e m ih =>
    obtain ⟨k, v⟩ := e
    simp only [List.map_cons, List.mem_cons, not_or] at h
    have hb : (l == k) = false := by simpa using h.1
    simp [List.lookup, hb, ih h.2]

theorem lookup_eq_some_of_mem (m : IndexMap) (hnd : (m.map Prod.fst).Nodup) (l : GoString)
    (i : Nat) (h : (l, i) ∈ m) : m.lookup l = some i := by
  induction m with
  | nil => simp at h
  | cons e m ih =>
    obtain ⟨k, v⟩ := e
    simp only [List.map_cons, List.nodup_cons] at hnd
    simp only [List.mem_cons, Prod.mk.injEq] at h
    rcases h with ⟨h1, h2⟩ | h
    · subst h1 h2
      simp [List.lookup]
    · have hne : l ≠ k := by
        rintro rfl
        exact hnd.1 (List.mem_map_of_mem Prod.fst h)
      have hb : (l == k) = false := by simpa using hne
      simp [List.lookup, hb, ih hnd.2 h]

theorem mem_of_lookup_eq_some (m : IndexMap) (l : GoString) (i : Nat)
    (h : m.lookup l = some i) : (l, i) ∈ m := by
  induction m with
  | nil => simp [List.lookup] at h
  | cons e m ih =>
    obtain ⟨k, v⟩ := e
    by_cases hk : l = k
    · subst hk
      simp [List.lookup] at h
      simp [h]
    · have hb : (l == k) = false := by simpa using hk
      simp only [List.lookup, hb] at h
      exact List.mem_cons_of_mem _ (ih h)

theorem addLabel_eq (m : IndexMap) (l : GoString) :
    addLabel m l = if l ∈ m.map Prod.fst then m else m ++ [(l, m.length)] := by
  unfold addLabel
  by_cases h : l ∈ m.map Prod.fst
  · rw [if_pos h]
    cases hl : m.lookup l with
    | none => exact absurd h ((lookup_eq_none_iff_not_mem m l).mp hl)
    | some v => rfl
  · rw [if_neg h, (lookup_eq_none_iff_not_mem m l).mpr h]

theorem Schema.add {m : IndexMap} (h : Schema m) (l : GoString) : Schema (Jobs.addLabel m l) := by
  rw [addLabel_eq]
  split_ifs with hl
  · exact h
  · refine ⟨?_, ?_⟩
    · rw [List.map_append, List.nodup_append]
      refine ⟨h.1, by simp, ?_⟩
      intro a ha hb
      simp only [List.map_cons, List.map_nil, List.mem_singleton] at hb
      subst hb
      exact hl ha
    · rw [List.map_append, h.2, List.length_append]
      simp [List.range_succ]

theorem Schema.foldlAdd {m : IndexMap} (h : Schema m) (ks : List GoString) :
    Schema (ks.foldl Jobs.addLabel m) := by
  induction ks generalizing m with
  | nil => exact h
  | cons k ks ih => exact ih (h.add k)

theorem Schema.scan {m : IndexMap} (h : Schema m) (keys : List (List GoString)) :
    Schema (Jobs.scanLabels m keys) := by
  unfold Jobs.scanLabels
  induction keys generalizing m with
  | nil => exact h
  | cons ks keys ih => exact ih (h.foldlAdd ks)

theorem keys_addLabel (m : IndexMap) (l x : GoString) :
    x ∈ (addLabel m l).map Prod.fst ↔ x ∈ m.map Prod.fst ∨ x = l := by
  rw [addLabel_eq]
  split_ifs with hl
  · constructor
    · exact Or.inl
    · rintro (h | rfl)
      · exact h
      · exact hl
  · simp

theorem keys_foldl_addLabel (m : IndexMap) (ks : List GoString) (x : GoString) :
    x ∈ (ks.foldl addLabel m).map Prod.fst ↔ x ∈ m.map Prod.fst ∨ x ∈ ks := by
  induction ks generalizing m with
  | nil => simp
  | cons k ks ih =>
    rw [List.foldl_cons, ih, keys_addLabel]
    simp only [List.mem_cons]
    tauto

theorem keys_scanLabels (m : IndexMap) (keys : List (List GoString)) (x : GoString) :
    x ∈ (scanLabels m keys).map Prod.fst ↔ x ∈ m.map Prod.fst ∨ ∃ ks ∈ keys, x ∈ ks := by
  unfold scanLabels
  induction keys generalizing m with
  | nil => simp
  | cons ks keys ih =>
    rw [List.foldl_cons, ih, keys_foldl_addLabel]
    simp only [List.mem_cons, exists_eq_or_imp]
    tauto

theorem addLabel_extends (m : IndexMap) (l : GoString) : ∃ ext, addLabel m l = m ++ ext := by
  rw [addLabel_eq]
  split_ifs
  · exact ⟨[], by simp⟩
  · exact ⟨_, rfl⟩

theorem foldl_addLabel_extends (m : IndexMap) (ks : List GoString) :
    ∃ ext, ks.foldl addLabel m = m ++ ext := by
  induction ks generalizing m with
  | nil => exact ⟨[], by simp⟩
  | cons k ks ih =>
    obtain ⟨e1, h1⟩ := addLabel_extends m k
    obtain ⟨e2, h2⟩ := ih (addLabel m k)
    exact ⟨e1 ++ e2, by rw [List.foldl_cons, h2, h1, List.append_assoc]⟩

theorem scanLabels_extends (m : IndexMap) (keys : List (List GoString)) :
    ∃ ext, scanLabels m keys = m ++ ext := by
  unfold scanLabels
  induction keys generalizing m with
  | nil => exact ⟨[], by simp⟩
  | cons ks keys ih =>
    obtain ⟨e1, h1⟩ := foldl_addLabel_extends m ks
    obtain ⟨e2, h2⟩ := ih (ks.foldl addLabel m)
    exact ⟨e1 ++ e2, by rw [List.foldl_cons, h2, h1, List.append_assoc]⟩

/-- In a well-formed schema the entries after the first `k` carry an index
of at least `k`, and the first `k` an index below `k`. -/
theorem Schema.index_of_append {m ext : IndexMap} (h : Schema (m ++ ext)) :
    (∀ e ∈ m, e.2 < m.length) ∧ (∀ e ∈ ext, m.length ≤ e.2) := by
  have hs := h.2
  rw [List.map_append, List.length_append, List.range_eq_range', Nat.add_comm,
    ← List.range'_append_1 0 m.length ext.length] at hs
  obtain ⟨h1, h2⟩ := List.append_inj hs (by simp)
  constructor
  · intro e he
    have : e.2 ∈ List.range' 0 m.length := by
      rw [← h1]; exact List.mem_map_of_mem Prod.snd he
    simpa using this
  · intro e he
    have : e.2 ∈ List.range' (0 + m.length) ext.length := by
      rw [← h2]; exact List.mem_map_of_mem Prod.snd he
    simp only [List.mem_range'_1] at this
    omega

theorem Schema.index_lt {m : IndexMap} (h : Schema m) : ∀ e ∈ m, e.2 < m.length := by
  have := (@Schema.index_of_append m [] (by simpa using h)).1
  exact this

theorem Schema.nodup_snd {m : IndexMap} (h : Schema m) : (m.map Prod.snd).Nodup := by
  rw [h.2]; exact List.nodup_range _

/-- Filling the label values: every entry of the visited order writes its
slot, no write is out of range and no slot is written twice. -/
theorem fill_spec (value : GoString → GoString) (n : Nat) (order : IndexMap)
    (hidx : ∀ e ∈ order, e.2 < n) (hnd : (order.map Prod.snd).Nodup) :
    ∀ init : List GoString, init.length = n →
      ∃ vs, order.foldlM (fun values e => setIndex values e.2 (value e.1)) init = some vs
        ∧ vs.length = n
        ∧ (∀ e ∈ order, vs[e.2]? = some (value e.1))
        ∧ (∀ i, i ∉ order.map Prod.snd → vs[i]? = init[i]?) := by
  induction order with
  | nil =>
    intro init hlen
    exact ⟨init, rfl, hlen, by simp, by simp⟩
  | cons e rest ih =>
    intro init hlen
    have he : e.2 < init.length := by rw [hlen]; exact hidx e (List.mem_cons_self _ _)
    simp only [List.map_cons, List.nodup_cons] at hnd
    obtain ⟨vs, h1, h2, h3, h4⟩ := ih (fun x hx => hidx x (List.mem_cons_of_mem _ hx)) hnd.2
      (init.set e.2 (value e.1)) (by simp [hlen])
    refine ⟨vs, ?_, h2, ?_, ?_⟩
    · rw [List.foldlM_cons]
      simp only [setIndex, if_pos he]
      exact h1
    · intro x hx
      simp only [List.mem_cons] at hx
      rcases hx with rfl | hx
      · rw [h4 _ hnd.1, List.getElem?_set_self he]
      · exact h3 x hx
    · intro i hi
      simp only [List.map_cons, List.mem_cons, not_or] at hi
      rw [h4 i hi.2, List.getElem?_set_ne (Ne.symm hi.1)]

theorem fillLabelValues_spec (value : GoString → GoString) (m order : IndexMap) (h : Schema m)
    (hp : order.Perm m) :
    ∃ vs, fillLabelValues value m order = some vs ∧ vs.length = m.length
      ∧ ∀ l i, (l, i) ∈ m → vs[i]? = some (value l) := by
  have hidx : ∀ e ∈ order, e.2 < m.length := fun e he => h.index_lt e (hp.mem_iff.mp he)
  have hnd : (order.map Prod.snd).Nodup := (hp.map Prod.snd).nodup_iff.mpr h.nodup_snd
  obtain ⟨vs, h1, h2, h3, _⟩ := fill_spec value m.length order hidx hnd
    (List.replicate m.length []) (by simp)
  exact ⟨vs, h1, h2, fun l i hli => h3 (l, i) (hp.mem_iff.mpr hli)⟩

theorem labelNamesIn_spec (m order : IndexMap) (h : Schema m) (hp : order.Perm m) :
    labelNamesIn m order = some (m.map Prod.fst) := by
  obtain ⟨vs, h1, h2, h3⟩ := fillLabelValues_spec (fun l => l) m order h hp
  have : labelNamesIn m order = some vs := h1
  rw [this]
  congr 1
  apply List.ext_getElem?
  intro i
  by_cases hi : i < m.length
  · have hmem : (m[i].1, m[i].2) ∈ m := List.getElem_mem _
    have hsnd : m[i].2 = i := by
      have := congrArg (fun l => l[i]?) h.2
      simp only [List.getElem?_map, List.getElem?_range hi, List.getElem?_eq_getElem hi,
        Option.map_some'] at this
      exact Option.some.inj this
    have := h3 _ _ hmem
    rw [hsnd] at this
    rw [this, List.getElem?_map, List.getElem?_eq_getElem hi]
    rfl
  · rw [List.getElem?_eq_none (by omega), List.getElem?_eq_none (by simp; omega)]

theorem accountBaseLabels_schema : Schema accountBaseLabels := by
  constructor <;> decide

theorem erc4337BaseLabels_schema : Schema erc4337BaseLabels := by
  constructor <;> decide

theorem erc4626BaseLabels_schema : Schema erc4626BaseLabels := by
  constructor <;> decide

theorem accountLabelsMap_schema (addresses : List AddressAccount) :
    Schema (accountLabelsMap addresses) :=
  accountBaseLabels_schema.scan _

theorem erc4337LabelsMap_schema (addresses : List AddressERC4337) :
    Schema (erc4337LabelsMap addresses) :=
  erc4337BaseLabels_schema.scan _

theorem erc4626LabelsMap_schema (addresses : List AddressERC4626) :
    Schema (erc4626LabelsMap addresses) :=
  erc4626BaseLabels_schema.scan _

/-- When the two registrations succeed the constructor returns the instance
it has built. -/
theorem registerBoth_ok {ρ α : Type} (reg : Registerer ρ) (rs : ρ) (cs : Collector × Collector)
    (inst n : α) (h : (registerBoth reg rs cs inst).1 = Outcome.ok n) : inst = n := by
  unfold registerBoth MustRegister at h
  cases h1 : reg.Register rs cs.1 with
  | error e =>
    rw [h1] at h
    exact absurd h (by simp)
  | ok r1 =>
    rw [h1] at h
    dsimp only at h
    cases h2 : reg.Register r1 cs.2 with
    | error e =>
      rw [h2] at h
      exact absurd h (by simp)
    | ok r2 =>
      rw [h2] at h
      simpa using h

/-- The constructor returns when the registry accepts the two instruments. -/
theorem registerBoth_of_ok {ρ α : Type} (reg : Registerer ρ) (rs r1 r2 : ρ)
    (cs : Collector × Collector) (inst : α) (h1 : reg.Register rs cs.1 = Except.ok r1)
    (h2 : reg.Register r1 cs.2 = Except.ok r2) :
    registerBoth reg rs cs inst = (Outcome.ok inst, r2) := by
  unfold registerBoth MustRegister
  rw [h1]
  dsimp only
  rw [h2]

/-- The constructor panics when the registry rejects the first instrument. -/
theorem registerBoth_of_error {ρ α : Type} (reg : Registerer ρ) (rs : ρ)
    (cs : Collector × Collector) (inst : α) (e : GoError)
    (h1 : reg.Register rs cs.1 = Except.error e) :
    registerBoth reg rs cs inst = (Outcome.panic, rs) := by
  unfold registerBoth MustRegister
  rw [h1]

theorem NewAccountIn_eq (order : IndexMap) (addresses : List AddressAccount)
    (hp : order.Perm (accountLabelsMap addresses)) {ρ : Type} (reg : Registerer ρ) (rs : ρ)
    (ns : GoString) (cl : StringMap) :
    NewAccountIn order reg rs ns cl addresses
      = registerBoth reg rs (accountCollectors ns cl ((accountLabelsMap addresses).map Prod.fst))
          { addresses := addresses, labelsMap := accountLabelsMap addresses,
            labels := (accountLabelsMap addresses).map Prod.fst } := by
  unfold NewAccountIn
  simp only [labelNamesIn_spec _ _ (accountLabelsMap_schema addresses) hp]

theorem NewAccountIn_labelsMap {ρ : Type} {reg : Registerer ρ} {rs : ρ} {ns : GoString}
    {cl : StringMap} {order : IndexMap} {addresses : List AddressAccount} {n : Account}
    (h : (NewAccountIn order reg rs ns cl addresses).1 = Outcome.ok n) :
    n.labelsMap = accountLabelsMap addresses := by
  unfold NewAccountIn at h
  cases hl : labelNamesIn (accountLabelsMap addresses) order with
  | none =>
    simp only [hl] at h
    exact absurd h (by simp)
  | some labels =>
    simp only [hl] at h
    rw [← registerBoth_ok reg rs _ _ n h]

theorem NewAccountIn_labels {ρ : Type} {reg : Registerer ρ} {rs : ρ} {ns : GoString}
    {cl : StringMap} {order : IndexMap} {addresses : List AddressAccount} {n : Account}
    (h : (NewAccountIn order reg rs ns cl addresses).1 = Outcome.ok n) :
    labelNamesIn (accountLabelsMap addresses) order = some n.labels := by
  unfold NewAccountIn at h
  cases hl : labelNamesIn (accountLabelsMap addresses) order with
  | none =>
    simp only [hl] at h
    exact absurd h (by simp)
  | some labels =>
    simp only [hl] at h
    rw [← registerBoth_ok reg rs _ _ n h]

theorem NewERC4337In_eq (order : IndexMap) (addresses : List AddressERC4337)
    (hp : order.Perm (erc4337LabelsMap addresses)) {ρ : Type} (reg : Registerer ρ) (rs : ρ)
    (ns : GoString) (cl : StringMap) :
    NewERC4337In order reg rs ns cl addresses
      = registerBoth reg rs (erc4337Collectors ns cl ((erc4337LabelsMap addresses).map Prod.fst))
          { addresses := addresses, labelsMap := erc4337LabelsMap addresses,
            labels := (erc4337LabelsMap addresses).map Prod.fst } := by
  unfold NewERC4337In
  simp only [labelNamesIn_spec _ _ (erc4337LabelsMap_schema addresses) hp]

theorem NewERC4337In_labelsMap {ρ : Type} {reg : Registerer ρ} {rs : ρ} {ns : GoString}
    {cl : StringMap} {order : IndexMap} {addresses : List AddressERC4337} {n : ERC4337}
    (h : (NewERC4337In order reg rs ns cl addresses).1 = Outcome.ok n) :
    n.labelsMap = erc4337LabelsMap addresses := by
  unfold NewERC4337In at h
  cases hl : labelNamesIn (erc4337LabelsMap addresses) order with
  | none =>
    simp only [hl] at h
    exact absurd h (by simp)
  | some labels =>
    simp only [hl] at h
    rw [← registerBoth_ok reg rs _ _ n h]

theorem NewERC4337In_labels {ρ : Type} {reg : Registerer ρ} {rs : ρ} {ns : GoString}
    {cl : StringMap} {order : IndexMap} {addresses : List AddressERC4337} {n : ERC4337}
    (h : (NewERC4337In order reg rs ns cl addresses).1 = Outcome.ok n) :
    labelNamesIn (erc4337LabelsMap addresses) order = some n.labels := by
  unfold NewERC4337In at h
  cases hl : labelNamesIn (erc4337LabelsMap addresses) order with
  | none =>
    simp only [hl] at h
    exact absurd h (by simp)
  | some labels =>
    simp only [hl] at h
    rw [← registerBoth_ok reg rs _ _ n h]

theorem NewERC4626In_eq (order : IndexMap) (addresses : List AddressERC4626)
    (hp : order.Perm (erc4626LabelsMap addresses)) {ρ : Type} (reg : Registerer ρ) (rs : ρ)
    (ns : GoString) (cl : StringMap) :
    NewERC4626In order reg rs ns cl addresses
      = registerBoth reg rs (erc4626Collectors ns cl ((erc4626LabelsMap addresses).map Prod.fst))
          { addresses := addresses, labelsMap := erc4626LabelsMap addresses,
            labels := (erc4626LabelsMap addresses).map Prod.fst } := by
  unfold NewERC4626In
  simp only [labelNamesIn_spec _ _ (erc4626LabelsMap_schema addresses) hp]

theorem NewERC4626In_labelsMap {ρ : Type} {reg : Registerer ρ} {rs : ρ} {ns : GoString}
    {cl : StringMap} {order : IndexMap} {addresses : List AddressERC4626} {n : ERC4626}
    (h : (NewERC4626In order reg rs ns cl addresses).1 = Outcome.ok n) :
    n.labelsMap = erc4626LabelsMap addresses := by
  unfold NewERC4626In at h
  cases hl : labelNamesIn (erc4626LabelsMap addresses) order with
  | none =>
    simp only [hl] at h
    exact absurd h (by simp)
  | some labels =>
    simp only [hl] at h
    rw [← registerBoth_ok reg rs _ _ n h]

theorem NewERC4626In_labels {ρ : Type} {reg : Registerer ρ} {rs : ρ} {ns : GoString}
    {cl : StringMap} {order : IndexMap} {addresses : List AddressERC4626} {n : ERC4626}
    (h : (NewERC4626In order reg rs ns cl addresses).1 = Outcome.ok n) :
    labelNamesIn (erc4626LabelsMap addresses) order = some n.labels := by
  unfold NewERC4626In at h
  cases hl : labelNamesIn (erc4626LabelsMap addresses) order with
  | none =>
    simp only [hl] at h
    exact absurd h (by simp)
  | some labels =>
    simp only [hl] at h
    rw [← registerBoth_ok reg rs _ _ n h]

theorem account_schema_of_new {ρ : Type} {reg : Registerer ρ} {rs : ρ} {ns : GoString}
    {cl : StringMap} {order : IndexMap} {addresses : List AddressAccount} {n : Account}
    (h : (NewAccountIn order reg rs ns cl addresses).1 = Outcome.ok n) : Schema n.labelsMap := by
  rw [NewAccountIn_labelsMap h]; exact accountLabelsMap_schema addresses

theorem erc4337_schema_of_new {ρ : Type} {reg : Registerer ρ} {rs : ρ} {ns : GoString}
    {cl : StringMap} {order : IndexMap} {addresses : List AddressERC4337} {n : ERC4337}
    (h : (NewERC4337In order reg rs ns cl addresses).1 = Outcome.ok n) : Schema n.labelsMap := by
  rw [NewERC4337In_labelsMap h]; exact erc4337LabelsMap_schema addresses

theorem erc4626_schema_of_new {ρ : Type} {reg : Registerer ρ} {rs : ρ} {ns : GoString}
    {cl : StringMap} {order : IndexMap} {addresses : List AddressERC4626} {n : ERC4626}
    (h : (NewERC4626In order reg rs ns cl addresses).1 = Outcome.ok n) : Schema n.labelsMap := by
  rw [NewERC4626In_labelsMap h]; exact erc4626LabelsMap_schema addresses

theorem emptyNameJob_new :
    (NewAccountIn (accountLabelsMap [emptyNameAccount]) testRegistry [] testNamespace none
        [emptyNameAccount]).1
      = Outcome.ok
        { addresses := [emptyNameAccount], labelsMap := accountLabelsMap [emptyNameAccount],
          labels := (accountLabelsMap [emptyNameAccount]).map Prod.fst } := by
  decide

theorem noAddressJob_new :
    (NewERC4337In (erc4337LabelsMap []) testRegistry [] testNamespace none []).1
      = Outcome.ok
        { addresses := [], labelsMap := erc4337LabelsMap [],
          labels := (erc4337LabelsMap []).map Prod.fst } := by
  decide

theorem testVaultJob_new :
    (NewERC4626In (erc4626LabelsMap [testVault]) testRegistry [] testNamespace none
        [testVault]).1 = Outcome.ok testVaultJob := by
  decide

theorem testAccountJob_new :
    (NewAccountIn (accountLabelsMap [testAccount]) testRegistry [] testNamespace none
        [testAccount]).1 = Outcome.ok testAccountJob := by
  decide

theorem testEntryPointJob_new :
    (NewERC4337In (erc4337LabelsMap [testEntryPoint]) testRegistry [] testNamespace none
        [testEntryPoint]).1 = Outcome.ok testEntryPointJob := by
  decide

/-- C8: for every job built by `NewAccount`, `NewERC4337` or `NewERC4626`
(whatever order the constructor ranged over its map in), every address spec
(in the address list or not, with any `Labels`, nil included) and every order
in which `getLabelValues` ranges over `labelsMap`, the call returns a vector
of exactly `len(labelsMap)` entries. -/
theorem getLabelValues_length
    (ordA : IndexMap) (addressesA : List AddressAccount) (nA : Account)
    {ρA : Type} (regA : Registerer ρA) (rsA : ρA) (nsA : GoString)
    (clA : StringMap)
    (hA : (NewAccountIn ordA regA rsA nsA clA addressesA).1 = Outcome.ok nA)
    (ordB : IndexMap) (addressesB : List AddressERC4337) (nB : ERC4337)
    {ρB : Type} (regB : Registerer ρB) (rsB : ρB) (nsB : GoString)
    (clB : StringMap)
    (hB : (NewERC4337In ordB regB rsB nsB clB addressesB).1 = Outcome.ok nB)
    (ordC : IndexMap) (addressesC : List AddressERC4626) (nC : ERC4626)
    {ρC : Type} (regC : Registerer ρC) (rsC : ρC) (nsC : GoString)
    (clC : StringMap)
    (hC : (NewERC4626In ordC regC rsC nsC clC addressesC).1 = Outcome.ok nC) :
    (∀ (address : AddressAccount) (order : IndexMap), order.Perm nA.labelsMap →
        ∃ vs, nA.getLabelValuesIn order address = some vs ∧ vs.length = nA.labelsMap.length)
      ∧ (∀ (address : AddressERC4337) (order : IndexMap), order.Perm nB.labelsMap →
        ∃ vs, nB.getLabelValuesIn order address = some vs ∧ vs.length = nB.labelsMap.length)
      ∧ (∀ (address : AddressERC4626) (symbol : GoString) (order : IndexMap),
        order.Perm nC.labelsMap →
        ∃ vs, nC.getLabelValuesIn order address symbol = some vs
          ∧ vs.length = nC.labelsMap.length) := by
  refine ⟨?_, ?_, ?_⟩
  · intro address order hp
    obtain ⟨vs, h1, h2, _⟩ := fillLabelValues_spec (Account.labelValue address) _ order
      (account_schema_of_new hA) hp
    exact ⟨vs, h1, h2⟩
  · intro address order hp
    obtain ⟨vs, h1, h2, _⟩ := fillLabelValues_spec (ERC4337.labelValue address) _ order
      (erc4337_schema_of_new hB) hp
    exact ⟨vs, h1, h2⟩
  · intro address symbol order hp
    obtain ⟨vs, h1, h2, _⟩ := fillLabelValues_spec (ERC4626.labelValue address symbol) _ order
      (erc4626_schema_of_new hC) hp
    exact ⟨vs, h1, h2⟩

/-- Witness of `getLabelValues_length`: the jobs built from one address
each. -/
theorem getLabelValues_length_witness :
    (∀ (address : AddressAccount) (order : IndexMap),
        order.Perm (accountLabelsMap [emptyNameAccount]) →
        ∃ vs, Account.getLabelValuesIn
            { addresses := [emptyNameAccount], labelsMap := accountLabelsMap [emptyNameAccount],
              labels := (accountLabelsMap [emptyNameAccount]).map Prod.fst } order address
          = some vs ∧ vs.length = (accountLabelsMap [emptyNameAccount]).length)
      ∧ (∀ (address : AddressERC4337) (order : IndexMap), order.Perm (erc4337LabelsMap []) →
        ∃ vs, ERC4337.getLabelValuesIn
            { addresses := [], labelsMap := erc4337LabelsMap [],
              labels := (erc4337LabelsMap []).map Prod.fst } order address
          = some vs ∧ vs.length = (erc4337LabelsMap []).length)
      ∧ (∀ (address : AddressERC4626) (symbol : GoString) (order : IndexMap),
        order.Perm (erc4626LabelsMap [testVault]) →
        ∃ vs, ERC4626.getLabelValuesIn
            { addresses := [testVault], labelsMap := erc4626LabelsMap [testVault],
              labels := (erc4626LabelsMap [testVault]).map Prod.fst } order address symbol
          = some vs ∧ vs.length = (erc4626LabelsMap [testVault]).length) :=
  getLabelValues_length
    (accountLabelsMap [emptyNameAccount]) [emptyNameAccount] _
    testRegistry [] testNamespace none emptyNameJob_new
    (erc4337LabelsMap []) [] _ testRegistry [] testNamespace none noAddressJob_new
    (erc4626LabelsMap [testVault]) [testVault] _
    testRegistry [] testNamespace none testVaultJob_new

theorem stringMap_get_none (l : GoString) : StringMap.get none l = [] := rfl

theorem account_labelValue_eq (address : AddressAccount) (l : GoString) :
    Account.labelValue address l =
      if address.Labels.get l ≠ [] then address.Labels.get l
      else if l = LabelName then address.Name
      else if l = LabelAddress then address.Address
      else [] := by
  unfold Account.labelValue
  by_cases h : address.Labels.get l ≠ []
  · have hn : address.Labels ≠ none := by
      intro hn; rw [hn] at h; exact h rfl
    rw [if_pos ⟨hn, h⟩, if_pos h]
  · rw [if_neg (fun hc => h hc.2), if_neg h]
    rfl

theorem erc4337_labelValue_eq (address : AddressERC4337) (l : GoString) :
    ERC4337.labelValue address l =
      if address.Labels.get l ≠ [] then address.Labels.get l
      else if l = LabelName then address.Name
      else if l = LabelAddress then address.Address
      else if l = LabelContract then address.Contract
      else [] := by
  unfold ERC4337.labelValue
  by_cases h : address.Labels.get l ≠ []
  · have hn : address.Labels ≠ none := by
      intro hn; rw [hn] at h; exact h rfl
    rw [if_pos ⟨hn, h⟩, if_pos h]
  · rw [if_neg (fun hc => h hc.2), if_neg h]
    rfl

theorem erc4626_labelValue_eq (address : AddressERC4626) (symbol l : GoString) :
    ERC4626.labelValue address symbol l =
      if address.Labels.get l ≠ [] then address.Labels.get l
      else if l = LabelName then address.Name
      else if l = LabelAddress then address.Address
      else if l = LabelContract then address.Contract
      else if l = LabelSymbol then symbol
      else [] := by
  unfold ERC4626.labelValue
  by_cases h : address.Labels.get l ≠ []
  · have hn : address.Labels ≠ none := by
      intro hn; rw [hn] at h; exact h rfl
    rw [if_pos ⟨hn, h⟩, if_pos h]
  · rw [if_neg (fun hc => h hc.2), if_neg h]
    rfl

/-- The base labels keep their index through the constructor loop, and every
other label gets an index at or above the number of base labels. -/
theorem scanLabels_base (base : IndexMap) (keys : List (List GoString)) (hb : Schema base) :
    (∀ l i, (l, i) ∈ base → (l, i) ∈ scanLabels base keys
        ∧ (scanLabels base keys).lookup l = some i)
      ∧ (∀ l i, (l, i) ∈ scanLabels base keys → l ∉ base.map Prod.fst → base.length ≤ i) := by
  obtain ⟨ext, hext⟩ := scanLabels_extends base keys
  have hs : Schema (base ++ ext) := by rw [← hext]; exact hb.scan keys
  rw [hext]
  constructor
  · intro l i hli
    refine ⟨List.mem_append_left _ hli, ?_⟩
    rw [lookup_append_of_mem _ _ _ (List.mem_map_of_mem Prod.fst hli)]
    exact lookup_eq_some_of_mem base hb.1 l i hli
  · intro l i hli hl
    rcases List.mem_append.mp hli with h | h
    · exact absurd (List.mem_map_of_mem Prod.fst h) hl
    · exact hs.index_of_append.2 _ h

/-- The values stored by `getLabelValues`, for the three jobs. -/
theorem labelValues_spec
    (ordA : IndexMap) (addressesA : List AddressAccount) (nA : Account)
    {ρA : Type} (regA : Registerer ρA) (rsA : ρA) (nsA : GoString)
    (clA : StringMap)
    (hA : (NewAccountIn ordA regA rsA nsA clA addressesA).1 = Outcome.ok nA)
    (ordB : IndexMap) (addressesB : List AddressERC4337) (nB : ERC4337)
    {ρB : Type} (regB : Registerer ρB) (rsB : ρB) (nsB : GoString)
    (clB : StringMap)
    (hB : (NewERC4337In ordB regB rsB nsB clB addressesB).1 = Outcome.ok nB)
    (ordC : IndexMap) (addressesC : List AddressERC4626) (nC : ERC4626)
    {ρC : Type} (regC : Registerer ρC) (rsC : ρC) (nsC : GoString)
    (clC : StringMap)
    (hC : (NewERC4626In ordC regC rsC nsC clC addressesC).1 = Outcome.ok nC) :
    (∀ (address : AddressAccount) (order : IndexMap), order.Perm nA.labelsMap →
        ∃ vs, nA.getLabelValuesIn order address = some vs
          ∧ (∀ l i, (l, i) ∈ nA.labelsMap → vs[i]? = some
              (if address.Labels.get l ≠ [] then address.Labels.get l
               else if l = LabelName then address.Name
               else if l = LabelAddress then address.Address
               else []))
          ∧ vs[0]? = some
              (if address.Labels.get LabelName ≠ [] then address.Labels.get LabelName
               else address.Name))
      ∧ (∀ (address : AddressERC4337) (order : IndexMap), order.Perm nB.labelsMap →
        ∃ vs, nB.getLabelValuesIn order address = some vs
          ∧ (∀ l i, (l, i) ∈ nB.labelsMap → vs[i]? = some
              (if address.Labels.get l ≠ [] then address.Labels.get l
               else if l = LabelName then address.Name
               else if l = LabelAddress then address.Address
               else if l = LabelContract then address.Contract
               else []))
          ∧ vs[0]? = some
              (if address.Labels.get LabelName ≠ [] then address.Labels.get LabelName
               else address.Name))
      ∧ (∀ (address : AddressERC4626) (symbol : GoString) (order : IndexMap),
        order.Perm nC.labelsMap →
        ∃ vs, nC.getLabelValuesIn order address symbol = some vs
          ∧ (∀ l i, (l, i) ∈ nC.labelsMap → vs[i]? = some
              (if address.Labels.get l ≠ [] then address.Labels.get l
               else if l = LabelName then address.Name
               else if l = LabelAddress then address.Address
               else if l = LabelContract then address.Contract
               else if l = LabelSymbol then symbol
               else []))
          ∧ vs[0]? = some
              (if address.Labels.get LabelName ≠ [] then address.Labels.get LabelName
               else address.Name)) := by
  refine ⟨?_, ?_, ?_⟩
  · intro address order hp
    obtain ⟨vs, h1, _, h3⟩ := fillLabelValues_spec (Account.labelValue address) _ order
      (account_schema_of_new hA) hp
    have h3' : ∀ l i, (l, i) ∈ nA.labelsMap → vs[i]? = some
        (if address.Labels.get l ≠ [] then address.Labels.get l
         else if l = LabelName then address.Name
         else if l = LabelAddress then address.Address
         else []) := by
      intro l i hli
      rw [h3 l i hli, account_labelValue_eq]
    refine ⟨vs, h1, h3', ?_⟩
    have hmem : (LabelName, 0) ∈ nA.labelsMap := by
      rw [NewAccountIn_labelsMap hA]
      exact ((scanLabels_base _ _ accountBaseLabels_schema).1 LabelName 0 (by decide)).1
    rw [h3' _ _ hmem]
    simp
  · intro address order hp
    obtain ⟨vs, h1, _, h3⟩ := fillLabelValues_spec (ERC4337.labelValue address) _ order
      (erc4337_schema_of_new hB) hp
    have h3' : ∀ l i, (l, i) ∈ nB.labelsMap → vs[i]? = some
        (if address.Labels.get l ≠ [] then address.Labels.get l
         else if l = LabelName then address.Name
         else if l = LabelAddress then address.Address
         else if l = LabelContract then address.Contract
         else []) := by
      intro l i hli
      rw [h3 l i hli, erc4337_labelValue_eq]
    refine ⟨vs, h1, h3', ?_⟩
    have hmem : (LabelName, 0) ∈ nB.labelsMap := by
      rw [NewERC4337In_labelsMap hB]
      exact ((scanLabels_base _ _ erc4337BaseLabels_schema).1 LabelName 0 (by decide)).1
    rw [h3' _ _ hmem]
    simp
  · intro address symbol order hp
    obtain ⟨vs, h1, _, h3⟩ := fillLabelValues_spec (ERC4626.labelValue address symbol) _ order
      (erc4626_schema_of_new hC) hp
    have h3' : ∀ l i, (l, i) ∈ nC.labelsMap → vs[i]? = some
        (if address.Labels.get l ≠ [] then address.Labels.get l
         else if l = LabelName then address.Name
         else if l = LabelAddress then address.Address
         else if l = LabelContract then address.Contract
         else if l = LabelSymbol then symbol
         else []) := by
      intro l i hli
      rw [h3 l i hli, erc4626_labelValue_eq]
    refine ⟨vs, h1, h3', ?_⟩
    have hmem : (LabelName, 0) ∈ nC.labelsMap := by
      rw [NewERC4626In_labelsMap hC]
      exact ((scanLabels_base _ _ erc4626BaseLabels_schema).1 LabelName 0 (by decide)).1
    rw [h3' _ _ hmem]
    simp

/-- C9: for every job built by a constructor, every address spec and every
order of the `range` over `labelsMap`, the vector returned by
`getLabelValues` holds at the index `i` of every label `l` of the schema the
custom value `spec.Labels[l]` when that is present and not empty, and
otherwise the base value of `l`: `Name` for `name`, `Address` for `address`,
`Contract` for `contract` (ERC4337, ERC4626), the `symbol` argument for
`symbol` (ERC4626), the empty string for any other label. The label `name`
is at index 0. -/
theorem getLabelValues_value
    (ordA : IndexMap) (addressesA : List AddressAccount) (nA : Account)
    {ρA : Type} (regA : Registerer ρA) (rsA : ρA) (nsA : GoString)
    (clA : StringMap)
    (hA : (NewAccountIn ordA regA rsA nsA clA addressesA).1 = Outcome.ok nA)
    (ordB : IndexMap) (addressesB : List AddressERC4337) (nB : ERC4337)
    {ρB : Type} (regB : Registerer ρB) (rsB : ρB) (nsB : GoString)
    (clB : StringMap)
    (hB : (NewERC4337In ordB regB rsB nsB clB addressesB).1 = Outcome.ok nB)
    (ordC : IndexMap) (addressesC : List AddressERC4626) (nC : ERC4626)
    {ρC : Type} (regC : Registerer ρC) (rsC : ρC) (nsC : GoString)
    (clC : StringMap)
    (hC : (NewERC4626In ordC regC rsC nsC clC addressesC).1 = Outcome.ok nC) :
    (∀ (address : AddressAccount) (order : IndexMap), order.Perm nA.labelsMap →
        ∃ vs, nA.getLabelValuesIn order address = some vs
          ∧ (∀ l i, (l, i) ∈ nA.labelsMap → vs[i]? = some
              (if address.Labels.get l ≠ [] then address.Labels.get l
               else if l = LabelName then address.Name
               else if l = LabelAddress then address.Address
               else []))
          ∧ vs[0]? = some
              (if address.Labels.get LabelName ≠ [] then address.Labels.get LabelName
               else address.Name))
      ∧ (∀ (address : AddressERC4337) (order : IndexMap), order.Perm nB.labelsMap →
        ∃ vs, nB.getLabelValuesIn order address = some vs
          ∧ (∀ l i, (l, i) ∈ nB.labelsMap → vs[i]? = some
              (if address.Labels.get l ≠ [] then address.Labels.get l
               else if l = LabelName then address.Name
               else if l = LabelAddress then address.Address
               else if l = LabelContract then address.Contract
               else []))
          ∧ vs[0]? = some
              (if address.Labels.get LabelName ≠ [] then address.Labels.get LabelName
               else address.Name))
      ∧ (∀ (address : AddressERC4626) (symbol : GoString) (order : IndexMap),
        order.Perm nC.labelsMap →
        ∃ vs, nC.getLabelValuesIn order address symbol = some vs
          ∧ (∀ l i, (l, i) ∈ nC.labelsMap → vs[i]? = some
              (if address.Labels.get l ≠ [] then address.Labels.get l
               else if l = LabelName then address.Name
               else if l = LabelAddress then address.Address
               else if l = LabelContract then address.Contract
               else if l = LabelSymbol then symbol
               else []))
          ∧ vs[0]? = some
              (if address.Labels.get LabelName ≠ [] then address.Labels.get LabelName
               else address.Name)) :=
  labelValues_spec ordA addressesA nA regA rsA nsA clA hA ordB addressesB nB regB rsB nsB clB hB
    ordC addressesC nC regC rsC nsC clC hC

/-- Witness of `getLabelValues_value`: the jobs built from one address
each. -/
theorem getLabelValues_value_witness :
    (NewAccountIn (accountLabelsMap [emptyNameAccount]) testRegistry [] testNamespace none
          [emptyNameAccount]).1 = Outcome.ok
        { addresses := [emptyNameAccount], labelsMap := accountLabelsMap [emptyNameAccount],
          labels := (accountLabelsMap [emptyNameAccount]).map Prod.fst }
      ∧ ∀ (address : AddressERC4626) (symbol : GoString) (order : IndexMap),
        order.Perm (erc4626LabelsMap [testVault]) →
        ∃ vs, ERC4626.getLabelValuesIn
            { addresses := [testVault], labelsMap := erc4626LabelsMap [testVault],
              labels := (erc4626LabelsMap [testVault]).map Prod.fst } order address symbol
            = some vs
          ∧ (∀ l i, (l, i) ∈ erc4626LabelsMap [testVault] → vs[i]? = some
              (if address.Labels.get l ≠ [] then address.Labels.get l
               else if l = LabelName then address.Name
               else if l = LabelAddress then address.Address
               else if l = LabelContract then address.Contract
               else if l = LabelSymbol then symbol
               else []))
          ∧ vs[0]? = some
              (if address.Labels.get LabelName ≠ [] then address.Labels.get LabelName
               else address.Name) :=
  ⟨emptyNameJob_new,
    (getLabelValues_value
      (accountLabelsMap [emptyNameAccount]) [emptyNameAccount] _
    testRegistry [] testNamespace none emptyNameJob_new
      (erc4337LabelsMap []) [] _ testRegistry [] testNamespace none noAddressJob_new
      (erc4626LabelsMap [testVault]) [testVault] _
    testRegistry [] testNamespace none testVaultJob_new).2.2⟩

/-- C10 (counterexample): the custom labels of `emptyNameAccount` hold the key
`name` with an empty value, and `getLabelValues` puts the computed base value
`spec.Name` at the index of `name`, not the empty string. -/
theorem getLabelValues_empty_custom_name :
    emptyNameAccount.Labels.entries.lookup LabelName = some []
      ∧ (∃ n, (NewAccount testRegistry [] testNamespace none [emptyNameAccount]).1 = Outcome.ok n
          ∧ n.getLabelValues emptyNameAccount
            = some [emptyNameAccount.Name, emptyNameAccount.Address])
      ∧ emptyNameAccount.Name ≠ [] := by
  refine ⟨by decide, ⟨_, emptyNameJob_new, by decide⟩, by decide⟩

/-- C10 (amended): a key of the custom labels whose value is empty is treated
like an absent key: for every job built by a constructor and every address
spec whose `Labels` hold the label `l` with the empty string, `getLabelValues`
puts the computed base value of `l` at the index of `l` (`spec.Name` for
`name`, and so on). -/
theorem getLabelValues_empty_custom
    (ordA : IndexMap) (addressesA : List AddressAccount) (nA : Account)
    {ρA : Type} (regA : Registerer ρA) (rsA : ρA) (nsA : GoString)
    (clA : StringMap)
    (hA : (NewAccountIn ordA regA rsA nsA clA addressesA).1 = Outcome.ok nA)
    (ordB : IndexMap) (addressesB : List AddressERC4337) (nB : ERC4337)
    {ρB : Type} (regB : Registerer ρB) (rsB : ρB) (nsB : GoString)
    (clB : StringMap)
    (hB : (NewERC4337In ordB regB rsB nsB clB addressesB).1 = Outcome.ok nB)
    (ordC : IndexMap) (addressesC : List AddressERC4626) (nC : ERC4626)
    {ρC : Type} (regC : Registerer ρC) (rsC : ρC) (nsC : GoString)
    (clC : StringMap)
    (hC : (NewERC4626In ordC regC rsC nsC clC addressesC).1 = Outcome.ok nC) :
    (∀ (address : AddressAccount) (order : IndexMap) (l : GoString) (i : Nat),
        order.Perm nA.labelsMap → address.Labels.entries.lookup l = some [] →
        (l, i) ∈ nA.labelsMap →
        ∃ vs, nA.getLabelValuesIn order address = some vs ∧ vs[i]? = some
          (if l = LabelName then address.Name
           else if l = LabelAddress then address.Address
           else []))
      ∧ (∀ (address : AddressERC4337) (order : IndexMap) (l : GoString) (i : Nat),
        order.Perm nB.labelsMap → address.Labels.entries.lookup l = some [] →
        (l, i) ∈ nB.labelsMap →
        ∃ vs, nB.getLabelValuesIn order address = some vs ∧ vs[i]? = some
          (if l = LabelName then address.Name
           else if l = LabelAddress then address.Address
           else if l = LabelContract then address.Contract
           else []))
      ∧ (∀ (address : AddressERC4626) (symbol : GoString) (order : IndexMap) (l : GoString)
          (i : Nat),
        order.Perm nC.labelsMap → address.Labels.entries.lookup l = some [] →
        (l, i) ∈ nC.labelsMap →
        ∃ vs, nC.getLabelValuesIn order address symbol = some vs ∧ vs[i]? = some
          (if l = LabelName then address.Name
           else if l = LabelAddress then address.Address
           else if l = LabelContract then address.Contract
           else if l = LabelSymbol then symbol
           else [])) := by
  obtain ⟨h1, h2, h3⟩ := labelValues_spec ordA addressesA nA regA rsA nsA clA hA
    ordB addressesB nB regB rsB nsB clB hB
    ordC addressesC nC regC rsC nsC clC hC
  refine ⟨?_, ?_, ?_⟩
  · intro address order l i hp hl hli
    obtain ⟨vs, hv, hval, _⟩ := h1 address order hp
    have hg : address.Labels.get l = [] := by simp [StringMap.get, hl]
    refine ⟨vs, hv, ?_⟩
    rw [hval l i hli, if_neg (by simp [hg])]
  · intro address order l i hp hl hli
    obtain ⟨vs, hv, hval, _⟩ := h2 address order hp
    have hg : address.Labels.get l = [] := by simp [StringMap.get, hl]
    refine ⟨vs, hv, ?_⟩
    rw [hval l i hli, if_neg (by simp [hg])]
  · intro address symbol order l i hp hl hli
    obtain ⟨vs, hv, hval, _⟩ := h3 address symbol order hp
    have hg : address.Labels.get l = [] := by simp [StringMap.get, hl]
    refine ⟨vs, hv, ?_⟩
    rw [hval l i hli, if_neg (by simp [hg])]

/-- Witness of `getLabelValues_empty_custom`: the Account job built from
`emptyNameAccount`, whose custom labels hold `name` with an empty value. -/
theorem getLabelValues_empty_custom_witness :
    ∃ vs, Account.getLabelValuesIn
        { addresses := [emptyNameAccount], labelsMap := accountLabelsMap [emptyNameAccount],
          labels := (accountLabelsMap [emptyNameAccount]).map Prod.fst }
        (accountLabelsMap [emptyNameAccount]) emptyNameAccount
        = some vs ∧ vs[0]? = some
      (if LabelName = LabelName then emptyNameAccount.Name
       else if LabelName = LabelAddress then emptyNameAccount.Address
       else []) :=
  (getLabelValues_empty_custom
    (accountLabelsMap [emptyNameAccount]) [emptyNameAccount] _
    testRegistry [] testNamespace none emptyNameJob_new
    (erc4337LabelsMap []) [] _ testRegistry [] testNamespace none noAddressJob_new
    (erc4626LabelsMap [testVault]) [testVault] _
    testRegistry [] testNamespace none testVaultJob_new).1 emptyNameAccount
      (accountLabelsMap [emptyNameAccount]) LabelName 0 (List.Perm.refl _) (by decide)
      (by decide)

/-- C11: whatever the address list and the custom label maps hold, the schema
built by a constructor gives the base labels the lowest indices in a fixed
order (`NewAccount`: name 0, address 1; `NewERC4337`: name 0, address 1,
contract 2; `NewERC4626`: name 0, address 1, contract 2, symbol 3), and every
other label an index at or above the number of base labels. -/
theorem base_labels_lowest (addressesA : List AddressAccount)
    (addressesB : List AddressERC4337) (addressesC : List AddressERC4626) :
    ((accountLabelsMap addressesA).lookup LabelName = some 0
        ∧ (accountLabelsMap addressesA).lookup LabelAddress = some 1
        ∧ ∀ l i, (l, i) ∈ accountLabelsMap addressesA → l ≠ LabelName → l ≠ LabelAddress →
            2 ≤ i)
      ∧ ((erc4337LabelsMap addressesB).lookup LabelName = some 0
        ∧ (erc4337LabelsMap addressesB).lookup LabelAddress = some 1
        ∧ (erc4337LabelsMap addressesB).lookup LabelContract = some 2
        ∧ ∀ l i, (l, i) ∈ erc4337LabelsMap addressesB → l ≠ LabelName → l ≠ LabelAddress →
            l ≠ LabelContract → 3 ≤ i)
      ∧ ((erc4626LabelsMap addressesC).lookup LabelName = some 0
        ∧ (erc4626LabelsMap addressesC).lookup LabelAddress = some 1
        ∧ (erc4626LabelsMap addressesC).lookup LabelContract = some 2
        ∧ (erc4626LabelsMap addressesC).lookup LabelSymbol = some 3
        ∧ ∀ l i, (l, i) ∈ erc4626LabelsMap addressesC → l ≠ LabelName → l ≠ LabelAddress →
            l ≠ LabelContract → l ≠ LabelSymbol → 4 ≤ i) := by
  refine ⟨?_, ?_, ?_⟩
  · obtain ⟨h1, h2⟩ := scanLabels_base accountBaseLabels
      (addressesA.map fun a => a.Labels.keys) accountBaseLabels_schema
    refine ⟨(h1 _ _ (by decide)).2, (h1 _ _ (by decide)).2, ?_⟩
    intro l i hli hn ha
    exact h2 l i hli (by simp [accountBaseLabels, hn, ha])
  · obtain ⟨h1, h2⟩ := scanLabels_base erc4337BaseLabels
      (addressesB.map fun a => a.Labels.keys) erc4337BaseLabels_schema
    refine ⟨(h1 _ _ (by decide)).2, (h1 _ _ (by decide)).2, (h1 _ _ (by decide)).2, ?_⟩
    intro l i hli hn ha hc
    exact h2 l i hli (by simp [erc4337BaseLabels, hn, ha, hc])
  · obtain ⟨h1, h2⟩ := scanLabels_base erc4626BaseLabels
      (addressesC.map fun a => a.Labels.keys) erc4626BaseLabels_schema
    refine ⟨(h1 _ _ (by decide)).2, (h1 _ _ (by decide)).2, (h1 _ _ (by decide)).2,
      (h1 _ _ (by decide)).2, ?_⟩
    intro l i hli hn ha hc hs
    exact h2 l i hli (by simp [erc4626BaseLabels, hn, ha, hc, hs])

theorem base_subset_scanLabels (base : IndexMap) (keys : List (List GoString)) :
    ∀ e ∈ base, e ∈ scanLabels base keys := by
  obtain ⟨ext, hext⟩ := scanLabels_extends base keys
  intro e he
  rw [hext]
  exact List.mem_append_left _ he

/-- The schema built by a constructor loop is a bijection between the base
labels united with the custom label keys and the indices below its length,
and the label-name slice lists its keys by index. -/
theorem scanLabels_bijection (base : IndexMap) (keys : List (List GoString)) (hb : Schema base)
    (order : IndexMap) (hp : order.Perm (scanLabels base keys)) :
    labelNamesIn (scanLabels base keys) order = some ((scanLabels base keys).map Prod.fst)
      ∧ ((scanLabels base keys).map Prod.fst).Nodup
      ∧ (scanLabels base keys).map Prod.snd
          = List.range ((scanLabels base keys).map Prod.fst).length
      ∧ (∀ l, l ∈ (scanLabels base keys).map Prod.fst
          ↔ l ∈ base.map Prod.fst ∨ ∃ ks ∈ keys, l ∈ ks)
      ∧ (∀ l i, (l, i) ∈ scanLabels base keys
          → ((scanLabels base keys).map Prod.fst)[i]? = some l) := by
  have hs : Schema (scanLabels base keys) := hb.scan keys
  refine ⟨labelNamesIn_spec _ _ hs hp, hs.1, by rw [List.length_map]; exact hs.2,
    keys_scanLabels base keys, ?_⟩
  intro l i hli
  obtain ⟨p, hp', hget⟩ := List.mem_iff_getElem.mp hli
  have hsnd : (scanLabels base keys)[p].2 = p := by
    have := congrArg (fun l => l[p]?) hs.2
    simp only [List.getElem?_map, List.getElem?_range hp', List.getElem?_eq_getElem hp',
      Option.map_some'] at this
    exact Option.some.inj this
  rw [hget] at hsnd
  simp only at hsnd
  subst hsnd
  rw [List.getElem?_map, List.getElem?_eq_getElem hp', hget]
  rfl

/-- C12: for every address list, every order in which the maps are ranged
over, and every registry: each constructor builds the instance whose schema
is the one of its loop and hands the label-name slice of that schema to its
two instruments, and when the registry accepts them it returns that instance.
The schema of a returned job is a bijection between the base label names
united with all custom label keys and the indices `0 .. n-1`: the keys are
pairwise distinct, the indices are exactly `0 .. n-1`, a name is in the
schema exactly when it is a base label or a custom label key of some address,
and the label-name slice handed to the instruments has `n` pairwise distinct
entries, the entry at index `i` being the label with index `i`. -/
theorem schema_bijection {ρ : Type} (reg : Registerer ρ) (rsA rsB rsC : ρ) (ns : GoString)
    (cl : StringMap)
    (addressesA : List AddressAccount) (orderA : IndexMap)
    (hA : orderA.Perm (accountLabelsMap addressesA))
    (addressesB : List AddressERC4337) (orderB : IndexMap)
    (hB : orderB.Perm (erc4337LabelsMap addressesB))
    (addressesC : List AddressERC4626) (orderC : IndexMap)
    (hC : orderC.Perm (erc4626LabelsMap addressesC)) :
    (NewAccountIn orderA reg rsA ns cl addressesA
          = registerBoth reg rsA
              (accountCollectors ns cl ((accountLabelsMap addressesA).map Prod.fst))
              { addresses := addressesA, labelsMap := accountLabelsMap addressesA,
                labels := (accountLabelsMap addressesA).map Prod.fst }
        ∧ ∀ n, (NewAccountIn orderA reg rsA ns cl addressesA).1 = Outcome.ok n →
          n.labelsMap = accountLabelsMap addressesA
          ∧ n.labels.Nodup ∧ n.labels.length = n.labelsMap.length
          ∧ n.labelsMap.map Prod.snd = List.range n.labels.length
          ∧ (∀ l, l ∈ n.labels ↔ l ∈ n.labelsMap.map Prod.fst)
          ∧ (∀ l, l ∈ n.labels ↔
              l = LabelName ∨ l = LabelAddress ∨ ∃ a ∈ addressesA, l ∈ a.Labels.keys)
          ∧ (∀ l i, (l, i) ∈ n.labelsMap → n.labels[i]? = some l))
      ∧ (NewERC4337In orderB reg rsB ns cl addressesB
          = registerBoth reg rsB
              (erc4337Collectors ns cl ((erc4337LabelsMap addressesB).map Prod.fst))
              { addresses := addressesB, labelsMap := erc4337LabelsMap addressesB,
                labels := (erc4337LabelsMap addressesB).map Prod.fst }
        ∧ ∀ n, (NewERC4337In orderB reg rsB ns cl addressesB).1 = Outcome.ok n →
          n.labelsMap = erc4337LabelsMap addressesB
          ∧ n.labels.Nodup ∧ n.labels.length = n.labelsMap.length
          ∧ n.labelsMap.map Prod.snd = List.range n.labels.length
          ∧ (∀ l, l ∈ n.labels ↔ l ∈ n.labelsMap.map Prod.fst)
          ∧ (∀ l, l ∈ n.labels ↔
              l = LabelName ∨ l = LabelAddress ∨ l = LabelContract
                ∨ ∃ a ∈ addressesB, l ∈ a.Labels.keys)
          ∧ (∀ l i, (l, i) ∈ n.labelsMap → n.labels[i]? = some l))
      ∧ (NewERC4626In orderC reg rsC ns cl addressesC
          = registerBoth reg rsC
              (erc4626Collectors ns cl ((erc4626LabelsMap addressesC).map Prod.fst))
              { addresses := addressesC, labelsMap := erc4626LabelsMap addressesC,
                labels := (erc4626LabelsMap addressesC).map Prod.fst }
        ∧ ∀ n, (NewERC4626In orderC reg rsC ns cl addressesC).1 = Outcome.ok n →
          n.labelsMap = erc4626LabelsMap addressesC
          ∧ n.labels.Nodup ∧ n.labels.length = n.labelsMap.length
          ∧ n.labelsMap.map Prod.snd = List.range n.labels.length
          ∧ (∀ l, l ∈ n.labels ↔ l ∈ n.labelsMap.map Prod.fst)
          ∧ (∀ l, l ∈ n.labels ↔
              l = LabelName ∨ l = LabelAddress ∨ l = LabelContract ∨ l = LabelSymbol
                ∨ ∃ a ∈ addressesC, l ∈ a.Labels.keys)
          ∧ (∀ l i, (l, i) ∈ n.labelsMap → n.labels[i]? = some l)) := by
  refine ⟨?_, ?_, ?_⟩
  · obtain ⟨_, h2, h3, h4, h5⟩ := scanLabels_bijection accountBaseLabels
      (addressesA.map fun (a : AddressAccount) => a.Labels.keys) accountBaseLabels_schema orderA hA
    have heq := NewAccountIn_eq orderA addressesA hA reg rsA ns cl
    refine ⟨heq, ?_⟩
    intro n hn
    rw [heq] at hn
    have hj := registerBoth_ok reg rsA _ _ n hn
    subst hj
    refine ⟨rfl, h2, by simp, h3, fun l => Iff.rfl, ?_, h5⟩
    intro l
    show l ∈ (accountLabelsMap addressesA).map Prod.fst ↔ _
    unfold accountLabelsMap
    rw [h4 l]
    simp [accountBaseLabels]
    tauto
  · obtain ⟨_, h2, h3, h4, h5⟩ := scanLabels_bijection erc4337BaseLabels
      (addressesB.map fun (a : AddressERC4337) => a.Labels.keys) erc4337BaseLabels_schema orderB hB
    have heq := NewERC4337In_eq orderB addressesB hB reg rsB ns cl
    refine ⟨heq, ?_⟩
    intro n hn
    rw [heq] at hn
    have hj := registerBoth_ok reg rsB _ _ n hn
    subst hj
    refine ⟨rfl, h2, by simp, h3, fun l => Iff.rfl, ?_, h5⟩
    intro l
    show l ∈ (erc4337LabelsMap addressesB).map Prod.fst ↔ _
    unfold erc4337LabelsMap
    rw [h4 l]
    simp [erc4337BaseLabels]
    tauto
  · obtain ⟨_, h2, h3, h4, h5⟩ := scanLabels_bijection erc4626BaseLabels
      (addressesC.map fun (a : AddressERC4626) => a.Labels.keys) erc4626BaseLabels_schema orderC hC
    have heq := NewERC4626In_eq orderC addressesC hC reg rsC ns cl
    refine ⟨heq, ?_⟩
    intro n hn
    rw [heq] at hn
    have hj := registerBoth_ok reg rsC _ _ n hn
    subst hj
    refine ⟨rfl, h2, by simp, h3, fun l => Iff.rfl, ?_, h5⟩
    intro l
    show l ∈ (erc4626LabelsMap addressesC).map Prod.fst ↔ _
    unfold erc4626LabelsMap
    rw [h4 l]
    simp [erc4626BaseLabels]
    tauto

/-- Witness of `schema_bijection`: the vault job of the tests on a registry
that accepts its instruments, the maps ranged over in insertion order; and a
registry that accepts nothing, on which the constructor panics. -/
theorem schema_bijection_witness :
    (∃ n, (NewERC4626In (erc4626LabelsMap [testVault]) testRegistry [] testNamespace none
          [testVault]).1 = Outcome.ok n
      ∧ n.labelsMap = erc4626LabelsMap [testVault]
      ∧ n.labels.Nodup ∧ n.labels.length = n.labelsMap.length
      ∧ n.labelsMap.map Prod.snd = List.range n.labels.length
      ∧ (∀ l, l ∈ n.labels ↔ l ∈ n.labelsMap.map Prod.fst)
      ∧ (∀ l, l ∈ n.labels ↔
          l = LabelName ∨ l = LabelAddress ∨ l = LabelContract ∨ l = LabelSymbol
            ∨ ∃ a ∈ [testVault], l ∈ a.Labels.keys)
      ∧ (∀ l i, (l, i) ∈ n.labelsMap → n.labels[i]? = some l))
      ∧ (NewERC4626In (erc4626LabelsMap [testVault]) closedRegistry () testNamespace none
          [testVault]).1 = Outcome.panic :=
  ⟨⟨testVaultJob, testVaultJob_new,
      ((schema_bijection testRegistry [] [] [] testNamespace none
        [emptyNameAccount] (accountLabelsMap [emptyNameAccount]) (List.Perm.refl _)
        [] (erc4337LabelsMap []) (List.Perm.refl _)
        [testVault] (erc4626LabelsMap [testVault]) (List.Perm.refl _)).2.2).2 testVaultJob
        testVaultJob_new⟩,
    by decide⟩

theorem scanLabels_append (m : IndexMap) (k1 k2 : List (List GoString)) :
    scanLabels m (k1 ++ k2) = scanLabels (scanLabels m k1) k2 := by
  unfold scanLabels
  rw [List.foldl_append]

theorem mem_of_mem_keys (m : IndexMap) (l : GoString) (h : l ∈ m.map Prod.fst) :
    ∃ i, (l, i) ∈ m := by
  obtain ⟨e, he, rfl⟩ := List.mem_map.mp h
  exact ⟨e.2, he⟩

/-- Labels are indexed in the order of the addresses that introduce them. -/
theorem first_occurrence_order (base : IndexMap) (keys : List (List GoString)) (hb : Schema base)
    (i j : Nat) (a b : GoString) (hij : i < j)
    (ha : firstOccursAt keys i a) (hbj : firstOccursAt keys j b)
    (hbb : b ∉ base.map Prod.fst) :
    ∃ ia ib, (scanLabels base keys).lookup a = some ia
      ∧ (scanLabels base keys).lookup b = some ib ∧ ia < ib := by
  obtain ⟨⟨ksa, hksa, haks⟩, _⟩ := ha
  obtain ⟨⟨ksb, hksb, hbks⟩, hbfirst⟩ := hbj
  have hsplit : keys = keys.take (i + 1) ++ keys.drop (i + 1) := (List.take_append_drop _ _).symm
  have hfinal : scanLabels base keys
      = scanLabels (scanLabels base (keys.take (i + 1))) (keys.drop (i + 1)) := by
    rw [← scanLabels_append, ← hsplit]
  obtain ⟨ext, hext⟩ := scanLabels_extends (scanLabels base (keys.take (i + 1)))
    (keys.drop (i + 1))
  have hs1 : Schema (scanLabels base (keys.take (i + 1))) := hb.scan _
  have hs : Schema (scanLabels base keys) := hb.scan _
  -- `a` is in the schema after the first `i + 1` addresses
  have ha1 : a ∈ (scanLabels base (keys.take (i + 1))).map Prod.fst := by
    rw [keys_scanLabels]
    refine Or.inr ⟨ksa, ?_, haks⟩
    rw [List.mem_iff_getElem?]
    exact ⟨i, by rw [List.getElem?_take, if_pos (by omega)]; exact hksa⟩
  -- `b` is not
  have hb1 : b ∉ (scanLabels base (keys.take (i + 1))).map Prod.fst := by
    rw [keys_scanLabels]
    rintro (h | ⟨ks, hks, hbk⟩)
    · exact hbb h
    · rw [List.mem_iff_getElem?] at hks
      obtain ⟨p, hp⟩ := hks
      rw [List.getElem?_take] at hp
      split_ifs at hp with hlt
      · exact hbfirst p (by omega) ks hp hbk
  have hbfin : b ∈ (scanLabels base keys).map Prod.fst := by
    rw [keys_scanLabels]
    refine Or.inr ⟨ksb, ?_, hbks⟩
    rw [List.mem_iff_getElem?]
    exact ⟨j, hksb⟩
  obtain ⟨ia, hia⟩ := mem_of_mem_keys _ _ ha1
  obtain ⟨ib, hib⟩ := mem_of_mem_keys _ _ hbfin
  have hia' : (a, ia) ∈ scanLabels base keys := by
    rw [hfinal, hext]; exact List.mem_append_left _ hia
  refine ⟨ia, ib, lookup_eq_some_of_mem _ hs.1 _ _ hia', lookup_eq_some_of_mem _ hs.1 _ _ hib, ?_⟩
  have hsx : Schema (scanLabels base (keys.take (i + 1)) ++ ext) := by
    rw [← hext, ← hfinal]; exact hs
  have h1 := hsx.index_of_append.1 _ hia
  have hib' : (b, ib) ∈ ext := by
    rw [hfinal, hext] at hib
    rcases List.mem_append.mp hib with h | h
    · exact absurd (List.mem_map_of_mem Prod.fst h) hb1
    · exact h
  have h2 := hsx.index_of_append.2 _ hib'
  simp only at h1 h2
  omega

theorem foldl_addLabel_of_all_mem (m : IndexMap) (ks : List GoString)
    (h : ∀ k ∈ ks, k ∈ m.map Prod.fst) : ks.foldl addLabel m = m := by
  induction ks with
  | nil => rfl
  | cons k ks ih =>
    rw [List.foldl_cons, addLabel_eq, if_pos (h k (List.mem_cons_self _ _))]
    exact ih (fun x hx => h x (List.mem_cons_of_mem _ hx))

theorem foldl_addLabel_of_one_new (m : IndexMap) (ks : List GoString) (k0 : GoString)
    (hk0 : k0 ∈ ks) (hnew : k0 ∉ m.map Prod.fst)
    (h : ∀ k ∈ ks, k ∈ m.map Prod.fst ∨ k = k0) :
    ks.foldl addLabel m = m ++ [(k0, m.length)] := by
  induction ks with
  | nil => simp at hk0
  | cons k ks ih =>
    rw [List.foldl_cons, addLabel_eq]
    by_cases hk : k ∈ m.map Prod.fst
    · rw [if_pos hk]
      have hne : k ≠ k0 := by rintro rfl; exact hnew hk
      have hk0' : k0 ∈ ks := by
        simp only [List.mem_cons] at hk0
        rcases hk0 with h' | h'
        · exact absurd h'.symm hne
        · exact h'
      exact ih hk0' (fun x hx => h x (List.mem_cons_of_mem _ hx))
    · rw [if_neg hk]
      have hkk : k = k0 := by
        rcases h k (List.mem_cons_self _ _) with h' | h'
        · exact absurd h' hk
        · exact h'
      subst hkk
      apply foldl_addLabel_of_all_mem
      intro x hx
      rw [List.map_append, List.mem_append]
      rcases h x (List.mem_cons_of_mem _ hx) with h' | h'
      · exact Or.inl h'
      · exact Or.inr (by simp [h'])

theorem foldl_addLabel_congr (m : IndexMap) (ks ks' : List GoString)
    (hsame : ∀ x, x ∈ ks ↔ x ∈ ks')
    (hone : ∀ k ∈ ks, ∀ k' ∈ ks, k ∉ m.map Prod.fst → k' ∉ m.map Prod.fst → k = k') :
    ks.foldl addLabel m = ks'.foldl addLabel m := by
  by_cases hall : ∀ k ∈ ks, k ∈ m.map Prod.fst
  · rw [foldl_addLabel_of_all_mem m ks hall,
      foldl_addLabel_of_all_mem m ks' (fun k hk => hall k ((hsame k).mpr hk))]
  · push_neg at hall
    obtain ⟨k0, hk0, hnew⟩ := hall
    have h1 : ∀ k ∈ ks, k ∈ m.map Prod.fst ∨ k = k0 := by
      intro k hk
      by_cases hkm : k ∈ m.map Prod.fst
      · exact Or.inl hkm
      · exact Or.inr (hone k hk k0 hk0 hkm hnew)
    rw [foldl_addLabel_of_one_new m ks k0 hk0 hnew h1,
      foldl_addLabel_of_one_new m ks' k0 ((hsame k0).mp hk0) hnew
        (fun k hk => h1 k ((hsame k).mpr hk))]

/-- When every address introduces at most one new label, the schema does not
depend on the order in which the label maps are ranged over. -/
theorem scanLabels_deterministic (m : IndexMap) (keys keys' : List (List GoString))
    (hsame : List.Forall₂ (fun ks ks' => ∀ x, x ∈ ks ↔ x ∈ ks') keys keys')
    (hone : atMostOneNew m keys) : scanLabels m keys = scanLabels m keys' := by
  unfold scanLabels
  induction hsame generalizing m with
  | nil => rfl
  | cons h _ ih =>
    rw [List.foldl_cons, List.foldl_cons]
    obtain ⟨h1, h2⟩ := hone
    rw [← foldl_addLabel_congr m _ _ h h1]
    exact ih _ h2

/-- C29: for each of the three constructors (`base` is the map it seeds,
`keys` lists for each address the keys of its `Labels` in the order the
`range` visits them): if the non-base label `a` first occurs at address `i`
and the non-base label `b` first occurs at address `j` with `i < j`, the
schema gives `a` a smaller index than `b`; and when every address introduces
at most one new label name, the schema is the same for every order in which
the individual label maps are ranged over. -/
theorem schema_first_occurrence_order (base : IndexMap) (keys : List (List GoString))
    (hbase : base = accountBaseLabels ∨ base = erc4337BaseLabels ∨ base = erc4626BaseLabels) :
    (∀ (i j : Nat) (a b : GoString), i < j → firstOccursAt keys i a → firstOccursAt keys j b →
        a ∉ base.map Prod.fst → b ∉ base.map Prod.fst →
        ∃ ia ib, (scanLabels base keys).lookup a = some ia
          ∧ (scanLabels base keys).lookup b = some ib ∧ ia < ib)
      ∧ (∀ keys' : List (List GoString),
        List.Forall₂ (fun ks ks' => ∀ x, x ∈ ks ↔ x ∈ ks') keys keys' →
        atMostOneNew base keys → scanLabels base keys = scanLabels base keys') := by
  have hb : Schema base := by
    rcases hbase with rfl | rfl | rfl
    · exact accountBaseLabels_schema
    · exact erc4337BaseLabels_schema
    · exact erc4626BaseLabels_schema
  exact ⟨fun i j a b hij ha hbj _ hbb =>
      first_occurrence_order base keys hb i j a b hij ha hbj hbb,
    fun keys' hsame hone => scanLabels_deterministic base keys keys' hsame hone⟩

/-- Witness of `schema_first_occurrence_order`: the Account constructor on
two addresses with the custom labels `type` and `team`. -/
theorem schema_first_occurrence_order_witness :
    (∀ (i j : Nat) (a b : GoString), i < j →
        firstOccursAt [[bytesOf "type"], [bytesOf "team"]] i a →
        firstOccursAt [[bytesOf "type"], [bytesOf "team"]] j b →
        a ∉ accountBaseLabels.map Prod.fst → b ∉ accountBaseLabels.map Prod.fst →
        ∃ ia ib,
          (scanLabels accountBaseLabels [[bytesOf "type"], [bytesOf "team"]]).lookup a = some ia
          ∧ (scanLabels accountBaseLabels [[bytesOf "type"], [bytesOf "team"]]).lookup b
              = some ib
          ∧ ia < ib)
      ∧ (∀ keys' : List (List GoString),
        List.Forall₂ (fun ks ks' => ∀ x, x ∈ ks ↔ x ∈ ks')
          [[bytesOf "type"], [bytesOf "team"]] keys' →
        atMostOneNew accountBaseLabels [[bytesOf "type"], [bytesOf "team"]] →
        scanLabels accountBaseLabels [[bytesOf "type"], [bytesOf "team"]]
          = scanLabels accountBaseLabels keys') :=
  schema_first_occurrence_order accountBaseLabels [[bytesOf "type"], [bytesOf "team"]]
    (Or.inl rfl)

/-! ## Theorems: probes -/

theorem account_getLabelValues_some (n : Account) (h : Schema n.labelsMap)
    (address : AddressAccount) :
    ∃ lvs, n.getLabelValues address = some lvs ∧ lvs.length = n.labelsMap.length
      ∧ ∀ l i, (l, i) ∈ n.labelsMap → lvs[i]? = some (Account.labelValue address l) :=
  fillLabelValues_spec _ _ _ h (List.Perm.refl _)

theorem erc4337_getLabelValues_some (n : ERC4337) (h : Schema n.labelsMap)
    (address : AddressERC4337) :
    ∃ lvs, n.getLabelValues address = some lvs ∧ lvs.length = n.labelsMap.length
      ∧ ∀ l i, (l, i) ∈ n.labelsMap → lvs[i]? = some (ERC4337.labelValue address l) :=
  fillLabelValues_spec _ _ _ h (List.Perm.refl _)

theorem erc4626_getLabelValues_some (n : ERC4626) (h : Schema n.labelsMap)
    (address : AddressERC4626) (symbol : GoString) :
    ∃ lvs, n.getLabelValues address symbol = some lvs ∧ lvs.length = n.labelsMap.length
      ∧ ∀ l i, (l, i) ∈ n.labelsMap → lvs[i]? = some (ERC4626.labelValue address symbol l) :=
  fillLabelValues_spec _ _ _ h (List.Perm.refl _)

theorem getAssets_err1 {σ : Type} (n : ERC4626) (c : ExecutionClient σ)
    (address : AddressERC4626) (w : World σ) (hlen : 2 ≤ address.Address.length)
    (e : GoError) (s1 : σ)
    (h1 : c.ETHCall w.client (call1 address) latest = (Except.error e, s1)) :
    n.getAssets c address w = n.fail address e
      { client := s1, calls := w.calls ++ [RpcCall.ethCall (call1 address) latest],
        ops := w.ops } := by
  unfold ERC4626.getAssets
  rw [if_neg (by omega)]
  simp only [call1] at h1
  simp only [h1, call1]

theorem getAssets_err2 {σ : Type} (n : ERC4626) (c : ExecutionClient σ)
    (address : AddressERC4626) (w : World σ) (hlen : 2 ≤ address.Address.length)
    (sharesStr : GoString) (e : GoError) (s1 s2 : σ)
    (h1 : c.ETHCall w.client (call1 address) latest = (Except.ok sharesStr, s1))
    (h2 : c.ETHCall s1 (call2 address sharesStr) latest = (Except.error e, s2)) :
    n.getAssets c address w = n.fail address e
      { client := s2,
        calls := w.calls ++ [RpcCall.ethCall (call1 address) latest]
          ++ [RpcCall.ethCall (call2 address sharesStr) latest],
        ops := w.ops } := by
  unfold ERC4626.getAssets
  rw [if_neg (by omega)]
  simp only [call1, call2] at h1 h2
  simp only [h1, h2, call1, call2]

theorem getAssets_err3 {σ : Type} (n : ERC4626) (c : ExecutionClient σ)
    (address : AddressERC4626) (w : World σ) (hlen : 2 ≤ address.Address.length)
    (sharesStr assetsStr : GoString) (e : GoError) (s1 s2 s3 : σ)
    (h1 : c.ETHCall w.client (call1 address) latest = (Except.ok sharesStr, s1))
    (h2 : c.ETHCall s1 (call2 address sharesStr) latest = (Except.ok assetsStr, s2))
    (h3 : c.ETHCall s2 (call3 address) latest = (Except.error e, s3)) :
    n.getAssets c address w = n.fail address e
      { client := s3,
        calls := w.calls ++ [RpcCall.ethCall (call1 address) latest]
          ++ [RpcCall.ethCall (call2 address sharesStr) latest]
          ++ [RpcCall.ethCall (call3 address) latest],
        ops := w.ops } := by
  unfold ERC4626.getAssets
  rw [if_neg (by omega)]
  simp only [call1, call2, call3] at h1 h2 h3
  simp only [h1, h2, h3, call1, call2, call3]

theorem getAssets_decode {σ : Type} (n : ERC4626) (c : ExecutionClient σ)
    (address : AddressERC4626) (w : World σ) (hlen : 2 ≤ address.Address.length)
    (sharesStr assetsStr symbolHex : GoString) (s1 s2 s3 : σ)
    (h1 : c.ETHCall w.client (call1 address) latest = (Except.ok sharesStr, s1))
    (h2 : c.ETHCall s1 (call2 address sharesStr) latest = (Except.ok assetsStr, s2))
    (h3 : c.ETHCall s2 (call3 address) latest = (Except.ok symbolHex, s3)) :
    n.getAssets c address w =
      match hexStringToString symbolHex with
      | Outcome.panic =>
        (Outcome.panic,
          { client := s3,
            calls := w.calls ++ [RpcCall.ethCall (call1 address) latest]
              ++ [RpcCall.ethCall (call2 address sharesStr) latest]
              ++ [RpcCall.ethCall (call3 address) latest],
            ops := w.ops })
      | Outcome.error e => n.fail address e
          { client := s3,
            calls := w.calls ++ [RpcCall.ethCall (call1 address) latest]
              ++ [RpcCall.ethCall (call2 address sharesStr) latest]
              ++ [RpcCall.ethCall (call3 address) latest],
            ops := w.ops }
      | Outcome.ok symbol =>
        match n.getLabelValues address symbol with
        | none =>
          (Outcome.panic,
            { client := s3,
              calls := w.calls ++ [RpcCall.ethCall (call1 address) latest]
                ++ [RpcCall.ethCall (call2 address sharesStr) latest]
                ++ [RpcCall.ethCall (call3 address) latest],
              ops := w.ops })
        | some lvs =>
          if validateLabelValues lvs n.labels.length then
            (Outcome.ok (),
              { client := s3,
                calls := w.calls ++ [RpcCall.ethCall (call1 address) latest]
                  ++ [RpcCall.ethCall (call2 address sharesStr) latest]
                  ++ [RpcCall.ethCall (call3 address) latest],
                ops := w.ops ++ [MetricOp.set lvs (hexStringToFloat64 assetsStr)] })
          else
            (Outcome.panic,
              { client := s3,
                calls := w.calls ++ [RpcCall.ethCall (call1 address) latest]
                  ++ [RpcCall.ethCall (call2 address sharesStr) latest]
                  ++ [RpcCall.ethCall (call3 address) latest],
                ops := w.ops }) := by
  unfold ERC4626.getAssets
  rw [if_neg (by omega)]
  simp only [call1, call2, call3] at h1 h2 h3
  simp only [h1, h2, h3, call1, call2, call3]

theorem erc4626_fail_eq {σ : Type} (n : ERC4626) (address : AddressERC4626) (e : GoError)
    (w : World σ) (lvs : List GoString) (h : n.getLabelValues address [] = some lvs) :
    n.fail address e w = (Outcome.error e, { w with ops := w.ops ++ [MetricOp.inc lvs] }) := by
  unfold ERC4626.fail
  simp only [h]

theorem hexStringToString_ok_of_decode (hexStr bs : GoString) (h2 : 2 ≤ hexStr.length)
    (hd : hexDecodeString (hexStr.drop 2) = Except.ok bs) :
    ∃ symbol, hexStringToString hexStr = Outcome.ok symbol := by
  rw [hexStringToString_of_decode hexStr bs h2 hd]
  split_ifs <;> exact ⟨_, rfl⟩

theorem hexStringToString_error_of_decode (hexStr : GoString) (e : GoError)
    (h2 : 2 ≤ hexStr.length) (hd : hexDecodeString (hexStr.drop 2) = Except.error e) :
    hexStringToString hexStr = Outcome.error e := by
  unfold hexStringToString
  rw [if_neg (by omega)]
  simp only [hd]

/-- A run of `getAssets` in which the three calls succeed and the symbol
decodes: the value is set when `WithLabelValues` accepts the label values,
and the probe panics after its three calls when it does not. -/
theorem getAssets_success {σ : Type} (n : ERC4626) (hn : Schema n.labelsMap)
    (c : ExecutionClient σ) (address : AddressERC4626) (w : World σ)
    (hlen : 2 ≤ address.Address.length)
    (sharesStr assetsStr symbolHex : GoString) (s1 s2 s3 : σ)
    (h1 : c.ETHCall w.client (call1 address) latest = (Except.ok sharesStr, s1))
    (h2 : c.ETHCall s1 (call2 address sharesStr) latest = (Except.ok assetsStr, s2))
    (h3 : c.ETHCall s2 (call3 address) latest = (Except.ok symbolHex, s3))
    (hs2 : 2 ≤ symbolHex.length) (bs : GoString)
    (hd : hexDecodeString (symbolHex.drop 2) = Except.ok bs) :
    ∃ symbol lvs, hexStringToString symbolHex = Outcome.ok symbol
      ∧ n.getLabelValues address symbol = some lvs
      ∧ n.getAssets c address w =
          if validateLabelValues lvs n.labels.length then
            (Outcome.ok (),
              { client := s3,
                calls := w.calls ++ [RpcCall.ethCall (call1 address) latest]
                  ++ [RpcCall.ethCall (call2 address sharesStr) latest]
                  ++ [RpcCall.ethCall (call3 address) latest],
                ops := w.ops ++ [MetricOp.set lvs (hexStringToFloat64 assetsStr)] })
          else
            (Outcome.panic,
              { client := s3,
                calls := w.calls ++ [RpcCall.ethCall (call1 address) latest]
                  ++ [RpcCall.ethCall (call2 address sharesStr) latest]
                  ++ [RpcCall.ethCall (call3 address) latest],
                ops := w.ops }) := by
  obtain ⟨symbol, hsym⟩ := hexStringToString_ok_of_decode symbolHex bs hs2 hd
  obtain ⟨lvs, hl, _⟩ := erc4626_getLabelValues_some n hn address symbol
  refine ⟨symbol, lvs, hsym, hl, ?_⟩
  rw [getAssets_decode n c address w hlen sharesStr assetsStr symbolHex s1 s2 s3 h1 h2 h3]
  simp only [hsym, hl]

/-- The data of the three calls of `getAssets` start with the selectors of
`balanceOf`, `convertToAssets` and `symbol`, and each call is addressed to
`spec.Contract`. -/
theorem getAssets_call_data (address : AddressERC4626) (sharesStr : GoString) :
    bytesOf "0x70a08231" <+: (call1 address).Data
      ∧ bytesOf "0x07a2d13a" <+: (call2 address sharesStr).Data
      ∧ bytesOf "0x95d89b41" <+: (call3 address).Data
      ∧ (call1 address).To = address.Contract
      ∧ (call2 address sharesStr).To = address.Contract
      ∧ (call3 address).To = address.Contract := by
  refine ⟨?_, ?_, ?_, rfl, rfl, rfl⟩
  · exact ⟨List.replicate 24 48 ++ address.Address.drop 2, by
      simp only [call1, balanceOfData, ← List.append_assoc]
      congr 1⟩
  · exact ⟨sharesWord sharesStr, rfl⟩
  · exact ⟨List.replicate 24 48, by show _ = symbolData; decide⟩

set_option maxRecDepth 100000 in
/-- C13 (evaluation at the failing input): the client answers the three calls
without error and its symbol response `"0xff"` is valid hex; it decodes to
the single byte `ff`, which is not valid UTF-8. `getAssets` issues its three
calls, to `spec.Contract` with the block tag `latest` and in the order
`balanceOf`, `convertToAssets`, `symbol`, and then panics in `WithLabelValues`
instead of returning nil. Job and address are those of the first case of
`TestERC4626_getAssets`. -/
theorem getAssets_panics_on_invalid_symbol :
    hexStringToString (bytesOf "0xff") = Outcome.ok [255]
      ∧ utf8ValidString [255] = false
      ∧ testVaultJob.getLabelValues testVault [255]
          = some [bytesOf "Test Vault", bytesOf "0x1234567890123456789012345678901234567890",
              bytesOf "0xBEEF01735c132Ada46AA9aA4c54623cAA92A64CB", [255], bytesOf "usdc"]
      ∧ (testVaultJob.getAssets invalidSymbolClient.client testVault World.init).1
          = Outcome.panic
      ∧ (testVaultJob.getAssets invalidSymbolClient.client testVault World.init).2.calls
          = [RpcCall.ethCall (call1 testVault) (bytesOf "latest"),
              RpcCall.ethCall (call2 testVault testVaultClient.balanceOfResponse)
                (bytesOf "latest"),
              RpcCall.ethCall (call3 testVault) (bytesOf "latest")] := by
  refine ⟨by decide, by decide, by decide, by decide, by decide⟩

set_option maxRecDepth 100000 in
/-- C14 (evaluation at the failing input): the three calls succeed and the
symbol response, the ABI encoding of the one-byte string `ff`, decodes
without error; the decoded symbol is not valid UTF-8, `WithLabelValues`
panics, and the run writes to no instrument: the cell of
`getLabelValues(spec, decoded symbol)` of the value instrument is not set.
With the symbol response of the tests, under the same calls, the cell is set
to `1e15`. -/
theorem getAssets_writes_nothing_on_invalid_symbol :
    invalidAbiSymbolClient.client.ETHCall () (call3 testVault) latest
        = (Except.ok (bytesOf "0x" ++ hexEncode (abiEncodeString [255])), ())
      ∧ hexStringToString (bytesOf "0x" ++ hexEncode (abiEncodeString [255])) = Outcome.ok [255]
      ∧ (testVaultJob.getAssets invalidAbiSymbolClient.client testVault World.init).1
          = Outcome.panic
      ∧ (testVaultJob.getAssets invalidAbiSymbolClient.client testVault World.init).2.calls.length
          = 3
      ∧ (testVaultJob.getAssets invalidAbiSymbolClient.client testVault World.init).2.ops = []
      ∧ (testVaultJob.getAssets testVaultClient.client testVault World.init).2.ops
          = [MetricOp.set
              [bytesOf "Test Vault", bytesOf "0x1234567890123456789012345678901234567890",
                bytesOf "0xBEEF01735c132Ada46AA9aA4c54623cAA92A64CB", bytesOf "sUSDC-Vau",
                bytesOf "usdc"]
              (F64.finite false 1000000000000000 0)] := by
  refine ⟨by decide, by decide, by decide, by decide, by decide, by decide⟩

/-- C15: for a job built by `NewERC4626` and an address spec whose `Address`
has at least two bytes: if the k-th call (k = 1, 2, 3) returns an error `e`
while the earlier ones succeeded, `getAssets` issues exactly k calls, returns
`e`, increments the error instrument exactly once and does not write to the
value instrument. -/
theorem getAssets_call_error {σ : Type} (ord : IndexMap) (addresses : List AddressERC4626)
    (n : ERC4626) {ρ : Type} (reg : Registerer ρ) (rs : ρ) (ns : GoString)
    (cl : StringMap)
    (hn : (NewERC4626In ord reg rs ns cl addresses).1 = Outcome.ok n)
    (c : ExecutionClient σ) (address : AddressERC4626) (w : World σ)
    (hlen : 2 ≤ address.Address.length) :
    ∃ lvs, n.getLabelValues address [] = some lvs
      ∧ (∀ (e : GoError) (s1 : σ),
          c.ETHCall w.client (call1 address) latest = (Except.error e, s1) →
          n.getAssets c address w = (Outcome.error e,
            { client := s1
              calls := w.calls ++ [RpcCall.ethCall (call1 address) latest]
              ops := w.ops ++ [MetricOp.inc lvs] }))
      ∧ (∀ (sharesStr : GoString) (e : GoError) (s1 s2 : σ),
          c.ETHCall w.client (call1 address) latest = (Except.ok sharesStr, s1) →
          c.ETHCall s1 (call2 address sharesStr) latest = (Except.error e, s2) →
          n.getAssets c address w = (Outcome.error e,
            { client := s2
              calls := w.calls ++ [RpcCall.ethCall (call1 address) latest,
                RpcCall.ethCall (call2 address sharesStr) latest]
              ops := w.ops ++ [MetricOp.inc lvs] }))
      ∧ (∀ (sharesStr assetsStr : GoString) (e : GoError) (s1 s2 s3 : σ),
          c.ETHCall w.client (call1 address) latest = (Except.ok sharesStr, s1) →
          c.ETHCall s1 (call2 address sharesStr) latest = (Except.ok assetsStr, s2) →
          c.ETHCall s2 (call3 address) latest = (Except.error e, s3) →
          n.getAssets c address w = (Outcome.error e,
            { client := s3
              calls := w.calls ++ [RpcCall.ethCall (call1 address) latest,
                RpcCall.ethCall (call2 address sharesStr) latest,
                RpcCall.ethCall (call3 address) latest]
              ops := w.ops ++ [MetricOp.inc lvs] })) := by
  obtain ⟨lvs, hl, _⟩ := erc4626_getLabelValues_some n (erc4626_schema_of_new hn) address []
  refine ⟨lvs, hl, ?_, ?_, ?_⟩
  · intro e s1 h1
    rw [getAssets_err1 n c address w hlen e s1 h1, erc4626_fail_eq n address e _ lvs hl]
  · intro sharesStr e s1 s2 h1 h2
    rw [getAssets_err2 n c address w hlen sharesStr e s1 s2 h1 h2,
      erc4626_fail_eq n address e _ lvs hl]
    simp
  · intro sharesStr assetsStr e s1 s2 s3 h1 h2 h3
    rw [getAssets_err3 n c address w hlen sharesStr assetsStr e s1 s2 s3 h1 h2 h3,
      erc4626_fail_eq n address e _ lvs hl]
    simp

/-- C16: for a job built by `NewERC4626`: if the three calls succeed and the
symbol response, of at least two bytes, is not valid hex after its first two
bytes, `getAssets` returns the (non-nil) decoding error after exactly three
calls, increments the error instrument exactly once and writes no value. -/
theorem getAssets_symbol_decode_error {σ : Type} (ord : IndexMap)
    (addresses : List AddressERC4626) (n : ERC4626) {ρ : Type} (reg : Registerer ρ) (rs : ρ) (ns : GoString)
    (cl : StringMap)
    (hn : (NewERC4626In ord reg rs ns cl addresses).1 = Outcome.ok n)
    (c : ExecutionClient σ) (address : AddressERC4626) (w : World σ)
    (hlen : 2 ≤ address.Address.length)
    (sharesStr assetsStr symbolHex : GoString) (s1 s2 s3 : σ)
    (h1 : c.ETHCall w.client (call1 address) latest = (Except.ok sharesStr, s1))
    (h2 : c.ETHCall s1 (call2 address sharesStr) latest = (Except.ok assetsStr, s2))
    (h3 : c.ETHCall s2 (call3 address) latest = (Except.ok symbolHex, s3))
    (hs2 : 2 ≤ symbolHex.length)
    (hbad : ¬ (isHexDigits (symbolHex.drop 2) ∧ (symbolHex.drop 2).length % 2 = 0)) :
    ∃ e lvs, hexDecodeString (symbolHex.drop 2) = Except.error e
      ∧ n.getLabelValues address [] = some lvs
      ∧ n.getAssets c address w = (Outcome.error e,
          { client := s3
            calls := w.calls ++ [RpcCall.ethCall (call1 address) latest,
              RpcCall.ethCall (call2 address sharesStr) latest,
              RpcCall.ethCall (call3 address) latest]
            ops := w.ops ++ [MetricOp.inc lvs] }) := by
  obtain ⟨e, he⟩ := hexDecodeString_error_of_not_hex _ _ (le_refl _) hbad
  obtain ⟨lvs, hl, _⟩ := erc4626_getLabelValues_some n (erc4626_schema_of_new hn) address []
  refine ⟨e, lvs, he, hl, ?_⟩
  rw [getAssets_decode n c address w hlen sharesStr assetsStr symbolHex s1 s2 s3 h1 h2 h3]
  simp only [hexStringToString_error_of_decode symbolHex e hs2 he]
  rw [erc4626_fail_eq n address e _ lvs hl]
  simp

/-- Witness of `getAssets_call_error`: the job and address of the first case
of `TestERC4626_getAssets`. -/
theorem getAssets_call_error_witness :
    ∃ lvs, testVaultJob.getLabelValues testVault [] = some lvs
      ∧ ∀ (e : GoError) (s1 : Unit),
          failingClient.client.ETHCall World.init.client (call1 testVault) latest
            = (Except.error e, s1) →
          testVaultJob.getAssets failingClient.client testVault World.init = (Outcome.error e,
            { client := s1
              calls := World.init.calls ++ [RpcCall.ethCall (call1 testVault) latest]
              ops := World.init.ops ++ [MetricOp.inc lvs] }) := by
  obtain ⟨lvs, h, h1, _⟩ := getAssets_call_error (erc4626LabelsMap [testVault]) [testVault]
    testVaultJob testRegistry [] testNamespace none testVaultJob_new failingClient.client testVault World.init (by decide)
  exact ⟨lvs, h, h1⟩

set_option maxRecDepth 100000 in
/-- Witness of `getAssets_symbol_decode_error`: the symbol response
`"0xzz"`. -/
theorem getAssets_symbol_decode_error_witness :
    ∃ e lvs, hexDecodeString ((bytesOf "0xzz").drop 2) = Except.error e
      ∧ testVaultJob.getLabelValues testVault [] = some lvs
      ∧ testVaultJob.getAssets badSymbolClient.client testVault World.init = (Outcome.error e,
          { client := ()
            calls := World.init.calls ++ [RpcCall.ethCall (call1 testVault) latest,
              RpcCall.ethCall (call2 testVault testVaultClient.balanceOfResponse) latest,
              RpcCall.ethCall (call3 testVault) latest]
            ops := World.init.ops ++ [MetricOp.inc lvs] }) :=
  getAssets_symbol_decode_error (erc4626LabelsMap [testVault]) [testVault] testVaultJob
    testRegistry [] testNamespace none testVaultJob_new badSymbolClient.client testVault World.init (by decide)
    testVaultClient.balanceOfResponse testVaultClient.convertToAssetsResponse
    (bytesOf "0xzz") () () () (by decide) (by decide) (by decide) (by decide)
    (by unfold isHexDigits; decide)

theorem erc4626_fail_calls {σ : Type} (n : ERC4626) (address : AddressERC4626) (e : GoError)
    (w : World σ) : (n.fail address e w).2.calls = w.calls := by
  unfold ERC4626.fail
  cases n.getLabelValues address [] <;> rfl

theorem erc4626_fail_cases {σ : Type} (n : ERC4626) (address : AddressERC4626) (e : GoError)
    (w : World σ) :
    (∃ lvs, n.getLabelValues address [] = some lvs
        ∧ n.fail address e w = (Outcome.error e, { w with ops := w.ops ++ [MetricOp.inc lvs] }))
      ∨ (n.getLabelValues address [] = none ∧ n.fail address e w = (Outcome.panic, w)) := by
  unfold ERC4626.fail
  cases h : n.getLabelValues address [] with
  | none => exact Or.inr ⟨rfl, rfl⟩
  | some lvs => exact Or.inl ⟨lvs, rfl, rfl⟩

theorem erc4626_fail_end {σ : Type} (n : ERC4626) (address : AddressERC4626) (e : GoError)
    (w : World σ) : ProbeEnd w.ops (n.fail address e w) := by
  rcases erc4626_fail_cases n address e w with ⟨lvs, _, h⟩ | ⟨_, h⟩
  · rw [h]; exact Or.inr (Or.inl ⟨e, rfl, lvs, rfl⟩)
  · rw [h]; exact Or.inr (Or.inr ⟨rfl, rfl⟩)

theorem account_getBalance_err {σ : Type} (n : Account) (c : ExecutionClient σ)
    (address : AddressAccount) (w : World σ) (e : GoError) (s : σ)
    (h : c.ETHGetBalance w.client address.Address latest = (Except.error e, s)) :
    n.getBalance c address w =
      match n.getLabelValues address with
      | none =>
        (Outcome.panic,
          { client := s, calls := w.calls ++ [RpcCall.ethGetBalance address.Address latest],
            ops := w.ops })
      | some lvs =>
        (Outcome.error e,
          { client := s, calls := w.calls ++ [RpcCall.ethGetBalance address.Address latest],
            ops := w.ops ++ [MetricOp.inc lvs] }) := by
  unfold Account.getBalance
  simp only [h]

theorem account_getBalance_ok {σ : Type} (n : Account) (c : ExecutionClient σ)
    (address : AddressAccount) (w : World σ) (balance : GoString) (s : σ)
    (h : c.ETHGetBalance w.client address.Address latest = (Except.ok balance, s)) :
    n.getBalance c address w =
      match n.getLabelValues address with
      | none =>
        (Outcome.panic,
          { client := s, calls := w.calls ++ [RpcCall.ethGetBalance address.Address latest],
            ops := w.ops })
      | some lvs =>
        (Outcome.ok (),
          { client := s, calls := w.calls ++ [RpcCall.ethGetBalance address.Address latest],
            ops := w.ops ++ [MetricOp.set lvs (hexStringToFloat64 balance)] }) := by
  unfold Account.getBalance
  simp only [h]

theorem erc4337_getBalance_err {σ : Type} (n : ERC4337) (c : ExecutionClient σ)
    (address : AddressERC4337) (w : World σ) (hlen : 2 ≤ address.Address.length)
    (e : GoError) (s : σ)
    (h : c.ETHCall w.client (balanceCall address) latest = (Except.error e, s)) :
    n.getBalance c address w =
      match n.getLabelValues address with
      | none =>
        (Outcome.panic,
          { client := s, calls := w.calls ++ [RpcCall.ethCall (balanceCall address) latest],
            ops := w.ops })
      | some lvs =>
        (Outcome.error e,
          { client := s, calls := w.calls ++ [RpcCall.ethCall (balanceCall address) latest],
            ops := w.ops ++ [MetricOp.inc lvs] }) := by
  unfold ERC4337.getBalance
  rw [if_neg (by omega)]
  simp only [balanceCall] at h
  simp only [h, balanceCall]

theorem erc4337_getBalance_ok {σ : Type} (n : ERC4337) (c : ExecutionClient σ)
    (address : AddressERC4337) (w : World σ) (hlen : 2 ≤ address.Address.length)
    (balance : GoString) (s : σ)
    (h : c.ETHCall w.client (balanceCall address) latest = (Except.ok balance, s)) :
    n.getBalance c address w =
      match n.getLabelValues address with
      | none =>
        (Outcome.panic,
          { client := s, calls := w.calls ++ [RpcCall.ethCall (balanceCall address) latest],
            ops := w.ops })
      | some lvs =>
        (Outcome.ok (),
          { client := s, calls := w.calls ++ [RpcCall.ethCall (balanceCall address) latest],
            ops := w.ops ++ [MetricOp.set lvs (hexStringToFloat64 balance)] }) := by
  unfold ERC4337.getBalance
  rw [if_neg (by omega)]
  simp only [balanceCall] at h
  simp only [h, balanceCall]

theorem account_getBalance_end {σ : Type} (n : Account) (c : ExecutionClient σ)
    (address : AddressAccount) (w : World σ) : ProbeEnd w.ops (n.getBalance c address w) := by
  rcases hr : c.ETHGetBalance w.client address.Address latest with ⟨r, s⟩
  cases r with
  | error e =>
    rw [account_getBalance_err n c address w e s hr]
    cases n.getLabelValues address with
    | none => exact Or.inr (Or.inr ⟨rfl, rfl⟩)
    | some lvs => exact Or.inr (Or.inl ⟨e, rfl, lvs, rfl⟩)
  | ok balance =>
    rw [account_getBalance_ok n c address w balance s hr]
    cases n.getLabelValues address with
    | none => exact Or.inr (Or.inr ⟨rfl, rfl⟩)
    | some lvs => exact Or.inl ⟨rfl, lvs, _, rfl⟩

theorem erc4337_getBalance_end {σ : Type} (n : ERC4337) (c : ExecutionClient σ)
    (address : AddressERC4337) (w : World σ) : ProbeEnd w.ops (n.getBalance c address w) := by
  by_cases hlen : address.Address.length < 2
  · unfold ERC4337.getBalance
    rw [if_pos hlen]
    exact Or.inr (Or.inr ⟨rfl, rfl⟩)
  · rcases hr : c.ETHCall w.client (balanceCall address) latest with ⟨r, s⟩
    cases r with
    | error e =>
      rw [erc4337_getBalance_err n c address w (by omega) e s hr]
      cases n.getLabelValues address with
      | none => exact Or.inr (Or.inr ⟨rfl, rfl⟩)
      | some lvs => exact Or.inr (Or.inl ⟨e, rfl, lvs, rfl⟩)
    | ok balance =>
      rw [erc4337_getBalance_ok n c address w (by omega) balance s hr]
      cases n.getLabelValues address with
      | none => exact Or.inr (Or.inr ⟨rfl, rfl⟩)
      | some lvs => exact Or.inl ⟨rfl, lvs, _, rfl⟩

theorem erc4626_getAssets_end {σ : Type} (n : ERC4626) (c : ExecutionClient σ)
    (address : AddressERC4626) (w : World σ) : ProbeEnd w.ops (n.getAssets c address w) := by
  by_cases hlen : address.Address.length < 2
  · unfold ERC4626.getAssets
    rw [if_pos hlen]
    exact Or.inr (Or.inr ⟨rfl, rfl⟩)
  · have hlen' : 2 ≤ address.Address.length := by omega
    rcases h1 : c.ETHCall w.client (call1 address) latest with ⟨r1, s1⟩
    cases r1 with
    | error e =>
      rw [getAssets_err1 n c address w hlen' e s1 h1]
      exact erc4626_fail_end n address e _
    | ok sharesStr =>
      rcases h2 : c.ETHCall s1 (call2 address sharesStr) latest with ⟨r2, s2⟩
      cases r2 with
      | error e =>
        rw [getAssets_err2 n c address w hlen' sharesStr e s1 s2 h1 h2]
        exact erc4626_fail_end n address e _
      | ok assetsStr =>
        rcases h3 : c.ETHCall s2 (call3 address) latest with ⟨r3, s3⟩
        cases r3 with
        | error e =>
          rw [getAssets_err3 n c address w hlen' sharesStr assetsStr e s1 s2 s3 h1 h2 h3]
          exact erc4626_fail_end n address e _
        | ok symbolHex =>
          rw [getAssets_decode n c address w hlen' sharesStr assetsStr symbolHex s1 s2 s3
            h1 h2 h3]
          cases hs : hexStringToString symbolHex with
          | panic => exact Or.inr (Or.inr ⟨rfl, rfl⟩)
          | error e => exact erc4626_fail_end n address e _
          | ok symbol =>
            dsimp only
            cases hl : n.getLabelValues address symbol with
            | none => exact Or.inr (Or.inr ⟨rfl, rfl⟩)
            | some lvs =>
              dsimp only
              by_cases hv : validateLabelValues lvs n.labels.length = true
              · rw [if_pos hv]
                exact Or.inl ⟨rfl, lvs, _, rfl⟩
              · rw [if_neg hv]
                exact Or.inr (Or.inr ⟨rfl, rfl⟩)

/-- C17: for each per-address probe, every job, address spec, client and
state: when the probe returns (it does not panic), exactly one of two
outcomes holds: it returns nil and its only instrument write is one `Set` on
the value instrument, or it returns a non-nil error and its only instrument
write is one `Inc` on the error instrument. -/
theorem probe_outcome_exclusive {σ : Type} (nA : Account) (nB : ERC4337) (nC : ERC4626)
    (c : ExecutionClient σ) (w : World σ) :
    (∀ address : AddressAccount, (nA.getBalance c address w).1 ≠ Outcome.panic →
        ((nA.getBalance c address w).1 = Outcome.ok ()
            ∧ ∃ lvs v, (nA.getBalance c address w).2.ops = w.ops ++ [MetricOp.set lvs v])
          ∨ (∃ e, (nA.getBalance c address w).1 = Outcome.error e
            ∧ ∃ lvs, (nA.getBalance c address w).2.ops = w.ops ++ [MetricOp.inc lvs]))
      ∧ (∀ address : AddressERC4337, (nB.getBalance c address w).1 ≠ Outcome.panic →
        ((nB.getBalance c address w).1 = Outcome.ok ()
            ∧ ∃ lvs v, (nB.getBalance c address w).2.ops = w.ops ++ [MetricOp.set lvs v])
          ∨ (∃ e, (nB.getBalance c address w).1 = Outcome.error e
            ∧ ∃ lvs, (nB.getBalance c address w).2.ops = w.ops ++ [MetricOp.inc lvs]))
      ∧ (∀ address : AddressERC4626, (nC.getAssets c address w).1 ≠ Outcome.panic →
        ((nC.getAssets c address w).1 = Outcome.ok ()
            ∧ ∃ lvs v, (nC.getAssets c address w).2.ops = w.ops ++ [MetricOp.set lvs v])
          ∨ (∃ e, (nC.getAssets c address w).1 = Outcome.error e
            ∧ ∃ lvs, (nC.getAssets c address w).2.ops = w.ops ++ [MetricOp.inc lvs])) := by
  refine ⟨?_, ?_, ?_⟩
  · intro address hp
    rcases account_getBalance_end nA c address w with h | h | h
    · exact Or.inl h
    · exact Or.inr h
    · exact absurd h.1 hp
  · intro address hp
    rcases erc4337_getBalance_end nB c address w with h | h | h
    · exact Or.inl h
    · exact Or.inr h
    · exact absurd h.1 hp
  · intro address hp
    rcases erc4626_getAssets_end nC c address w with h | h | h
    · exact Or.inl h
    · exact Or.inr h
    · exact absurd h.1 hp

set_option maxRecDepth 100000 in
/-- Witness of `probe_outcome_exclusive`: the first case of
`TestERC4626_getAssets`. -/
theorem probe_outcome_exclusive_witness :
    ((testVaultJob.getAssets testVaultClient.client testVault World.init).1 = Outcome.ok ()
        ∧ ∃ lvs v, (testVaultJob.getAssets testVaultClient.client testVault World.init).2.ops
            = World.init.ops ++ [MetricOp.set lvs v])
      ∨ (∃ e, (testVaultJob.getAssets testVaultClient.client testVault World.init).1
            = Outcome.error e
        ∧ ∃ lvs, (testVaultJob.getAssets testVaultClient.client testVault World.init).2.ops
            = World.init.ops ++ [MetricOp.inc lvs]) :=
  (probe_outcome_exclusive testAccountJob testEntryPointJob testVaultJob testVaultClient.client
    World.init).2.2 testVault (by decide)

theorem decodeRune_ascii (b : Nat) (rest : GoString) (hb : b < 128) :
    decodeRune (b :: rest) = (b, 1) := by
  unfold decodeRune
  simp only [if_pos hb]

theorem runeCountAux_ascii (fuel : Nat) (s : GoString) (hs : ∀ b ∈ s, b < 128)
    (hf : s.length ≤ fuel) : runeCountAux fuel s = s.length := by
  induction fuel generalizing s with
  | zero =>
    have : s = [] := List.length_eq_zero.mp (by omega)
    subst this
    rfl
  | succ fuel ih =>
    cases s with
    | nil => rfl
    | cons b rest =>
      have hb : b < 128 := hs b (List.mem_cons_self _ _)
      simp only [runeCountAux, decodeRune_ascii b rest hb, List.drop_succ_cons, List.drop_zero,
        List.length_cons]
      rw [ih rest (fun x hx => hs x (List.mem_cons_of_mem _ hx))
        (by simp only [List.length_cons] at hf; omega)]

theorem runeCountInString_ascii (s : GoString) (hs : ∀ b ∈ s, b < 128) :
    runeCountInString s = s.length :=
  runeCountAux_ascii _ s hs (le_refl _)

theorem hexValue_cons_zero (ds : GoString) : hexValue (48 :: ds) = hexValue ds := by
  unfold hexValue
  rw [List.foldl_cons]
  rfl

/-- Zeros on the left do not change the number that hexadecimal digits
denote. -/
theorem hexValue_zeros_append (k : Nat) (ds : GoString) :
    hexValue (List.replicate k 48 ++ ds) = hexValue ds := by
  induction k with
  | zero => rfl
  | succ n ih => rw [List.replicate_succ, List.cons_append, hexValue_cons_zero, ih]

/-- C18: for every `balanceOf` response `r` whose text `s` (`r` without a
leading `0x`) consists of ASCII bytes, as the hexadecimal text of an integer
does: if `s` is empty, the data of the second call is `"0x07a2d13a"` followed
by the word of `"0"`; if `s` has fewer than 64 bytes, the data is
`"0x07a2d13a"` followed by `s` left-padded with `'0'` to exactly 64 bytes; if
`s` has 64 or more bytes, the data is `"0x07a2d13a"` followed by `s`
unchanged. In every case the word after the selector denotes the same integer
as `s`. -/
theorem convertToAssetsData_ascii (r : GoString)
    (hascii : ∀ b ∈ stringsTrimLeading r (bytesOf "0x"), b < 128) :
    (stringsTrimLeading r (bytesOf "0x") = [] →
        convertToAssetsData r = bytesOf "0x07a2d13a" ++ List.replicate 63 48 ++ bytesOf "0")
      ∧ (stringsTrimLeading r (bytesOf "0x") ≠ [] →
          (stringsTrimLeading r (bytesOf "0x")).length < 64 →
          convertToAssetsData r = bytesOf "0x07a2d13a"
            ++ (List.replicate (64 - (stringsTrimLeading r (bytesOf "0x")).length) 48
              ++ stringsTrimLeading r (bytesOf "0x"))
          ∧ (List.replicate (64 - (stringsTrimLeading r (bytesOf "0x")).length) 48
              ++ stringsTrimLeading r (bytesOf "0x")).length = 64)
      ∧ (64 ≤ (stringsTrimLeading r (bytesOf "0x")).length →
          convertToAssetsData r = bytesOf "0x07a2d13a" ++ stringsTrimLeading r (bytesOf "0x"))
      ∧ convertToAssetsData r = bytesOf "0x07a2d13a" ++ sharesWord r
      ∧ hexValue (sharesWord r) = hexValue (stringsTrimLeading r (bytesOf "0x")) := by
  refine ⟨?_, ?_, ?_, rfl, ?_⟩
  · intro h
    unfold convertToAssetsData sharesWord
    simp only [h, if_true]
    decide
  · intro hne hlt
    constructor
    · unfold convertToAssetsData sharesWord
      simp only [if_neg hne, if_pos hlt, sprintf064s, runeCountInString_ascii _ hascii]
    · simp only [List.length_append, List.length_replicate]
      omega
  · intro hge
    have hne : stringsTrimLeading r (bytesOf "0x") ≠ [] := by
      intro h; rw [h] at hge; simp at hge
    unfold convertToAssetsData sharesWord
    simp only [if_neg hne, if_neg (by omega : ¬ (stringsTrimLeading r (bytesOf "0x")).length < 64)]
  · unfold sharesWord
    by_cases h : stringsTrimLeading r (bytesOf "0x") = []
    · simp only [h, if_true]
      decide
    · simp only [if_neg h]
      split_ifs
      · unfold sprintf064s
        exact hexValue_zeros_append _ _
      · rfl

set_option maxRecDepth 100000 in
/-- Witness of `convertToAssetsData_ascii`: the `balanceOf` response of the
first case of `TestERC4626_getAssets` (64 digits, sent unchanged), and the
response `"0xde0b6b3a7640000"` (15 digits, padded with 49 zeros), both
denoting `10 ^ 18`. -/
theorem convertToAssetsData_ascii_witness :
    (convertToAssetsData testVaultClient.balanceOfResponse
        = bytesOf "0x07a2d13a" ++ stringsTrimLeading testVaultClient.balanceOfResponse (bytesOf "0x")
      ∧ hexValue (sharesWord testVaultClient.balanceOfResponse) = 1000000000000000000)
      ∧ (convertToAssetsData (bytesOf "0xde0b6b3a7640000")
          = bytesOf "0x07a2d13a" ++ (List.replicate 49 48 ++ bytesOf "de0b6b3a7640000")
        ∧ hexValue (sharesWord (bytesOf "0xde0b6b3a7640000")) = 1000000000000000000) :=
  ⟨⟨(convertToAssetsData_ascii testVaultClient.balanceOfResponse (by decide)).2.2.1 (by decide),
      (convertToAssetsData_ascii testVaultClient.balanceOfResponse (by decide)).2.2.2.2.trans
        (by decide)⟩,
    ⟨((convertToAssetsData_ascii (bytesOf "0xde0b6b3a7640000") (by decide)).2.1 (by decide)
        (by decide)).1,
      (convertToAssetsData_ascii (bytesOf "0xde0b6b3a7640000") (by decide)).2.2.2.2.trans
        (by decide)⟩⟩

/-- C19: for every address spec whose `Address` is `"0x"` followed by 40
bytes (hexadecimal digits or not), `ERC4337.getBalance` issues exactly one
call, addressed to `spec.Contract` with the block tag `latest`, whose data is
`"0x70a08231"`, then 24 characters `'0'`, then the 40 bytes unchanged (74
bytes in all); the first call of `ERC4626.getAssets` carries the same
data. -/
theorem balanceOf_call_data {σ : Type} (nB : ERC4337) (nC : ERC4626) (c : ExecutionClient σ)
    (w : World σ) (addressB : AddressERC4337) (addressC : AddressERC4626) (digits : GoString)
    (hd : digits.length = 40) (hB : addressB.Address = bytesOf "0x" ++ digits)
    (hC : addressC.Address = bytesOf "0x" ++ digits) :
    (nB.getBalance c addressB w).2.calls = w.calls ++
        [RpcCall.ethCall
          { To := addressB.Contract
            Data := bytesOf "0x70a08231" ++ List.replicate 24 48 ++ digits }
          (bytesOf "latest")]
      ∧ (bytesOf "0x70a08231" ++ List.replicate 24 48 ++ digits).length = 74
      ∧ ∃ rest, (nC.getAssets c addressC w).2.calls = w.calls ++
          RpcCall.ethCall
            { To := addressC.Contract
              Data := bytesOf "0x70a08231" ++ List.replicate 24 48 ++ digits }
            (bytesOf "latest") :: rest := by
  have h0x : bytesOf "0x" = [48, 120] := by decide
  have hdata : ∀ a : GoString, a = bytesOf "0x" ++ digits →
      balanceOfData a = bytesOf "0x70a08231" ++ List.replicate 24 48 ++ digits := by
    intro a ha
    unfold balanceOfData
    rw [ha, h0x]
    have : bytesOf "0x70a08231000000000000000000000000"
        = bytesOf "0x70a08231" ++ List.replicate 24 48 := by decide
    rw [this]
    rfl
  have hlenB : 2 ≤ addressB.Address.length := by rw [hB, h0x]; simp
  have hlenC : 2 ≤ addressC.Address.length := by rw [hC, h0x]; simp
  refine ⟨?_, ?_, ?_⟩
  · have hcall : balanceCall addressB = ETHCallTransaction.mk addressB.Contract
        (bytesOf "0x70a08231" ++ List.replicate 24 48 ++ digits) := by
      unfold balanceCall; rw [hdata _ hB]
    rw [← hcall]
    rcases hr : c.ETHCall w.client (balanceCall addressB) latest with ⟨r, s⟩
    cases r with
    | error e =>
      rw [erc4337_getBalance_err nB c addressB w hlenB e s hr]
      cases nB.getLabelValues addressB <;> rfl
    | ok balance =>
      rw [erc4337_getBalance_ok nB c addressB w hlenB balance s hr]
      cases nB.getLabelValues addressB <;> rfl
  · have : (bytesOf "0x70a08231").length = 10 := by decide
    simp only [List.length_append, List.length_replicate, this, hd]
  · have hcall : call1 addressC = ETHCallTransaction.mk addressC.Contract
        (bytesOf "0x70a08231" ++ List.replicate 24 48 ++ digits) := by
      unfold call1; rw [hdata _ hC]
    rw [← hcall]
    rcases h1 : c.ETHCall w.client (call1 addressC) latest with ⟨r1, s1⟩
    cases r1 with
    | error e =>
      rw [getAssets_err1 nC c addressC w hlenC e s1 h1, erc4626_fail_calls]
      exact ⟨[], rfl⟩
    | ok sharesStr =>
      rcases h2 : c.ETHCall s1 (call2 addressC sharesStr) latest with ⟨r2, s2⟩
      cases r2 with
      | error e =>
        rw [getAssets_err2 nC c addressC w hlenC sharesStr e s1 s2 h1 h2, erc4626_fail_calls]
        exact ⟨_, by simp [latest]; rfl⟩
      | ok assetsStr =>
        rcases h3 : c.ETHCall s2 (call3 addressC) latest with ⟨r3, s3⟩
        cases r3 with
        | error e =>
          rw [getAssets_err3 nC c addressC w hlenC sharesStr assetsStr e s1 s2 s3 h1 h2 h3,
            erc4626_fail_calls]
          exact ⟨_, by simp [latest]; rfl⟩
        | ok symbolHex =>
          rw [getAssets_decode nC c addressC w hlenC sharesStr assetsStr symbolHex s1 s2 s3
            h1 h2 h3]
          cases hs : hexStringToString symbolHex with
          | panic => exact ⟨_, by simp [latest]; rfl⟩
          | error e =>
            dsimp only
            rw [erc4626_fail_calls]
            exact ⟨_, by simp [latest]; rfl⟩
          | ok symbol =>
            dsimp only
            cases hl : nC.getLabelValues addressC symbol with
            | none => exact ⟨_, by simp [latest]; rfl⟩
            | some lvs =>
              dsimp only
              split_ifs <;> exact ⟨_, by simp [latest]; rfl⟩

/-- Witness of `balanceOf_call_data`: the addresses of the tests. -/
theorem balanceOf_call_data_witness :
    (testEntryPointJob.getBalance testVaultClient.client testEntryPoint World.init).2.calls
      = World.init.calls ++
        [RpcCall.ethCall
          { To := testEntryPoint.Contract
            Data := bytesOf "0x70a08231" ++ List.replicate 24 48
              ++ bytesOf "1111111111111111111111111111111111111111" }
          (bytesOf "latest")] :=
  (balanceOf_call_data testEntryPointJob testVaultJob testVaultClient.client World.init
    testEntryPoint { testVault with Address := testEntryPoint.Address }
    (bytesOf "1111111111111111111111111111111111111111") (by decide) (by decide)
    (by decide)).1

set_option maxRecDepth 100000 in
/-- C20 (evaluation at the failing input): the data of the third call of
`getAssets`, for the argument-less `symbol()`, is the selector `0x95d89b41`
followed by 24 characters `'0'`: 34 bytes, not the 10 bytes of `"0x"` and the
selector. The run is the first case of `TestERC4626_getAssets`. -/
theorem symbolData_padded :
    symbolData = bytesOf "0x95d89b41" ++ List.replicate 24 48
      ∧ symbolData.length = 34
      ∧ (testVaultJob.getAssets testVaultClient.client testVault World.init).2.calls[2]?
          = some (RpcCall.ethCall
              { To := testVault.Contract
                Data := bytesOf "0x95d89b41" ++ List.replicate 24 48 }
              (bytesOf "latest")) := by
  refine ⟨by decide, by decide, by decide⟩

/-- C21: for a job built by `NewAccount`, every address spec and every client
whose `ETHGetBalance` answers `r` without error: `Account.getBalance` calls
`ETHGetBalance` exactly once, with the arguments `(spec.Address, "latest")`,
makes no contract call, sets the cell of `getLabelValues(spec)` of the value
instrument to `hexStringToFloat64(r)` and returns nil; for
`r = "0x0de0b6b3a7640000"` the value is `1e18`, for `r = "0x0"` it is 0. -/
theorem account_getBalance_success {σ : Type} (ord : IndexMap) (addresses : List AddressAccount)
    (n : Account) {ρ : Type} (reg : Registerer ρ) (rs : ρ) (ns : GoString)
    (cl : StringMap)
    (hn : (NewAccountIn ord reg rs ns cl addresses).1 = Outcome.ok n)
    (c : ExecutionClient σ) (address : AddressAccount) (w : World σ) (r : GoString) (s : σ)
    (h : c.ETHGetBalance w.client address.Address latest = (Except.ok r, s)) :
    (∃ lvs, n.getLabelValues address = some lvs
        ∧ n.getBalance c address w = (Outcome.ok (),
            { client := s
              calls := w.calls ++ [RpcCall.ethGetBalance address.Address (bytesOf "latest")]
              ops := w.ops ++ [MetricOp.set lvs (hexStringToFloat64 r)] }))
      ∧ (hexStringToFloat64 (bytesOf "0x0de0b6b3a7640000")).isFinite = true
      ∧ (hexStringToFloat64 (bytesOf "0x0de0b6b3a7640000")).toRat = 1000000000000000000
      ∧ hexStringToFloat64 (bytesOf "0x0") = F64.finite false 0 0
      ∧ (hexStringToFloat64 (bytesOf "0x0")).toRat = 0 := by
  obtain ⟨lvs, hl, _⟩ := account_getLabelValues_some n (account_schema_of_new hn) address
  have h18 : hexStringToFloat64 (bytesOf "0x0de0b6b3a7640000")
      = F64.finite false 7812500000000000 7 := by decide
  have h0 : hexStringToFloat64 (bytesOf "0x0") = F64.finite false 0 0 := by decide
  refine ⟨⟨lvs, hl, ?_⟩, by rw [h18]; rfl, ?_, h0, by rw [h0]; simp [F64.toRat]⟩
  · rw [account_getBalance_ok n c address w r s h]
    simp only [hl]
    rfl
  · rw [h18]
    simp only [F64.toRat]
    norm_num

/-- Witness of `account_getBalance_success`: the first case of
`TestAccount_getBalance`. -/
theorem account_getBalance_success_witness :
    ∃ lvs, testAccountJob.getLabelValues testAccount = some lvs
      ∧ testAccountJob.getBalance
          ({ ethGetBalanceResponse := bytesOf "0x0de0b6b3a7640000" } : mockExecutionClient).client
          testAccount World.init = (Outcome.ok (),
            { client := ()
              calls := World.init.calls
                ++ [RpcCall.ethGetBalance testAccount.Address (bytesOf "latest")]
              ops := World.init.ops
                ++ [MetricOp.set lvs (hexStringToFloat64 (bytesOf "0x0de0b6b3a7640000"))] }) :=
  (account_getBalance_success (accountLabelsMap [testAccount]) [testAccount] testAccountJob
    testRegistry [] testNamespace none testAccountJob_new _ testAccount World.init (bytesOf "0x0de0b6b3a7640000") ()
    (by decide)).1

theorem applyAll_append (i : Instruments) (a b : List MetricOp) :
    i.applyAll (a ++ b) = (i.applyAll a).applyAll b := by
  simp [Instruments.applyAll, List.foldl_append]

theorem applyAll_inc (i : Instruments) (lvs : List GoString) :
    (i.applyAll [MetricOp.inc lvs]).counter lvs = i.counter lvs + 1
      ∧ (∀ k, k ≠ lvs → (i.applyAll [MetricOp.inc lvs]).counter k = i.counter k)
      ∧ (i.applyAll [MetricOp.inc lvs]).gauge = i.gauge := by
  refine ⟨by simp [Instruments.applyAll, Instruments.apply], ?_, rfl⟩
  intro k hk
  simp [Instruments.applyAll, Instruments.apply, hk]

/-- C22: for jobs built by `NewAccount` and `NewERC4337` (the `Address` of an
ERC4337 spec having at least two bytes, so that the call is made), every
address spec and every client whose single call returns an error `e`: the
probe returns `e`, the cell of `getLabelValues(spec)` of the error instrument
is incremented by exactly 1, every other cell of the error instrument is
unchanged, and every cell of the value instrument keeps its previous
value. -/
theorem probe_error_frame {σ : Type}
    (ordA : IndexMap) (addressesA : List AddressAccount) (nA : Account)
    {ρA : Type} (regA : Registerer ρA) (rsA : ρA) (nsA : GoString)
    (clA : StringMap)
    (hA : (NewAccountIn ordA regA rsA nsA clA addressesA).1 = Outcome.ok nA)
    (ordB : IndexMap) (addressesB : List AddressERC4337) (nB : ERC4337)
    {ρB : Type} (regB : Registerer ρB) (rsB : ρB) (nsB : GoString)
    (clB : StringMap)
    (hB : (NewERC4337In ordB regB rsB nsB clB addressesB).1 = Outcome.ok nB)
    (c : ExecutionClient σ) (w : World σ) (i : Instruments) :
    (∀ (address : AddressAccount) (e : GoError) (s : σ),
        c.ETHGetBalance w.client address.Address latest = (Except.error e, s) →
        ∃ lvs, nA.getLabelValues address = some lvs
          ∧ (nA.getBalance c address w).1 = Outcome.error e
          ∧ (i.applyAll (nA.getBalance c address w).2.ops).counter lvs
              = (i.applyAll w.ops).counter lvs + 1
          ∧ (∀ k, k ≠ lvs → (i.applyAll (nA.getBalance c address w).2.ops).counter k
              = (i.applyAll w.ops).counter k)
          ∧ (i.applyAll (nA.getBalance c address w).2.ops).gauge = (i.applyAll w.ops).gauge)
      ∧ (∀ (address : AddressERC4337) (e : GoError) (s : σ),
        2 ≤ address.Address.length →
        c.ETHCall w.client (balanceCall address) latest = (Except.error e, s) →
        ∃ lvs, nB.getLabelValues address = some lvs
          ∧ (nB.getBalance c address w).1 = Outcome.error e
          ∧ (i.applyAll (nB.getBalance c address w).2.ops).counter lvs
              = (i.applyAll w.ops).counter lvs + 1
          ∧ (∀ k, k ≠ lvs → (i.applyAll (nB.getBalance c address w).2.ops).counter k
              = (i.applyAll w.ops).counter k)
          ∧ (i.applyAll (nB.getBalance c address w).2.ops).gauge = (i.applyAll w.ops).gauge) := by
  constructor
  · intro address e s h
    obtain ⟨lvs, hl, _⟩ := account_getLabelValues_some nA (account_schema_of_new hA) address
    have hr : nA.getBalance c address w = (Outcome.error e,
        { client := s, calls := w.calls ++ [RpcCall.ethGetBalance address.Address latest],
          ops := w.ops ++ [MetricOp.inc lvs] }) := by
      rw [account_getBalance_err nA c address w e s h]
      simp only [hl]
    obtain ⟨h1, h2, h3⟩ := applyAll_inc (i.applyAll w.ops) lvs
    refine ⟨lvs, hl, by rw [hr], ?_, ?_, ?_⟩
    · rw [hr]; simp only [applyAll_append]; exact h1
    · intro k hk; rw [hr]; simp only [applyAll_append]; exact h2 k hk
    · rw [hr]; simp only [applyAll_append]; exact h3
  · intro address e s hlen h
    obtain ⟨lvs, hl, _⟩ := erc4337_getLabelValues_some nB (erc4337_schema_of_new hB) address
    have hr : nB.getBalance c address w = (Outcome.error e,
        { client := s, calls := w.calls ++ [RpcCall.ethCall (balanceCall address) latest],
          ops := w.ops ++ [MetricOp.inc lvs] }) := by
      rw [erc4337_getBalance_err nB c address w hlen e s h]
      simp only [hl]
    obtain ⟨h1, h2, h3⟩ := applyAll_inc (i.applyAll w.ops) lvs
    refine ⟨lvs, hl, by rw [hr], ?_, ?_, ?_⟩
    · rw [hr]; simp only [applyAll_append]; exact h1
    · intro k hk; rw [hr]; simp only [applyAll_append]; exact h2 k hk
    · rw [hr]; simp only [applyAll_append]; exact h3

/-- Witness of `probe_error_frame`: the Account job of the tests with a
client whose calls fail. -/
theorem probe_error_frame_witness :
    ∃ lvs, testAccountJob.getLabelValues testAccount = some lvs
      ∧ (testAccountJob.getBalance failingClient.client testAccount World.init).1
          = Outcome.error (GoError.other (bytesOf "connection refused"))
      ∧ (Instruments.empty.applyAll
            (testAccountJob.getBalance failingClient.client testAccount World.init).2.ops).counter
          lvs = (Instruments.empty.applyAll World.init.ops).counter lvs + 1
      ∧ (∀ k, k ≠ lvs → (Instruments.empty.applyAll
            (testAccountJob.getBalance failingClient.client testAccount World.init).2.ops).counter
          k = (Instruments.empty.applyAll World.init.ops).counter k)
      ∧ (Instruments.empty.applyAll
            (testAccountJob.getBalance failingClient.client testAccount World.init).2.ops).gauge
          = (Instruments.empty.applyAll World.init.ops).gauge :=
  (probe_error_frame (accountLabelsMap [testAccount]) [testAccount] testAccountJob
    testRegistry [] testNamespace none testAccountJob_new (erc4337LabelsMap [testEntryPoint]) [testEntryPoint] testEntryPointJob
    testRegistry [] testNamespace none testEntryPointJob_new failingClient.client World.init Instruments.empty).1 testAccount
    (GoError.other (bytesOf "connection refused")) () (by decide)

/-! ## Theorems: ticks and the scheduling loop -/

theorem tickLoop_cons_of_ne_panic {α τ : Type} (probe : α → τ → Outcome Unit × τ) (a : α)
    (rest : List α) (w : τ) (h : (probe a w).1 ≠ Outcome.panic) :
    tickLoop probe (a :: rest) w = tickLoop probe rest (probe a w).2 := by
  rcases hp : probe a w with ⟨o, w1⟩
  rw [hp] at h
  cases o with
  | panic => exact absurd rfl h
  | ok v => simp [tickLoop, hp]
  | error e => simp [tickLoop, hp]

theorem tickLoop_cons_of_panic {α τ : Type} (probe : α → τ → Outcome Unit × τ) (a : α)
    (rest : List α) (w : τ) (h : (probe a w).1 = Outcome.panic) :
    (tickLoop probe (a :: rest) w).1 = Outcome.panic := by
  rcases hp : probe a w with ⟨o, w1⟩
  rw [hp] at h
  simp only at h
  subst h
  simp [tickLoop, hp]

/-- A tick that does not panic has run the probe once for each address, in
list order, whatever the probes returned. -/
theorem tickLoop_eq_foldl {α τ : Type} (probe : α → τ → Outcome Unit × τ) (as : List α) (w : τ)
    (h : (tickLoop probe as w).1 ≠ Outcome.panic) :
    tickLoop probe as w = (Outcome.ok (), as.foldl (fun w a => (probe a w).2) w) := by
  induction as generalizing w with
  | nil => rfl
  | cons a rest ih =>
    have hp : (probe a w).1 ≠ Outcome.panic := by
      intro hp
      exact h (tickLoop_cons_of_panic probe a rest w hp)
    rw [tickLoop_cons_of_ne_panic probe a rest w hp] at h ⊢
    rw [ih _ h, List.foldl_cons]

/-- Number of calls of a tick that does not panic, when each probe that does
not panic makes `k` calls. -/
theorem tickLoop_calls {α σ : Type} (probe : α → World σ → Outcome Unit × World σ) (k : Nat)
    (hk : ∀ a w, (probe a w).1 ≠ Outcome.panic →
      (probe a w).2.calls.length = w.calls.length + k)
    (as : List α) (w : World σ) (h : (tickLoop probe as w).1 ≠ Outcome.panic) :
    (tickLoop probe as w).2.calls.length = w.calls.length + k * as.length := by
  induction as generalizing w with
  | nil => simp [tickLoop]
  | cons a rest ih =>
    have hp : (probe a w).1 ≠ Outcome.panic := by
      intro hp
      exact h (tickLoop_cons_of_panic probe a rest w hp)
    rw [tickLoop_cons_of_ne_panic probe a rest w hp] at h ⊢
    rw [ih _ h, hk a w hp, List.length_cons]
    ring

theorem account_getBalance_calls {σ : Type} (n : Account) (c : ExecutionClient σ)
    (address : AddressAccount) (w : World σ) :
    (n.getBalance c address w).2.calls
      = w.calls ++ [RpcCall.ethGetBalance address.Address latest] := by
  rcases hr : c.ETHGetBalance w.client address.Address latest with ⟨r, s⟩
  cases r with
  | error e =>
    rw [account_getBalance_err n c address w e s hr]
    cases n.getLabelValues address <;> rfl
  | ok balance =>
    rw [account_getBalance_ok n c address w balance s hr]
    cases n.getLabelValues address <;> rfl

theorem erc4337_getBalance_calls {σ : Type} (n : ERC4337) (c : ExecutionClient σ)
    (address : AddressERC4337) (w : World σ) (h : (n.getBalance c address w).1 ≠ Outcome.panic) :
    (n.getBalance c address w).2.calls
      = w.calls ++ [RpcCall.ethCall (balanceCall address) latest] := by
  by_cases hlen : address.Address.length < 2
  · unfold ERC4337.getBalance at h
    rw [if_pos hlen] at h
    exact absurd rfl h
  · rcases hr : c.ETHCall w.client (balanceCall address) latest with ⟨r, s⟩
    cases r with
    | error e =>
      rw [erc4337_getBalance_err n c address w (by omega) e s hr]
      cases n.getLabelValues address <;> rfl
    | ok balance =>
      rw [erc4337_getBalance_ok n c address w (by omega) balance s hr]
      cases n.getLabelValues address <;> rfl

theorem erc4626_getAssets_calls {σ : Type} (n : ERC4626) (c : ExecutionClient σ)
    (hok : ∀ s transaction block, ∃ r, (c.ETHCall s transaction block).1 = Except.ok r)
    (address : AddressERC4626) (w : World σ) (h : (n.getAssets c address w).1 ≠ Outcome.panic) :
    (n.getAssets c address w).2.calls.length = w.calls.length + 3 := by
  by_cases hlen : address.Address.length < 2
  · unfold ERC4626.getAssets at h
    rw [if_pos hlen] at h
    exact absurd rfl h
  · have hlen' : 2 ≤ address.Address.length := by omega
    obtain ⟨sharesStr, h1⟩ := hok w.client (call1 address) latest
    have h1' : c.ETHCall w.client (call1 address) latest
        = (Except.ok sharesStr, (c.ETHCall w.client (call1 address) latest).2) :=
      Prod.ext h1 rfl
    obtain ⟨assetsStr, h2⟩ := hok (c.ETHCall w.client (call1 address) latest).2
      (call2 address sharesStr) latest
    have h2' : c.ETHCall (c.ETHCall w.client (call1 address) latest).2
        (call2 address sharesStr) latest = (Except.ok assetsStr, _) := Prod.ext h2 rfl
    obtain ⟨symbolHex, h3⟩ := hok (c.ETHCall (c.ETHCall w.client (call1 address) latest).2
      (call2 address sharesStr) latest).2 (call3 address) latest
    have h3' : c.ETHCall (c.ETHCall (c.ETHCall w.client (call1 address) latest).2
        (call2 address sharesStr) latest).2 (call3 address) latest
        = (Except.ok symbolHex, _) := Prod.ext h3 rfl
    rw [getAssets_decode n c address w hlen' sharesStr assetsStr symbolHex _ _ _ h1' h2' h3']
    cases hs : hexStringToString symbolHex with
    | panic => simp
    | error e =>
      dsimp only
      rw [erc4626_fail_calls]
      simp
    | ok symbol =>
      dsimp only
      cases n.getLabelValues address symbol with
      | none => simp
      | some lvs =>
        dsimp only
        split_ifs <;> simp

/-- When the probes return along the run, the tick does not panic. -/
theorem tickLoop_of_probesReturn {α τ : Type} (probe : α → τ → Outcome Unit × τ) (as : List α)
    (w : τ) (h : probesReturn probe as w) : (tickLoop probe as w).1 ≠ Outcome.panic := by
  induction as generalizing w with
  | nil => simp [tickLoop]
  | cons a rest ih =>
    obtain ⟨hp, hrest⟩ := h
    rw [tickLoop_cons_of_ne_panic probe a rest w hp]
    exact ih _ hrest

theorem testVaultClient_ok (s : Unit) (transaction : ETHCallTransaction) (block : GoString) :
    ∃ r, (testVaultClient.client.ETHCall s transaction block).1 = Except.ok r := by
  show ∃ r, testVaultClient.ETHCall transaction = Except.ok r
  unfold mockExecutionClient.ETHCall
  simp only [testVaultClient]
  split_ifs <;> exact ⟨_, rfl⟩

/-- C23: for every address list and every client behaviour under which the
probes return (along the run over the addresses, no probe panics), one tick
of `Account`, `ERC4337` or `ERC4626` runs the per-address probe exactly once
for each address, in list order, whether or not earlier probes failed: the
tick returns, and the state after it is the state after running the probes
for `a1`, then `a2`, ..., then `an`, their errors dropped. `Account.tick` and
`ERC4337.tick` make exactly `n` calls, and `ERC4626.tick` with a client that
never returns an error makes exactly `3n` calls. -/
theorem tick_runs_probes_in_order {σ : Type} (nA : Account) (nB : ERC4337) (nC : ERC4626)
    (c : ExecutionClient σ) (w : World σ) :
    (probesReturn (nA.getBalance c) nA.addresses w →
        nA.tick c w
            = (Outcome.ok (), nA.addresses.foldl (fun w a => (nA.getBalance c a w).2) w)
          ∧ (nA.tick c w).2.calls.length = w.calls.length + nA.addresses.length)
      ∧ (probesReturn (nB.getBalance c) nB.addresses w →
        nB.tick c w
            = (Outcome.ok (), nB.addresses.foldl (fun w a => (nB.getBalance c a w).2) w)
          ∧ (nB.tick c w).2.calls.length = w.calls.length + nB.addresses.length)
      ∧ (probesReturn (nC.getAssets c) nC.addresses w →
        nC.tick c w
            = (Outcome.ok (), nC.addresses.foldl (fun w a => (nC.getAssets c a w).2) w)
          ∧ ((∀ s transaction block, ∃ r, (c.ETHCall s transaction block).1 = Except.ok r) →
            (nC.tick c w).2.calls.length = w.calls.length + 3 * nC.addresses.length)) := by
  refine ⟨?_, ?_, ?_⟩
  · intro hr
    have h := tickLoop_of_probesReturn _ _ _ hr
    refine ⟨tickLoop_eq_foldl _ _ _ h, ?_⟩
    have := tickLoop_calls (nA.getBalance c) 1
      (fun a w _ => by rw [account_getBalance_calls]; simp) nA.addresses w h
    rw [Nat.one_mul] at this
    exact this
  · intro hr
    have h := tickLoop_of_probesReturn _ _ _ hr
    refine ⟨tickLoop_eq_foldl _ _ _ h, ?_⟩
    have := tickLoop_calls (nB.getBalance c) 1
      (fun a w hp => by rw [erc4337_getBalance_calls nB c a w hp]; simp) nB.addresses w h
    rw [Nat.one_mul] at this
    exact this
  · intro hr
    have h := tickLoop_of_probesReturn _ _ _ hr
    refine ⟨tickLoop_eq_foldl _ _ _ h, ?_⟩
    intro hok
    exact tickLoop_calls (nC.getAssets c) 3
      (fun a w hp => erc4626_getAssets_calls nC c hok a w hp) nC.addresses w h

set_option maxRecDepth 100000 in
/-- Witness of `tick_runs_probes_in_order`: the vault job and the account job
of the tests, one address each; the probes return on the mock clients, the
vault tick makes three calls and the account tick one. -/
theorem tick_runs_probes_in_order_witness :
    (testVaultJob.tick testVaultClient.client World.init
        = (Outcome.ok (), testVaultJob.addresses.foldl
            (fun w a => (testVaultJob.getAssets testVaultClient.client a w).2) World.init)
      ∧ (testVaultJob.tick testVaultClient.client World.init).2.calls.length
            = World.init.calls.length + 3 * testVaultJob.addresses.length)
      ∧ (testAccountJob.tick failingClient.client World.init
        = (Outcome.ok (), testAccountJob.addresses.foldl
            (fun w a => (testAccountJob.getBalance failingClient.client a w).2) World.init)
      ∧ (testAccountJob.tick failingClient.client World.init).2.calls.length
            = World.init.calls.length + testAccountJob.addresses.length) :=
  ⟨⟨((tick_runs_probes_in_order testAccountJob testEntryPointJob testVaultJob
        testVaultClient.client World.init).2.2 ⟨by decide, trivial⟩).1,
      ((tick_runs_probes_in_order testAccountJob testEntryPointJob testVaultJob
        testVaultClient.client World.init).2.2 ⟨by decide, trivial⟩).2 testVaultClient_ok⟩,
    (tick_runs_probes_in_order testAccountJob testEntryPointJob testVaultJob
      failingClient.client World.init).1 ⟨by decide, trivial⟩⟩

/-- A probe whose instrument writes do not depend on the world it starts
from leaves the value instrument, when run twice, as one run leaves it, and
a failing run adds one to the same error cell each time. -/
theorem idempotent_of_delta {σ : Type} (P : World σ → Outcome Unit × World σ)
    (hP : ∀ w w' : World σ, ∃ δ, (P w).2.ops = w.ops ++ δ ∧ (P w').2.ops = w'.ops ++ δ
      ∧ (((P w).1 = Outcome.ok () ∧ ∃ lvs v, δ = [MetricOp.set lvs v])
        ∨ (∃ e, (P w).1 = Outcome.error e ∧ ∃ lvs, δ = [MetricOp.inc lvs])
        ∨ ((P w).1 = Outcome.panic ∧ δ = [])))
    (w : World σ) (i : Instruments) :
    (i.applyAll (P (P w).2).2.ops).gauge = (i.applyAll (P w).2.ops).gauge
      ∧ ∀ e, (P w).1 = Outcome.error e →
        ∃ lvs, (P w).2.ops = w.ops ++ [MetricOp.inc lvs]
          ∧ (i.applyAll (P (P w).2).2.ops).counter lvs = (i.applyAll w.ops).counter lvs + 2 := by
  obtain ⟨δ, h1, h2, h3⟩ := hP w (P w).2
  rw [h2, h1]
  constructor
  · rcases h3 with ⟨_, lvs, v, rfl⟩ | ⟨e, _, lvs, rfl⟩ | ⟨_, rfl⟩
    · simp only [applyAll_append]
      funext k
      by_cases hk : k = lvs
      · simp [Instruments.applyAll, Instruments.apply, hk]
      · simp [Instruments.applyAll, Instruments.apply, hk]
    · simp only [applyAll_append]
      rfl
    · simp
  · intro e he
    rcases h3 with ⟨hok, _⟩ | ⟨e', _, lvs, rfl⟩ | ⟨hp, _⟩
    · rw [hok] at he; cases he
    · refine ⟨lvs, rfl, ?_⟩
      simp only [applyAll_append]
      simp [Instruments.applyAll, Instruments.apply]
    · rw [hp] at he; cases he

theorem account_getBalance_delta {σ : Type} (n : Account) (c : ExecutionClient σ)
    (hg : ∀ s s' a b, (c.ETHGetBalance s a b).1 = (c.ETHGetBalance s' a b).1)
    (address : AddressAccount) (w w' : World σ) :
    ∃ δ, (n.getBalance c address w).2.ops = w.ops ++ δ
      ∧ (n.getBalance c address w').2.ops = w'.ops ++ δ
      ∧ (((n.getBalance c address w).1 = Outcome.ok () ∧ ∃ lvs v, δ = [MetricOp.set lvs v])
        ∨ (∃ e, (n.getBalance c address w).1 = Outcome.error e ∧ ∃ lvs, δ = [MetricOp.inc lvs])
        ∨ ((n.getBalance c address w).1 = Outcome.panic ∧ δ = [])) := by
  rcases hr : c.ETHGetBalance w.client address.Address latest with ⟨r, s⟩
  have hr' : c.ETHGetBalance w'.client address.Address latest
      = (r, (c.ETHGetBalance w'.client address.Address latest).2) := by
    apply Prod.ext
    · rw [hg w'.client w.client, hr]
    · rfl
  cases r with
  | error e =>
    rw [account_getBalance_err n c address w e s hr, account_getBalance_err n c address w' e _ hr']
    cases n.getLabelValues address with
    | none => exact ⟨[], by simp, by simp, Or.inr (Or.inr ⟨rfl, rfl⟩)⟩
    | some lvs => exact ⟨[MetricOp.inc lvs], rfl, rfl, Or.inr (Or.inl ⟨e, rfl, lvs, rfl⟩)⟩
  | ok balance =>
    rw [account_getBalance_ok n c address w balance s hr,
      account_getBalance_ok n c address w' balance _ hr']
    cases n.getLabelValues address with
    | none => exact ⟨[], by simp, by simp, Or.inr (Or.inr ⟨rfl, rfl⟩)⟩
    | some lvs => exact ⟨[MetricOp.set lvs _], rfl, rfl, Or.inl ⟨rfl, lvs, _, rfl⟩⟩

theorem erc4337_getBalance_delta {σ : Type} (n : ERC4337) (c : ExecutionClient σ)
    (hc : ∀ s s' t b, (c.ETHCall s t b).1 = (c.ETHCall s' t b).1)
    (address : AddressERC4337) (w w' : World σ) :
    ∃ δ, (n.getBalance c address w).2.ops = w.ops ++ δ
      ∧ (n.getBalance c address w').2.ops = w'.ops ++ δ
      ∧ (((n.getBalance c address w).1 = Outcome.ok () ∧ ∃ lvs v, δ = [MetricOp.set lvs v])
        ∨ (∃ e, (n.getBalance c address w).1 = Outcome.error e ∧ ∃ lvs, δ = [MetricOp.inc lvs])
        ∨ ((n.getBalance c address w).1 = Outcome.panic ∧ δ = [])) := by
  by_cases hlen : address.Address.length < 2
  · unfold ERC4337.getBalance
    rw [if_pos hlen, if_pos hlen]
    exact ⟨[], by simp, by simp, Or.inr (Or.inr ⟨rfl, rfl⟩)⟩
  · have hlen' : 2 ≤ address.Address.length := by omega
    rcases hr : c.ETHCall w.client (balanceCall address) latest with ⟨r, s⟩
    have hr' : c.ETHCall w'.client (balanceCall address) latest
        = (r, (c.ETHCall w'.client (balanceCall address) latest).2) := by
      apply Prod.ext
      · rw [hc w'.client w.client, hr]
      · rfl
    cases r with
    | error e =>
      rw [erc4337_getBalance_err n c address w hlen' e s hr,
        erc4337_getBalance_err n c address w' hlen' e _ hr']
      cases n.getLabelValues address with
      | none => exact ⟨[], by simp, by simp, Or.inr (Or.inr ⟨rfl, rfl⟩)⟩
      | some lvs => exact ⟨[MetricOp.inc lvs], rfl, rfl, Or.inr (Or.inl ⟨e, rfl, lvs, rfl⟩)⟩
    | ok balance =>
      rw [erc4337_getBalance_ok n c address w hlen' balance s hr,
        erc4337_getBalance_ok n c address w' hlen' balance _ hr']
      cases n.getLabelValues address with
      | none => exact ⟨[], by simp, by simp, Or.inr (Or.inr ⟨rfl, rfl⟩)⟩
      | some lvs => exact ⟨[MetricOp.set lvs _], rfl, rfl, Or.inl ⟨rfl, lvs, _, rfl⟩⟩

theorem erc4626_fail_delta {σ : Type} (n : ERC4626) (address : AddressERC4626) (e : GoError)
    (w w' : World σ) :
    ∃ δ, (n.fail address e w).2.ops = w.ops ++ δ ∧ (n.fail address e w').2.ops = w'.ops ++ δ
      ∧ (((n.fail address e w).1 = Outcome.ok () ∧ ∃ lvs v, δ = [MetricOp.set lvs v])
        ∨ (∃ e', (n.fail address e w).1 = Outcome.error e' ∧ ∃ lvs, δ = [MetricOp.inc lvs])
        ∨ ((n.fail address e w).1 = Outcome.panic ∧ δ = [])) := by
  unfold ERC4626.fail
  cases n.getLabelValues address [] with
  | none => exact ⟨[], by simp, by simp, Or.inr (Or.inr ⟨rfl, rfl⟩)⟩
  | some lvs => exact ⟨[MetricOp.inc lvs], rfl, rfl, Or.inr (Or.inl ⟨e, rfl, lvs, rfl⟩)⟩

theorem stateless_call {σ : Type} (c : ExecutionClient σ)
    (hc : ∀ s s' t b, (c.ETHCall s t b).1 = (c.ETHCall s' t b).1)
    (s s' sn : σ) (t : ETHCallTransaction) (b : GoString) (r : Except GoError GoString)
    (h : c.ETHCall s t b = (r, sn)) : c.ETHCall s' t b = (r, (c.ETHCall s' t b).2) := by
  apply Prod.ext
  · rw [hc s' s, h]
  · rfl

theorem erc4626_getAssets_delta {σ : Type} (n : ERC4626) (c : ExecutionClient σ)
    (hc : ∀ s s' t b, (c.ETHCall s t b).1 = (c.ETHCall s' t b).1)
    (address : AddressERC4626) (w w' : World σ) :
    ∃ δ, (n.getAssets c address w).2.ops = w.ops ++ δ
      ∧ (n.getAssets c address w').2.ops = w'.ops ++ δ
      ∧ (((n.getAssets c address w).1 = Outcome.ok () ∧ ∃ lvs v, δ = [MetricOp.set lvs v])
        ∨ (∃ e, (n.getAssets c address w).1 = Outcome.error e ∧ ∃ lvs, δ = [MetricOp.inc lvs])
        ∨ ((n.getAssets c address w).1 = Outcome.panic ∧ δ = [])) := by
  by_cases hlen : address.Address.length < 2
  · unfold ERC4626.getAssets
    rw [if_pos hlen, if_pos hlen]
    exact ⟨[], by simp, by simp, Or.inr (Or.inr ⟨rfl, rfl⟩)⟩
  · have hlen' : 2 ≤ address.Address.length := by omega
    rcases h1 : c.ETHCall w.client (call1 address) latest with ⟨r1, s1⟩
    have h1' := stateless_call c hc _ w'.client _ _ _ _ h1
    cases r1 with
    | error e =>
      rw [getAssets_err1 n c address w hlen' e s1 h1, getAssets_err1 n c address w' hlen' e _ h1']
      exact erc4626_fail_delta n address e _ _
    | ok sharesStr =>
      rcases h2 : c.ETHCall s1 (call2 address sharesStr) latest with ⟨r2, s2⟩
      have h2' := stateless_call c hc _ (c.ETHCall w'.client (call1 address) latest).2 _ _ _ _ h2
      cases r2 with
      | error e =>
        rw [getAssets_err2 n c address w hlen' sharesStr e s1 s2 h1 h2,
          getAssets_err2 n c address w' hlen' sharesStr e _ _ h1' h2']
        exact erc4626_fail_delta n address e _ _
      | ok assetsStr =>
        rcases h3 : c.ETHCall s2 (call3 address) latest with ⟨r3, s3⟩
        have h3' := stateless_call c hc _
          (c.ETHCall (c.ETHCall w'.client (call1 address) latest).2
            (call2 address sharesStr) latest).2 _ _ _ _ h3
        cases r3 with
        | error e =>
          rw [getAssets_err3 n c address w hlen' sharesStr assetsStr e s1 s2 s3 h1 h2 h3,
            getAssets_err3 n c address w' hlen' sharesStr assetsStr e _ _ _ h1' h2' h3']
          exact erc4626_fail_delta n address e _ _
        | ok symbolHex =>
          rw [getAssets_decode n c address w hlen' sharesStr assetsStr symbolHex s1 s2 s3
              h1 h2 h3,
            getAssets_decode n c address w' hlen' sharesStr assetsStr symbolHex _ _ _
              h1' h2' h3']
          cases hs : hexStringToString symbolHex with
          | panic => exact ⟨[], by simp, by simp, Or.inr (Or.inr ⟨rfl, rfl⟩)⟩
          | error e => exact erc4626_fail_delta n address e _ _
          | ok symbol =>
            dsimp only
            cases n.getLabelValues address symbol with
            | none => exact ⟨[], by simp, by simp, Or.inr (Or.inr ⟨rfl, rfl⟩)⟩
            | some lvs =>
              dsimp only
              by_cases hv : validateLabelValues lvs n.labels.length = true
              · rw [if_pos hv, if_pos hv]
                exact ⟨[MetricOp.set lvs _], rfl, rfl, Or.inl ⟨rfl, lvs, _, rfl⟩⟩
              · rw [if_neg hv, if_neg hv]
                exact ⟨[], by simp, by simp, Or.inr (Or.inr ⟨rfl, rfl⟩)⟩

/-- Two increments of one cell of the error instrument. -/
theorem counter_two_inc (i : Instruments) (ops : List MetricOp) (lvs : List GoString) :
    (i.applyAll (ops ++ [MetricOp.inc lvs] ++ [MetricOp.inc lvs])).counter lvs
      = (i.applyAll ops).counter lvs + 2 := by
  rw [applyAll_append, applyAll_append, (applyAll_inc _ lvs).1, (applyAll_inc _ lvs).1]

/-- A run of `getAssets` on answers that make it fail: it returns the error
and its only instrument write is one increment of the error instrument, on
the label vector of the empty symbol. -/
theorem getAssets_of_probeFails {σ : Type} (n : ERC4626) (c : ExecutionClient σ)
    (address : AddressERC4626) (w : World σ) (lvs0 : List GoString)
    (hl0 : n.getLabelValues address [] = some lvs0) (hlen : 2 ≤ address.Address.length)
    (e : GoError) (hf : probeFails c address w.client e) :
    (n.getAssets c address w).1 = Outcome.error e
      ∧ (n.getAssets c address w).2.ops = w.ops ++ [MetricOp.inc lvs0] := by
  unfold probeFails at hf
  rcases h1 : c.ETHCall w.client (call1 address) latest with ⟨r1, s1⟩
  rw [h1] at hf
  cases r1 with
  | error e1 =>
    dsimp only at hf
    subst hf
    rw [getAssets_err1 n c address w hlen e1 s1 h1, erc4626_fail_eq n address e1 _ lvs0 hl0]
    exact ⟨rfl, rfl⟩
  | ok sharesStr =>
    dsimp only at hf
    rcases h2 : c.ETHCall s1 (call2 address sharesStr) latest with ⟨r2, s2⟩
    rw [h2] at hf
    cases r2 with
    | error e2 =>
      dsimp only at hf
      subst hf
      rw [getAssets_err2 n c address w hlen sharesStr e2 s1 s2 h1 h2,
        erc4626_fail_eq n address e2 _ lvs0 hl0]
      exact ⟨rfl, rfl⟩
    | ok assetsStr =>
      dsimp only at hf
      rcases h3 : c.ETHCall s2 (call3 address) latest with ⟨r3, s3⟩
      rw [h3] at hf
      cases r3 with
      | error e3 =>
        dsimp only at hf
        subst hf
        rw [getAssets_err3 n c address w hlen sharesStr assetsStr e3 s1 s2 s3 h1 h2 h3,
          erc4626_fail_eq n address e3 _ lvs0 hl0]
        exact ⟨rfl, rfl⟩
      | ok symbolHex =>
        dsimp only at hf
        rw [getAssets_decode n c address w hlen sharesStr assetsStr symbolHex s1 s2 s3 h1 h2 h3]
        simp only [hf]
        rw [erc4626_fail_eq n address e _ lvs0 hl0]
        exact ⟨rfl, rfl⟩

/-- A first call that returns an error makes `getAssets` fail with it. -/
theorem probeFails_of_first {σ : Type} (c : ExecutionClient σ) (address : AddressERC4626)
    (s : σ) (e : GoError) (h : (c.ETHCall s (call1 address) latest).1 = Except.error e) :
    probeFails c address s e := by
  unfold probeFails
  rw [h]

/-- On a client whose responses do not depend on its state, answers that make
`getAssets` fail from one state make it fail from every state. -/
theorem probeFails_stateless {σ : Type} (c : ExecutionClient σ)
    (hc : ∀ s s' t b, (c.ETHCall s t b).1 = (c.ETHCall s' t b).1)
    (address : AddressERC4626) (s s' : σ) (e : GoError) (hf : probeFails c address s e) :
    probeFails c address s' e := by
  unfold probeFails at hf ⊢
  rw [hc s' s (call1 address) latest]
  cases h1 : (c.ETHCall s (call1 address) latest).1 with
  | error e1 =>
    rw [h1] at hf
    exact hf
  | ok sharesStr =>
    rw [h1] at hf
    dsimp only at hf ⊢
    rw [hc (c.ETHCall s' (call1 address) latest).2 (c.ETHCall s (call1 address) latest).2
      (call2 address sharesStr) latest]
    cases h2 : (c.ETHCall (c.ETHCall s (call1 address) latest).2 (call2 address sharesStr)
        latest).1 with
    | error e2 =>
      rw [h2] at hf
      exact hf
    | ok assetsStr =>
      rw [h2] at hf
      dsimp only at hf ⊢
      rw [hc (c.ETHCall (c.ETHCall s' (call1 address) latest).2 (call2 address sharesStr)
          latest).2
        (c.ETHCall (c.ETHCall s (call1 address) latest).2 (call2 address sharesStr) latest).2
        (call3 address) latest]
      exact hf

/-- C24: for jobs built by the constructors, every address spec and every
client whose responses do not depend on its state (so that it gives identical
responses on both runs): running the per-address probe twice leaves every
cell of the value instrument as one run leaves it; and when the client fails
(`ETHGetBalance` returns an error for `Account`; the call returns an error for
`ERC4337`; one of the three calls returns an error or the symbol response
does not decode for `ERC4626`; the `Address` of the contract jobs having at
least two bytes, so that the call is made), both runs return the error and the
cell of `getLabelValues(spec)` of the error instrument ends at its initial
count plus 2. -/
theorem probe_idempotent {σ : Type}
    (ordA : IndexMap) (addressesA : List AddressAccount) (nA : Account)
    {ρA : Type} (regA : Registerer ρA) (rsA : ρA) (nsA : GoString) (clA : StringMap)
    (hA : (NewAccountIn ordA regA rsA nsA clA addressesA).1 = Outcome.ok nA)
    (ordB : IndexMap) (addressesB : List AddressERC4337) (nB : ERC4337)
    {ρB : Type} (regB : Registerer ρB) (rsB : ρB) (nsB : GoString) (clB : StringMap)
    (hB : (NewERC4337In ordB regB rsB nsB clB addressesB).1 = Outcome.ok nB)
    (ordC : IndexMap) (addressesC : List AddressERC4626) (nC : ERC4626)
    {ρC : Type} (regC : Registerer ρC) (rsC : ρC) (nsC : GoString) (clC : StringMap)
    (hC : (NewERC4626In ordC regC rsC nsC clC addressesC).1 = Outcome.ok nC)
    (c : ExecutionClient σ)
    (hc : ∀ s s' t b, (c.ETHCall s t b).1 = (c.ETHCall s' t b).1)
    (hg : ∀ s s' a b, (c.ETHGetBalance s a b).1 = (c.ETHGetBalance s' a b).1)
    (w : World σ) (i : Instruments) :
    (∀ address : AddressAccount,
        (i.applyAll (nA.getBalance c address (nA.getBalance c address w).2).2.ops).gauge
            = (i.applyAll (nA.getBalance c address w).2.ops).gauge
          ∧ ∀ e, (c.ETHGetBalance w.client address.Address latest).1 = Except.error e →
            ∃ lvs, nA.getLabelValues address = some lvs
              ∧ (nA.getBalance c address w).1 = Outcome.error e
              ∧ (nA.getBalance c address (nA.getBalance c address w).2).1 = Outcome.error e
              ∧ (i.applyAll
                  (nA.getBalance c address (nA.getBalance c address w).2).2.ops).counter lvs
                = (i.applyAll w.ops).counter lvs + 2)
      ∧ (∀ address : AddressERC4337,
        (i.applyAll (nB.getBalance c address (nB.getBalance c address w).2).2.ops).gauge
            = (i.applyAll (nB.getBalance c address w).2.ops).gauge
          ∧ ∀ e, 2 ≤ address.Address.length →
            (c.ETHCall w.client (balanceCall address) latest).1 = Except.error e →
            ∃ lvs, nB.getLabelValues address = some lvs
              ∧ (nB.getBalance c address w).1 = Outcome.error e
              ∧ (nB.getBalance c address (nB.getBalance c address w).2).1 = Outcome.error e
              ∧ (i.applyAll
                  (nB.getBalance c address (nB.getBalance c address w).2).2.ops).counter lvs
                = (i.applyAll w.ops).counter lvs + 2)
      ∧ (∀ address : AddressERC4626,
        (i.applyAll (nC.getAssets c address (nC.getAssets c address w).2).2.ops).gauge
            = (i.applyAll (nC.getAssets c address w).2.ops).gauge
          ∧ ∀ e, 2 ≤ address.Address.length → probeFails c address w.client e →
            ∃ lvs, nC.getLabelValues address [] = some lvs
              ∧ (nC.getAssets c address w).1 = Outcome.error e
              ∧ (nC.getAssets c address (nC.getAssets c address w).2).1 = Outcome.error e
              ∧ (i.applyAll
                  (nC.getAssets c address (nC.getAssets c address w).2).2.ops).counter lvs
                = (i.applyAll w.ops).counter lvs + 2) := by
  refine ⟨?_, ?_, ?_⟩
  · intro address
    refine ⟨(idempotent_of_delta (nA.getBalance c address)
      (account_getBalance_delta nA c hg address) w i).1, ?_⟩
    intro e he
    obtain ⟨lvs, hl, _⟩ := account_getLabelValues_some nA (account_schema_of_new hA) address
    have h1 : c.ETHGetBalance w.client address.Address latest
        = (Except.error e, (c.ETHGetBalance w.client address.Address latest).2) :=
      Prod.ext he rfl
    have hr1 := account_getBalance_err nA c address w e _ h1
    simp only [hl] at hr1
    have h2 : c.ETHGetBalance (nA.getBalance c address w).2.client address.Address latest
        = (Except.error e,
          (c.ETHGetBalance (nA.getBalance c address w).2.client address.Address latest).2) :=
      Prod.ext ((hg _ w.client _ _).trans he) rfl
    have hr2 := account_getBalance_err nA c address (nA.getBalance c address w).2 e _ h2
    simp only [hl] at hr2
    refine ⟨lvs, hl, by rw [hr1], by rw [hr2], ?_⟩
    rw [hr2]
    dsimp only
    rw [hr1]
    dsimp only
    exact counter_two_inc i w.ops lvs
  · intro address
    refine ⟨(idempotent_of_delta (nB.getBalance c address)
      (erc4337_getBalance_delta nB c hc address) w i).1, ?_⟩
    intro e hlen he
    obtain ⟨lvs, hl, _⟩ := erc4337_getLabelValues_some nB (erc4337_schema_of_new hB) address
    have h1 : c.ETHCall w.client (balanceCall address) latest
        = (Except.error e, (c.ETHCall w.client (balanceCall address) latest).2) :=
      Prod.ext he rfl
    have hr1 := erc4337_getBalance_err nB c address w hlen e _ h1
    simp only [hl] at hr1
    have h2 : c.ETHCall (nB.getBalance c address w).2.client (balanceCall address) latest
        = (Except.error e,
          (c.ETHCall (nB.getBalance c address w).2.client (balanceCall address) latest).2) :=
      Prod.ext ((hc _ w.client _ _).trans he) rfl
    have hr2 := erc4337_getBalance_err nB c address (nB.getBalance c address w).2 hlen e _ h2
    simp only [hl] at hr2
    refine ⟨lvs, hl, by rw [hr1], by rw [hr2], ?_⟩
    rw [hr2]
    dsimp only
    rw [hr1]
    dsimp only
    exact counter_two_inc i w.ops lvs
  · intro address
    refine ⟨(idempotent_of_delta (nC.getAssets c address)
      (erc4626_getAssets_delta nC c hc address) w i).1, ?_⟩
    intro e hlen hf
    obtain ⟨lvs, hl, _⟩ := erc4626_getLabelValues_some nC (erc4626_schema_of_new hC) address []
    obtain ⟨ho1, hops1⟩ := getAssets_of_probeFails nC c address w lvs hl hlen e hf
    obtain ⟨ho2, hops2⟩ := getAssets_of_probeFails nC c address (nC.getAssets c address w).2 lvs
      hl hlen e (probeFails_stateless c hc address _ _ e hf)
    refine ⟨lvs, hl, ho1, ho2, ?_⟩
    rw [hops2, hops1]
    exact counter_two_inc i w.ops lvs

set_option maxRecDepth 100000 in
/-- Witness of `probe_idempotent`: the jobs of the tests on mock clients, which
keep no state. On the succeeding client two runs of the vault probe leave the
value instrument as one run does; on the failing client the error cell of the
account and the error cell of the vault end at 2. -/
theorem probe_idempotent_witness :
    ((Instruments.empty.applyAll (testVaultJob.getAssets testVaultClient.client testVault
        (testVaultJob.getAssets testVaultClient.client testVault World.init).2).2.ops).gauge
      = (Instruments.empty.applyAll
          (testVaultJob.getAssets testVaultClient.client testVault World.init).2.ops).gauge)
      ∧ (∃ lvs, testAccountJob.getLabelValues testAccount = some lvs
          ∧ (testAccountJob.getBalance failingClient.client testAccount World.init).1
              = Outcome.error (GoError.other (bytesOf "connection refused"))
          ∧ (testAccountJob.getBalance failingClient.client testAccount
              (testAccountJob.getBalance failingClient.client testAccount World.init).2).1
              = Outcome.error (GoError.other (bytesOf "connection refused"))
          ∧ (Instruments.empty.applyAll
              (testAccountJob.getBalance failingClient.client testAccount
                (testAccountJob.getBalance failingClient.client testAccount
                  World.init).2).2.ops).counter lvs
            = (Instruments.empty.applyAll World.init.ops).counter lvs + 2)
      ∧ (∃ lvs, testVaultJob.getLabelValues testVault [] = some lvs
          ∧ (testVaultJob.getAssets failingClient.client testVault World.init).1
              = Outcome.error (GoError.other (bytesOf "connection refused"))
          ∧ (testVaultJob.getAssets failingClient.client testVault
              (testVaultJob.getAssets failingClient.client testVault World.init).2).1
              = Outcome.error (GoError.other (bytesOf "connection refused"))
          ∧ (Instruments.empty.applyAll
              (testVaultJob.getAssets failingClient.client testVault
                (testVaultJob.getAssets failingClient.client testVault
                  World.init).2).2.ops).counter lvs
            = (Instruments.empty.applyAll World.init.ops).counter lvs + 2) :=
  ⟨((probe_idempotent (accountLabelsMap [testAccount]) [testAccount] testAccountJob
        testRegistry [] testNamespace none testAccountJob_new
        (erc4337LabelsMap [testEntryPoint]) [testEntryPoint] testEntryPointJob
        testRegistry [] testNamespace none testEntryPointJob_new
        (erc4626LabelsMap [testVault]) [testVault] testVaultJob
        testRegistry [] testNamespace none testVaultJob_new testVaultClient.client
        (fun _ _ _ _ => rfl) (fun _ _ _ _ => rfl) World.init Instruments.empty).2.2
      testVault).1,
    ((probe_idempotent (accountLabelsMap [testAccount]) [testAccount] testAccountJob
        testRegistry [] testNamespace none testAccountJob_new
        (erc4337LabelsMap [testEntryPoint]) [testEntryPoint] testEntryPointJob
        testRegistry [] testNamespace none testEntryPointJob_new
        (erc4626LabelsMap [testVault]) [testVault] testVaultJob
        testRegistry [] testNamespace none testVaultJob_new failingClient.client
        (fun _ _ _ _ => rfl) (fun _ _ _ _ => rfl) World.init Instruments.empty).1
      testAccount).2 _ (by decide),
    ((probe_idempotent (accountLabelsMap [testAccount]) [testAccount] testAccountJob
        testRegistry [] testNamespace none testAccountJob_new
        (erc4337LabelsMap [testEntryPoint]) [testEntryPoint] testEntryPointJob
        testRegistry [] testNamespace none testEntryPointJob_new
        (erc4626LabelsMap [testVault]) [testVault] testVaultJob
        testRegistry [] testNamespace none testVaultJob_new failingClient.client
        (fun _ _ _ _ => rfl) (fun _ _ _ _ => rfl) World.init Instruments.empty).2.2
      testVault).2 _ (by decide) (probeFails_of_first _ _ _ _ (by decide))⟩

set_option maxRecDepth 100000 in
/-- C25 (evaluation at the failing inputs): `hexStringToString` panics on the
empty string and on a string of one byte (the slice expression `hexStr[2:]`
is out of range); `ERC4626.getAssets` panics when the client answers the
`symbol()` call with the one-byte string `"0"`, after three calls and without
touching an instrument; `ERC4337.getBalance` panics on an `Address` of one
byte before any call; and the tick over two vaults stops at the first one:
the second address is never probed. -/
theorem probe_panics_on_short_strings :
    hexStringToString (bytesOf "") = Outcome.panic
      ∧ hexStringToString (bytesOf "0") = Outcome.panic
      ∧ (testVaultJob.getAssets shortSymbolClient.client testVault World.init).1 = Outcome.panic
      ∧ (testVaultJob.getAssets shortSymbolClient.client testVault World.init).2.calls.length = 3
      ∧ (testVaultJob.getAssets shortSymbolClient.client testVault World.init).2.ops = []
      ∧ (testEntryPointJob.getBalance testVaultClient.client shortEntryPoint World.init).1
          = Outcome.panic
      ∧ (twoVaultJob.tick shortSymbolClient.client World.init).1 = Outcome.panic
      ∧ (twoVaultJob.tick shortSymbolClient.client World.init).2.calls.length = 3 := by
  refine ⟨by decide, by decide, by decide, by decide, by decide, by decide, by decide, by decide⟩

/-- C28: for a job built by `NewERC4626` and an address spec whose `Address`
has at least two bytes: whenever the answers of the client make `getAssets`
fail (one of the three calls returns an error, or the symbol response does
not decode), whatever was written on earlier ticks, the probe returns the
error and the label vector under which the error instrument is incremented is
`getLabelValues(spec, "")`; its entry at the index of `symbol` is the empty
string unless the custom labels of the spec give a non-empty `symbol`; so for
a spec without a custom symbol label and a non-empty decoded symbol, the
label vector of the value cell differs from that of the error cell. -/
theorem getAssets_error_label_vector {σ : Type} (ord : IndexMap)
    (addresses : List AddressERC4626) (n : ERC4626) {ρ : Type} (reg : Registerer ρ) (rs : ρ)
    (ns : GoString) (cl : StringMap)
    (hn : (NewERC4626In ord reg rs ns cl addresses).1 = Outcome.ok n)
    (c : ExecutionClient σ) (address : AddressERC4626) (w : World σ)
    (hlen : 2 ≤ address.Address.length) :
    ∃ lvs0, n.getLabelValues address [] = some lvs0
      ∧ (∀ e, probeFails c address w.client e →
          (n.getAssets c address w).1 = Outcome.error e
            ∧ (n.getAssets c address w).2.ops = w.ops ++ [MetricOp.inc lvs0])
      ∧ n.labelsMap.lookup LabelSymbol = some 3
      ∧ lvs0[3]? = some
          (if address.Labels.get LabelSymbol ≠ [] then address.Labels.get LabelSymbol else [])
      ∧ (∀ symbol lvs, symbol ≠ [] → address.Labels.get LabelSymbol = [] →
          n.getLabelValues address symbol = some lvs → lvs ≠ lvs0) := by
  have hs := erc4626_schema_of_new hn
  obtain ⟨lvs0, hl0, _, hv0⟩ := erc4626_getLabelValues_some n hs address []
  have hbase := scanLabels_base erc4626BaseLabels
    (addresses.map fun (a : AddressERC4626) => a.Labels.keys) erc4626BaseLabels_schema
  have hmem : (LabelSymbol, 3) ∈ n.labelsMap := by
    rw [NewERC4626In_labelsMap hn]
    exact (hbase.1 LabelSymbol 3 (by decide)).1
  have hlook : n.labelsMap.lookup LabelSymbol = some 3 := by
    rw [NewERC4626In_labelsMap hn]
    exact (hbase.1 LabelSymbol 3 (by decide)).2
  have hne1 : LabelSymbol ≠ LabelName := by decide
  have hne2 : LabelSymbol ≠ LabelAddress := by decide
  have hne3 : LabelSymbol ≠ LabelContract := by decide
  have h3 : lvs0[3]? = some
      (if address.Labels.get LabelSymbol ≠ [] then address.Labels.get LabelSymbol else []) := by
    rw [hv0 _ _ hmem, erc4626_labelValue_eq]
    simp only [if_neg hne1, if_neg hne2, if_neg hne3, if_true]
  refine ⟨lvs0, hl0, fun e hf => getAssets_of_probeFails n c address w lvs0 hl0 hlen e hf,
    hlook, h3, ?_⟩
  intro symbol lvs hsym hget hl heq
  obtain ⟨lvs', hl', _, hv'⟩ := erc4626_getLabelValues_some n hs address symbol
  rw [hl] at hl'
  cases hl'
  have h3' : lvs[3]? = some symbol := by
    rw [hv' _ _ hmem, erc4626_labelValue_eq]
    simp only [hget, ne_eq, not_true_eq_false, if_false, if_neg hne1, if_neg hne2, if_neg hne3,
      if_true]
  rw [heq, h3, hget] at h3'
  simp only [ne_eq, not_true_eq_false, if_false, Option.some.injEq] at h3'
  exact hsym h3'.symm

set_option maxRecDepth 100000 in
/-- Witness of `getAssets_error_label_vector`: the job and address of the
first case of `TestERC4626_getAssets` on a client whose `balanceOf` call
fails, from a world in which the value cell of the decoded symbol has been
written on an earlier tick: the probe returns the error of the client and
increments the cell of the label vector with the empty symbol. -/
theorem getAssets_error_label_vector_witness :
    (testVaultJob.getAssets failingClient.client testVault
        (testVaultJob.getAssets testVaultClient.client testVault World.init).2).1
        = Outcome.error (GoError.other (bytesOf "connection refused"))
      ∧ (testVaultJob.getAssets failingClient.client testVault
          (testVaultJob.getAssets testVaultClient.client testVault World.init).2).2.ops
        = (testVaultJob.getAssets testVaultClient.client testVault World.init).2.ops
          ++ [MetricOp.inc
              [bytesOf "Test Vault", bytesOf "0x1234567890123456789012345678901234567890",
                bytesOf "0xBEEF01735c132Ada46AA9aA4c54623cAA92A64CB", [], bytesOf "usdc"]] := by
  obtain ⟨lvs0, hl0, hf, _⟩ := getAssets_error_label_vector (erc4626LabelsMap [testVault])
    [testVault] testVaultJob testRegistry [] testNamespace none testVaultJob_new
    failingClient.client testVault
    (testVaultJob.getAssets testVaultClient.client testVault World.init).2 (by decide)
  have hl : testVaultJob.getLabelValues testVault []
      = some [bytesOf "Test Vault", bytesOf "0x1234567890123456789012345678901234567890",
          bytesOf "0xBEEF01735c132Ada46AA9aA4c54623cAA92A64CB", [], bytesOf "usdc"] := by
    decide
  rw [hl] at hl0
  cases hl0
  exact hf _ (probeFails_of_first _ _ _ _ (by decide))

theorem startLoop_after {τ : Type} (tick : τ → Outcome Unit × τ)
    (hno : ∀ w, (tick w).1 ≠ Outcome.panic) (rest : List SelectCase) (w : τ) :
    startLoop tick (SelectCase.after :: rest) w = startLoop tick rest (tick w).2 := by
  rcases hp : tick w with ⟨o, w1⟩
  have := hno w
  rw [hp] at this
  cases o with
  | panic => exact absurd rfl this
  | ok v => simp [startLoop, hp]
  | error e => simp [startLoop, hp]

theorem startLoop_replicate {τ : Type} (tick : τ → Outcome Unit × τ)
    (hno : ∀ w, (tick w).1 ≠ Outcome.panic) (n : Nat) (rest : List SelectCase) (w : τ) :
    startLoop tick (List.replicate n SelectCase.after ++ rest) w
      = startLoop tick rest ((fun w => (tick w).2)^[n] w) := by
  induction n generalizing w with
  | zero => rfl
  | succ n ih =>
    rw [List.replicate_succ, List.cons_append, startLoop_after tick hno, ih,
      Function.iterate_succ_apply]

theorem Start_eq {τ : Type} (tick : τ → Outcome Unit × τ)
    (hno : ∀ w, (tick w).1 ≠ Outcome.panic) (waits : List SelectCase) (w : τ) :
    Start tick waits w = startLoop tick waits (tick w).2 := by
  unfold Start
  rcases hp : tick w with ⟨o, w1⟩
  have := hno w
  rw [hp] at this
  cases o with
  | panic => exact absurd rfl this
  | ok v => rfl
  | error e => rfl

theorem startLoop_returned {τ : Type} (tick : τ → Outcome Unit × τ) (waits : List SelectCase)
    (w : τ) (h : (startLoop tick waits w).1 = StartResult.returned) :
    SelectCase.done ∈ waits := by
  induction waits generalizing w with
  | nil => simp [startLoop] at h
  | cons x rest ih =>
    cases x with
    | done => exact List.mem_cons_self _ _
    | after =>
      rcases hp : tick w with ⟨o, w1⟩
      cases o with
      | panic => simp [startLoop, hp] at h
      | ok v =>
        simp only [startLoop, hp] at h
        exact List.mem_cons_of_mem _ (ih w1 h)
      | error e =>
        simp only [startLoop, hp] at h
        exact List.mem_cons_of_mem _ (ih w1 h)

/-- C26: `Start` over a sequence of waits (each wait ends with the interval
elapsed or with the cancellation observed), for a tick that does not panic:
one tick runs before the first wait and one more for each elapsed interval;
the loop is left only at a wait that observes the cancellation, and what
follows is not run; so `n` elapsed intervals followed by a cancellation give
exactly `n + 1` ticks, a context that is already cancelled gives exactly one
tick, and without a cancellation `Start` does not return. The three jobs run
this `Start` on their own tick. -/
theorem start_tick_count {τ : Type} (tick : τ → Outcome Unit × τ)
    (hno : ∀ w, (tick w).1 ≠ Outcome.panic) (n : Nat) (rest : List SelectCase) (w : τ) :
    Start tick (List.replicate n SelectCase.after ++ SelectCase.done :: rest) w
        = (StartResult.returned, (fun w => (tick w).2)^[n + 1] w)
      ∧ Start tick (SelectCase.done :: rest) w = (StartResult.returned, (tick w).2)
      ∧ Start tick (List.replicate n SelectCase.after) w
        = (StartResult.waiting, (fun w => (tick w).2)^[n + 1] w)
      ∧ (∀ waits, (Start tick waits w).1 = StartResult.returned → SelectCase.done ∈ waits)
      ∧ (∀ (σ : Type) (nA : Account) (nB : ERC4337) (nC : ERC4626) (c : ExecutionClient σ)
          (waits : List SelectCase) (v : World σ),
        nA.Start c waits v = Start (nA.tick c) waits v
          ∧ nB.Start c waits v = Start (nB.tick c) waits v
          ∧ nC.Start c waits v = Start (nC.tick c) waits v) := by
  refine ⟨?_, ?_, ?_, ?_, fun _ _ _ _ _ _ _ => ⟨rfl, rfl, rfl⟩⟩
  · rw [Start_eq tick hno, startLoop_replicate tick hno, Function.iterate_succ_apply]
    rfl
  · rw [Start_eq tick hno]
    rfl
  · have := startLoop_replicate tick hno n [] (tick w).2
    rw [List.append_nil] at this
    rw [Start_eq tick hno, this, Function.iterate_succ_apply]
    rfl
  · intro waits h
    rw [Start_eq tick hno] at h
    exact startLoop_returned tick waits _ h

/-- Witness of `start_tick_count`: a tick that counts, two elapsed intervals
and then the cancellation: three ticks. -/
theorem start_tick_count_witness :
    Start (fun k : Nat => (Outcome.ok (), k + 1))
        (List.replicate 2 SelectCase.after ++ SelectCase.done :: [SelectCase.after]) 0
      = (StartResult.returned, (fun k : Nat => ((Outcome.ok (), k + 1) : Outcome Unit × Nat).2)^[2 + 1] 0) :=
  (start_tick_count (fun k : Nat => (Outcome.ok (), k + 1)) (fun _ => by simp) 2
    [SelectCase.after] 0).1

/-! ## Theorems: `hexStringToFloat64` -/

theorem bitLenAux_zero (fuel : Nat) : bitLenAux fuel 0 = 0 := by
  cases fuel <;> simp [bitLenAux]

theorem bitLenAux_spec (fuel : Nat) : ∀ n, n ≤ fuel →
    n < 2 ^ bitLenAux fuel n ∧ (n ≠ 0 → 2 ^ (bitLenAux fuel n - 1) ≤ n) := by
  induction fuel with
  | zero =>
    intro n hn
    have : n = 0 := by omega
    subst this
    simp [bitLenAux]
  | succ fuel ih =>
    intro n hn
    by_cases h0 : n = 0
    · subst h0
      simp [bitLenAux]
    · simp only [bitLenAux, if_neg h0]
      obtain ⟨h1, h2⟩ := ih (n / 2) (by omega)
      constructor
      · rw [pow_succ]
        omega
      · intro _
        simp only [Nat.add_sub_cancel]
        by_cases h20 : n / 2 = 0
        · rw [h20, bitLenAux_zero]
          simp
          omega
        · have h3 := h2 h20
          have hpos : 1 ≤ bitLenAux fuel (n / 2) := by
            by_contra hc
            have : bitLenAux fuel (n / 2) = 0 := by omega
            rw [this] at h1
            simp at h1
            exact h20 h1
          have : 2 ^ bitLenAux fuel (n / 2) = 2 ^ (bitLenAux fuel (n / 2) - 1) * 2 := by
            rw [← pow_succ]
            congr 1
            omega
          omega

theorem bitLen_eq_size (n : Nat) : bitLen n = Nat.size n := by
  obtain ⟨h1, h2⟩ := bitLenAux_spec n n (le_refl _)
  apply le_antisymm
  · by_cases h0 : n = 0
    · subst h0
      simp [bitLen, bitLenAux_zero]
    · have := h2 h0
      have h3 : bitLenAux n n - 1 < Nat.size n := Nat.lt_size.mpr this
      have hpos : 1 ≤ bitLenAux n n := by
        by_contra hc
        have : bitLenAux n n = 0 := by omega
        rw [this] at h1
        simp at h1
        exact h0 h1
      unfold bitLen
      omega
  · exact Nat.size_le.mpr h1

theorem bitLen_le_iff {n k : Nat} : bitLen n ≤ k ↔ n < 2 ^ k := by
  rw [bitLen_eq_size]; exact Nat.size_le

theorem lt_bitLen_iff {n k : Nat} : k < bitLen n ↔ 2 ^ k ≤ n := by
  rw [bitLen_eq_size]; exact Nat.lt_size

theorem bitLen_eq_of_bounds {n k : Nat} (h1 : 2 ^ k ≤ n) (h2 : n < 2 ^ (k + 1)) :
    bitLen n = k + 1 := by
  have a := bitLen_le_iff.mpr h2
  have b := lt_bitLen_iff.mpr h1
  omega

theorem bitLen_mul_pow {m : Nat} (hm : m ≠ 0) (k : Nat) : bitLen (m * 2 ^ k) = bitLen m + k := by
  rw [bitLen_eq_size, bitLen_eq_size, ← Nat.shiftLeft_eq, Nat.size_shiftLeft hm]

theorem bitLen_pos {n : Nat} (h : n ≠ 0) : 1 ≤ bitLen n := by
  rw [bitLen_eq_size]
  exact Nat.size_pos.mpr (Nat.pos_of_ne_zero h)

theorem lower_bound_of_bitLen {n : Nat} (h : n ≠ 0) : 2 ^ (bitLen n - 1) ≤ n := by
  have := bitLen_pos h
  exact lt_bitLen_iff.mp (by omega)

theorem upper_bound_of_bitLen (n : Nat) : n < 2 ^ bitLen n :=
  bitLen_le_iff.mp (le_refl _)

/-- A hexadecimal digit is neither a radix point nor a separator, and
`nat.scan` gives it its value in base 16. -/
theorem digitValue_hex (c : Nat) (h : (fromHexChar c).isSome = true) :
    c ≠ 46 ∧ c ≠ 95 ∧ digitValue 16 c = (fromHexChar c).getD 0 ∧ digitValue 16 c < 16 := by
  unfold fromHexChar at h ⊢
  unfold digitValue
  split_ifs at h ⊢ <;> simp at h ⊢ <;> omega

theorem scanMantLoop_hex (ds : GoString) (hds : isHexDigits ds) : ∀ st : MantScan,
    scanMantLoop 16 ds st =
      ({ st with
          z := ds.foldl (fun acc c => acc * 16 + (fromHexChar c).getD 0) st.z
          count := st.count + ds.length
          prev := if ds = [] then st.prev else 48 }, []) := by
  induction ds with
  | nil => intro st; simp [scanMantLoop]
  | cons c rest ih =>
    intro st
    obtain ⟨h1, h2, h3, h4⟩ := digitValue_hex c (hds c (List.mem_cons_self _ _))
    have hrest : isHexDigits rest := fun x hx => hds x (List.mem_cons_of_mem _ hx)
    rw [scanMantLoop]
    simp only [h1, false_and, if_false, h2]
    rw [if_neg (by omega)]
    rw [ih hrest]
    simp only [List.foldl_cons, h3, List.length_cons, reduceCtorEq, if_false]
    congr 2
    · omega
    · split_ifs <;> rfl

theorem scanBase_hex (ds : GoString) :
    scanBase (48 :: 120 :: ds)
      = (16, { z := 0, count := 0, prev := 48, invalSep := false, fracOk := true, dp := none },
          ds) := by
  simp [scanBase]

theorem natScan_hex (ds : GoString) (hds : isHexDigits ds) (hne : ds ≠ []) :
    natScan (48 :: 120 :: ds)
      = { res := hexValue ds, b := 16, count := (ds.length : Int), err := false, rest := [] } := by
  have hlen : 0 < ds.length := List.length_pos.mpr hne
  unfold natScan
  rw [scanBase_hex]
  simp only [scanMantLoop_hex ds hds]
  simp only [hexValue, if_neg hne]
  simp
  exact hne

theorem floatScan_hex (ds : GoString) (hds : isHexDigits ds) (hne : ds ≠ []) :
    floatScan (48 :: 120 :: ds) =
      if hexValue ds = 0 then
        { z := { prec := 64, neg := false, form := Form.zero, mant := 0, exp := 0 }
          err := false, rest := [] }
      else if (bitLen (hexValue ds) : Int) ≤ MaxExp then
        { z := ({ prec := 64, neg := false, form := Form.finite, mant := hexValue ds
                  exp := (bitLen (hexValue ds) : Int) } : BigFloat).round false
          err := false, rest := [] }
      else
        { z := { prec := 0, neg := false, form := Form.zero, mant := hexValue ds, exp := 0 }
          err := true, rest := [] } := by
  unfold floatScan
  simp only [scanSign, natScan_hex ds hds hne, scanExponent]
  by_cases h0 : hexValue ds = 0
  · simp [h0]
  · simp only [h0, if_false]
    have hnn : ¬ ((ds.length : Int) < 0) := by omega
    simp only [hnn, if_false]
    norm_num
    have hmin : MinExp ≤ (bitLen (hexValue ds) : Int) := by
      unfold MinExp; omega
    simp only [hmin, true_and]

theorem floatParse_hex (ds : GoString) :
    floatParse (48 :: 120 :: ds) = (floatScan (48 :: 120 :: ds)).z := by
  unfold floatParse
  have e : ∀ t : GoString, t.head? ≠ some 48 → (48 :: 120 :: ds) ≠ t := by
    intro t ht h
    rw [← h] at ht
    simp at ht
  have e1 := e (bytesOf "Inf") (by decide)
  have e2 := e (bytesOf "inf") (by decide)
  have e3 := e (bytesOf "+Inf") (by decide)
  have e4 := e (bytesOf "+inf") (by decide)
  have e5 := e (bytesOf "-Inf") (by decide)
  have e6 := e (bytesOf "-inf") (by decide)
  simp only [e1, e2, e3, e4, e5, e6, or_self, if_false]

theorem roundNat_of_le {p v : Nat} (h : bitLen v ≤ p) : roundNat p v = v := by
  unfold roundNat
  rw [if_pos h]

/-- A number with at most `p` significant bits is not changed by rounding to
`p` bits. -/
theorem roundNat_exact (p m k : Nat) (hm : bitLen m ≤ p) : roundNat p (m * 2 ^ k) = m * 2 ^ k := by
  by_cases hm0 : m = 0
  · subst hm0
    simp only [Nat.zero_mul]
    exact roundNat_of_le (by rw [bitLen_le_iff]; exact Nat.two_pow_pos _)
  · by_cases hb : bitLen (m * 2 ^ k) ≤ p
    · exact roundNat_of_le hb
    · have hbl : bitLen (m * 2 ^ k) = bitLen m + k := bitLen_mul_pow hm0 k
      unfold roundNat
      rw [if_neg hb]
      simp only [hbl]
      have hr : bitLen m + k - p - 1 + 1 ≤ k := by omega
      obtain ⟨j, hj⟩ : ∃ j, k = j + (bitLen m + k - p - 1 + 1) := ⟨k - (bitLen m + k - p - 1 + 1), by omega⟩
      generalize bitLen m + k - p - 1 = r at hr hj ⊢
      subst hj
      have h1 : m * 2 ^ (j + (r + 1)) = (m * 2 ^ j) * 2 ^ (r + 1) := by
        rw [pow_add, Nat.mul_assoc]
      have h2 : m * 2 ^ (j + (r + 1)) = (m * 2 ^ j * 2) * 2 ^ r := by
        rw [pow_add, pow_succ]; ring
      have hq : m * 2 ^ (j + (r + 1)) / 2 ^ (r + 1) = m * 2 ^ j := by
        rw [h1, Nat.mul_div_cancel _ (Nat.two_pow_pos _)]
      have hrb : m * 2 ^ (j + (r + 1)) / 2 ^ r = m * 2 ^ j * 2 := by
        rw [h2, Nat.mul_div_cancel _ (Nat.two_pow_pos _)]
      rw [hq, hrb]
      simp only [Nat.mul_mod_left, Nat.zero_ne_one, beq_iff_eq, Bool.false_and,
        Bool.false_eq_true, if_false]
      exact h1.symm

/-- Decomposition of `roundNat` above the precision: with `a = v / 2 ^ r` and
`x = v % 2 ^ r`, the result is `a / 2` or `a / 2 + 1` times `2 ^ (r + 1)`. -/
theorem roundNat_of_gt {p v : Nat} (h : ¬ bitLen v ≤ p) :
    roundNat p v =
      (if (v / 2 ^ (bitLen v - p - 1)) % 2 = 1
          ∧ (v % 2 ^ (bitLen v - p - 1) ≠ 0 ∨ (v / 2 ^ (bitLen v - p - 1) / 2) % 2 = 1)
        then v / 2 ^ (bitLen v - p - 1) / 2 + 1 else v / 2 ^ (bitLen v - p - 1) / 2)
        * 2 ^ (bitLen v - p - 1 + 1) := by
  unfold roundNat
  rw [if_neg h]
  have hq : v / 2 ^ (bitLen v - p - 1 + 1) = v / 2 ^ (bitLen v - p - 1) / 2 := by
    rw [pow_succ, Nat.div_div_eq_div_mul]
  simp only [hq]
  by_cases hc : (v / 2 ^ (bitLen v - p - 1)) % 2 = 1
      ∧ (v % 2 ^ (bitLen v - p - 1) ≠ 0 ∨ (v / 2 ^ (bitLen v - p - 1) / 2) % 2 = 1)
  · rw [if_pos hc]
    have : ((v / 2 ^ (bitLen v - p - 1) % 2 == 1)
        && (v % 2 ^ (bitLen v - p - 1) != 0 || v / 2 ^ (bitLen v - p - 1) / 2 % 2 == 1)) = true := by
      simp only [Bool.and_eq_true, beq_iff_eq, Bool.or_eq_true, bne_iff_ne, ne_eq]
      exact hc
    rw [if_pos this]
  · rw [if_neg hc]
    have : ¬ (((v / 2 ^ (bitLen v - p - 1) % 2 == 1)
        && (v % 2 ^ (bitLen v - p - 1) != 0 || v / 2 ^ (bitLen v - p - 1) / 2 % 2 == 1)) = true) := by
      simp only [Bool.and_eq_true, beq_iff_eq, Bool.or_eq_true, bne_iff_ne, ne_eq]
      exact hc
    rw [if_neg this]

/-- Bounds on the truncated mantissa. -/
theorem quotient_bounds {p v : Nat} (hp : 1 ≤ p) (h : ¬ bitLen v ≤ p) :
    2 ^ (p - 1) ≤ v / 2 ^ (bitLen v - p - 1) / 2 ∧ v / 2 ^ (bitLen v - p - 1) / 2 < 2 ^ p := by
  have hv0 : v ≠ 0 := by
    rintro rfl
    apply h
    rw [bitLen_le_iff]
    exact Nat.two_pow_pos _
  have hlo := lower_bound_of_bitLen hv0
  have hhi := upper_bound_of_bitLen v
  have hq : v / 2 ^ (bitLen v - p - 1) / 2 = v / 2 ^ (bitLen v - p - 1 + 1) := by
    rw [pow_succ, Nat.div_div_eq_div_mul]
  rw [hq]
  have e1 : bitLen v - 1 = (p - 1) + (bitLen v - p - 1 + 1) := by omega
  have e2 : bitLen v = p + (bitLen v - p - 1 + 1) := by omega
  constructor
  · rw [Nat.le_div_iff_mul_le (Nat.two_pow_pos _), ← pow_add, ← e1]
    exact hlo
  · rw [Nat.div_lt_iff_lt_mul (Nat.two_pow_pos _), ← pow_add, ← e2]
    exact hhi

/-- The rounded value of a positive number stays between the powers of two
around it. -/
theorem roundNat_bounds {p v : Nat} (hp : 1 ≤ p) (hv : v ≠ 0) :
    2 ^ (bitLen v - 1) ≤ roundNat p v ∧ roundNat p v ≤ 2 ^ bitLen v := by
  by_cases h : bitLen v ≤ p
  · rw [roundNat_of_le h]
    exact ⟨lower_bound_of_bitLen hv, le_of_lt (upper_bound_of_bitLen v)⟩
  · rw [roundNat_of_gt h]
    obtain ⟨h1, h2⟩ := quotient_bounds hp h
    have e1 : 2 ^ (bitLen v - 1) = 2 ^ (p - 1) * 2 ^ (bitLen v - p - 1 + 1) := by
      rw [← pow_add]; congr 1; omega
    have e2 : 2 ^ bitLen v = 2 ^ p * 2 ^ (bitLen v - p - 1 + 1) := by
      rw [← pow_add]; congr 1; omega
    rw [e1, e2]
    constructor
    · apply Nat.mul_le_mul_right
      split_ifs <;> omega
    · apply Nat.mul_le_mul_right
      split_ifs <;> omega

theorem bitLen_mono {v w : Nat} (h : v ≤ w) : bitLen v ≤ bitLen w := by
  rw [bitLen_eq_size, bitLen_eq_size]
  exact Nat.size_le_size h

/-- Rounding to `p` significant bits is monotone. -/
theorem roundNat_mono {p v w : Nat} (hp : 1 ≤ p) (h : v ≤ w) : roundNat p v ≤ roundNat p w := by
  by_cases hv0 : v = 0
  · subst hv0
    rw [roundNat_of_le (by rw [bitLen_le_iff]; exact Nat.two_pow_pos _)]
    exact Nat.zero_le _
  have hw0 : w ≠ 0 := by omega
  have hb := bitLen_mono h
  by_cases hlt : bitLen v < bitLen w
  · calc roundNat p v ≤ 2 ^ bitLen v := (roundNat_bounds hp hv0).2
      _ ≤ 2 ^ (bitLen w - 1) := Nat.pow_le_pow_right (by norm_num) (by omega)
      _ ≤ roundNat p w := (roundNat_bounds hp hw0).1
  · have heq : bitLen v = bitLen w := by omega
    by_cases hle : bitLen v ≤ p
    · rw [roundNat_of_le hle, roundNat_of_le (by omega)]
      exact h
    · have hle' : ¬ bitLen w ≤ p := by omega
      rw [roundNat_of_gt hle, roundNat_of_gt hle', heq]
      apply Nat.mul_le_mul_right
      have hH : 0 < 2 ^ (bitLen w - p - 1) := Nat.two_pow_pos _
      have hdv := Nat.div_add_mod v (2 ^ (bitLen w - p - 1))
      have hdw := Nat.div_add_mod w (2 ^ (bitLen w - p - 1))
      have hxv := Nat.mod_lt v hH
      have hxw := Nat.mod_lt w hH
      have hdiv : v / 2 ^ (bitLen w - p - 1) ≤ w / 2 ^ (bitLen w - p - 1) :=
        Nat.div_le_div_right h
      generalize 2 ^ (bitLen w - p - 1) = H at *
      generalize hav : v / H = av at *
      generalize haw : w / H = aw at *
      generalize hxv' : v % H = xv at *
      generalize hxw' : w % H = xw at *
      by_cases hae : av = aw
      · subst hae
        have hx : xv ≤ xw := by omega
        split_ifs <;> omega
      · split_ifs <;> omega

/-- Rounding commutes with a scaling by a power of two. -/
theorem roundNat_mul_pow (p m s : Nat) (hm : m ≠ 0) :
    roundNat p (m * 2 ^ s) = roundNat p m * 2 ^ s := by
  by_cases hle : bitLen m ≤ p
  · rw [roundNat_exact p m s hle, roundNat_of_le hle]
  · have hbl : bitLen (m * 2 ^ s) = bitLen m + s := bitLen_mul_pow hm s
    have hle' : ¬ bitLen (m * 2 ^ s) ≤ p := by omega
    rw [roundNat_of_gt hle, roundNat_of_gt hle', hbl]
    have hr : bitLen m + s - p - 1 = (bitLen m - p - 1) + s := by omega
    rw [hr]
    have hH : 0 < 2 ^ s := Nat.two_pow_pos _
    have hd : m * 2 ^ s / 2 ^ (bitLen m - p - 1 + s) = m / 2 ^ (bitLen m - p - 1) := by
      rw [pow_add, Nat.mul_div_mul_right _ _ hH]
    have hmod : m * 2 ^ s % 2 ^ (bitLen m - p - 1 + s) = m % 2 ^ (bitLen m - p - 1) * 2 ^ s := by
      rw [pow_add, Nat.mul_mod_mul_right]
    rw [hd, hmod]
    have hz : (m % 2 ^ (bitLen m - p - 1) * 2 ^ s ≠ 0) ↔ (m % 2 ^ (bitLen m - p - 1) ≠ 0) := by
      simp [Nat.mul_eq_zero, Nat.pos_iff_ne_zero.mp hH]
    simp only [hz]
    rw [Nat.mul_assoc]
    congr 1
    rw [pow_succ, pow_succ, pow_add]
    ring

/-- A number between `2 ^ (p - 1)` and `2 ^ p` has `p` bits. -/
theorem bitLen_of_quotient {p q : Nat} (hp : 1 ≤ p) (h1 : 2 ^ (p - 1) ≤ q) (h2 : q < 2 ^ p) :
    bitLen q = p := by
  have h2' : q < 2 ^ (p - 1 + 1) := by
    rw [Nat.sub_add_cancel hp]; exact h2
  rw [bitLen_eq_of_bounds h1 h2']
  omega

theorem bitLen_two_pow (k : Nat) : bitLen (2 ^ k) = k + 1 :=
  bitLen_eq_of_bounds (le_refl _) (Nat.pow_lt_pow_right (by norm_num) (by omega))

theorem roundNat_zero (p : Nat) : roundNat p 0 = 0 :=
  roundNat_of_le (by rw [bitLen_le_iff]; exact Nat.two_pow_pos _)

theorem bitLen_roundNat_le {p : Nat} (hp : 1 ≤ p) (v : Nat) :
    bitLen (roundNat p v) ≤ bitLen v + 1 := by
  by_cases hv : v = 0
  · subst hv
    rw [roundNat_zero]
    omega
  · calc bitLen (roundNat p v) ≤ bitLen (2 ^ bitLen v) := bitLen_mono (roundNat_bounds hp hv).2
      _ = bitLen v + 1 := bitLen_two_pow _

theorem roundNat_ne_zero {p v : Nat} (hp : 1 ≤ p) (hv : v ≠ 0) : roundNat p v ≠ 0 := by
  have h := (roundNat_bounds hp hv).1
  have := Nat.two_pow_pos (bitLen v - 1)
  omega

theorem wrapInt32_of_range (i : Int) (h1 : -2147483648 ≤ i) (h2 : i ≤ 2147483647) :
    wrapInt32 i = i := by
  unfold wrapInt32
  omega

/-- `Float.round` on a finite float with the value `mant * 2 ^ s`: the result
is finite with the same sign and precision, and its value is the one of
`roundNat`. -/
theorem round_finite (z : BigFloat) (s : Nat) (hf : z.form = Form.finite) (hp : 1 ≤ z.prec)
    (hm : z.mant ≠ 0) (he : z.exp = ((bitLen z.mant + s : Nat) : Int)) (hmax : z.exp < MaxExp) :
    (z.round false).form = Form.finite ∧ (z.round false).neg = z.neg
      ∧ (z.round false).prec = z.prec ∧ (z.round false).mant ≠ 0
      ∧ ∃ s1, (z.round false).exp = ((bitLen (z.round false).mant + s1 : Nat) : Int)
          ∧ (z.round false).mant * 2 ^ s1 = roundNat z.prec z.mant * 2 ^ s := by
  obtain ⟨prec, neg, form, mant, exp⟩ := z
  simp only at hf hp hm he hmax
  subst hf
  by_cases hb : bitLen mant ≤ prec
  · have hr : (BigFloat.mk prec neg Form.finite mant exp).round false
        = BigFloat.mk prec neg Form.finite mant exp := by
      unfold BigFloat.round
      simp [hb]
    rw [hr]
    exact ⟨rfl, rfl, rfl, hm, s, he, by rw [roundNat_of_le hb]⟩
  · obtain ⟨h1, h2⟩ := quotient_bounds hp hb
    have hq : mant / 2 ^ (bitLen mant - prec - 1) / 2 = mant / 2 ^ (bitLen mant - prec - 1 + 1) := by
      rw [pow_succ, Nat.div_div_eq_div_mul]
    rw [hq] at h1 h2
    have hbits : bitLen mant = prec + (bitLen mant - prec - 1 + 1) := by omega
    unfold BigFloat.round roundNat
    simp only [ne_eq, not_true_eq_false, if_false, hb, Bool.false_or]
    generalize hr : bitLen mant - prec - 1 = r at *
    generalize hqq : mant / 2 ^ (r + 1) = q at *
    cases hc : ((mant / 2 ^ r % 2 == 1) && (mant % 2 ^ r != 0 || q % 2 == 1))
    · simp only [Bool.false_eq_true, if_false]
      have hbq := bitLen_of_quotient hp h1 h2
      refine ⟨trivial, trivial, trivial, ?_, r + 1 + s, ?_, ?_⟩
      · intro h0
        rw [h0] at h1
        have := Nat.two_pow_pos (prec - 1)
        omega
      · rw [he, hbq, hbits]
        congr 1
        omega
      · rw [pow_add, Nat.mul_assoc]
    · simp only [if_true]
      by_cases hov : q + 1 = 2 ^ prec
      · have hnm : ¬ exp ≥ MaxExp := by omega
        simp only [hov, if_true, hnm, if_false]
        refine ⟨trivial, trivial, trivial, ?_, r + 1 + s + 1, ?_, ?_⟩
        · exact Nat.pos_iff_ne_zero.mp (Nat.two_pow_pos _)
        · rw [bitLen_two_pow, he, hbits]
          push_cast
          omega
        · have : 2 ^ (prec - 1) * 2 ^ (r + 1 + s + 1) = 2 ^ prec * 2 ^ (r + 1) * 2 ^ s := by
            rw [← pow_add, ← pow_add, ← pow_add]
            congr 1
            omega
          exact this
      · simp only [hov, if_false]
        have hbq : bitLen (q + 1) = prec :=
          bitLen_of_quotient hp (by omega) (by omega)
        refine ⟨trivial, trivial, trivial, by omega, r + 1 + s, ?_, ?_⟩
        · rw [he, hbq, hbits]
          congr 1
          omega
        · rw [pow_add, Nat.mul_assoc]

/-- `Float.Float64` on a finite float of precision 64 with the integer value
`mant * 2 ^ s`: an infinity when the value rounded to 53 bits needs more than
1024 bits, else that rounded value. -/
theorem Float64_finite (z : BigFloat) (s : Nat) (hf : z.form = Form.finite) (hp : z.prec = 64)
    (hm : z.mant ≠ 0) (he : z.exp = ((bitLen z.mant + s : Nat) : Int)) (hmax : z.exp < MaxExp) :
    ∃ m1 s1 : Nat, m1 ≠ 0 ∧ m1 * 2 ^ s1 = roundNat 53 z.mant * 2 ^ s
      ∧ z.Float64 = if 1024 < bitLen m1 + s1 then F64.inf z.neg
          else F64.finite z.neg m1 (s1 : Int) := by
  obtain ⟨prec, neg, form, mant, exp⟩ := z
  simp only at hf hp hm he hmax
  subst hf
  subst hp
  obtain ⟨hf1, hn1, _, hm1, s1, he1, hv1⟩ :=
    round_finite (BigFloat.mk 53 neg Form.finite mant exp) s rfl (by show 1 ≤ 53; decide) hm he hmax
  refine ⟨((BigFloat.mk 53 neg Form.finite mant exp).round false).mant, s1, hm1, hv1, ?_⟩
  have hb := bitLen_pos hm
  unfold BigFloat.Float64
  have hmx : exp < 2147483647 := by unfold MaxExp at hmax; exact hmax
  have hw : wrapInt32 (exp - 1) = exp - 1 := wrapInt32_of_range _ (by omega) (by omega)
  have hlt : ¬ (exp - 1 < -1022) := by rw [he]; omega
  have h1 : ¬ ((53 : Int) < 0 ∨ ((53 : Int) = 0 ∧ mant = 2 ^ (bitLen mant - 1))) := by omega
  have h2 : ¬ ((53 : Int) = 0) := by omega
  have h3 : (53 : Int).toNat < 64 := by decide
  have h4 : (53 : Int).toNat = 53 := rfl
  simp only [hw, hlt, if_false, h1, h2, h3, if_true, h4]
  have hrb : bitLen ((BigFloat.mk 53 neg Form.finite mant exp).round false).mant + s1
      ≤ bitLen mant + s + 1 := by
    rw [← bitLen_mul_pow hm1, hv1, bitLen_mul_pow (roundNat_ne_zero (p := 53) (by decide) hm)]
    have := bitLen_roundNat_le (p := 53) (by decide) mant
    simp only at this ⊢
    omega
  generalize (BigFloat.mk 53 neg Form.finite mant exp).round false = r at *
  simp only at hn1
  have h5 : (53 : Nat) < 64 := by decide
  have h6 : ¬ ((53 : Int) < 0) := by decide
  simp only [h5, if_true, false_and, or_false, h6, if_false]
  have hw2 : wrapInt32 (r.exp - 1) = r.exp - 1 := by
    apply wrapInt32_of_range
    · rw [he1]; omega
    · rw [he1]; rw [he] at hmx; omega
  rw [hf1, he1] at *
  rw [hw2]
  by_cases hbig : 1024 < bitLen r.mant + s1
  · rw [if_pos hbig, if_pos]
    right
    omega
  · rw [if_neg hbig, if_neg]
    · congr 1
      omega
    · rintro (h | h)
      · exact absurd h (by decide)
      · omega

/-- The value of `hexStringToFloat64` on `0x` followed by hexadecimal digits
of fewer than `2 ^ 31 - 2` bits: the number, rounded to 64 bits and then to 53
bits, or the positive infinity when that needs more than 1024 bits. -/
theorem hexStringToFloat64_hex (ds : GoString) (hds : isHexDigits ds) (hne : ds ≠ [])
    (hlen : bitLen (hexValue ds) + 1 < 2147483647) :
    (hexValue ds = 0 → hexStringToFloat64 (48 :: 120 :: ds) = F64.finite false 0 0)
      ∧ (hexValue ds ≠ 0 → ∃ m s : Nat, m * 2 ^ s = roundNat 53 (roundNat 64 (hexValue ds))
          ∧ hexStringToFloat64 (48 :: 120 :: ds) =
              if 1024 < bitLen (roundNat 53 (roundNat 64 (hexValue ds))) then F64.inf false
              else F64.finite false m (s : Int)) := by
  unfold hexStringToFloat64
  rw [floatParse_hex, floatScan_hex ds hds hne]
  constructor
  · intro h0
    rw [if_pos h0]
    rfl
  · intro h0
    rw [if_neg h0]
    have hmx : (bitLen (hexValue ds) : Int) ≤ MaxExp := by unfold MaxExp; omega
    rw [if_pos hmx]
    simp only
    obtain ⟨hf1, hn1, hp1, hm1, s1, he1, hv1⟩ :=
      round_finite (BigFloat.mk 64 false Form.finite (hexValue ds) (bitLen (hexValue ds) : Int)) 0
        rfl (by show 1 ≤ 64; decide) h0 (by simp) (by simp only; unfold MaxExp; omega)
    generalize (BigFloat.mk 64 false Form.finite (hexValue ds) (bitLen (hexValue ds) : Int)).round
      false = z1 at *
    simp only [pow_zero, Nat.mul_one] at hv1 hn1 hp1
    have hbnd := (roundNat_bounds (p := 64) (by decide) h0).2
    have hbl : bitLen z1.mant + s1 ≤ bitLen (hexValue ds) + 1 := by
      rw [← bitLen_mul_pow hm1, hv1]
      calc bitLen (roundNat 64 (hexValue ds)) ≤ bitLen (2 ^ bitLen (hexValue ds)) := bitLen_mono hbnd
        _ = bitLen (hexValue ds) + 1 := bitLen_two_pow _
    obtain ⟨m2, s2, hm2, hv2, hF⟩ :=
      Float64_finite z1 s1 hf1 hp1 hm1 he1 (by rw [he1]; unfold MaxExp; omega)
    refine ⟨m2, s2, ?_, ?_⟩
    · rw [hv2, ← roundNat_mul_pow 53 _ _ hm1, hv1]
    · rw [hF, hn1, ← bitLen_mul_pow hm2, hv2, ← roundNat_mul_pow 53 _ _ hm1, hv1]

/-- The rational value of a non-negative finite `float64` with a natural
exponent. -/
theorem F64.toRat_nat (m s : Nat) : (F64.finite false m (s : Int)).toRat = ((m * 2 ^ s : Nat) : ℚ) := by
  simp [F64.toRat]

theorem hexValue_foldl_lt (ds : GoString) (hds : isHexDigits ds) : ∀ acc : Nat,
    ds.foldl (fun acc c => acc * 16 + (fromHexChar c).getD 0) acc < (acc + 1) * 16 ^ ds.length := by
  induction ds with
  | nil => intro acc; simp
  | cons c rest ih =>
    intro acc
    have hc := digitValue_hex c (hds c (List.mem_cons_self _ _))
    have hd : (fromHexChar c).getD 0 < 16 := by
      rw [← hc.2.2.1]; exact hc.2.2.2
    have h := ih (fun x hx => hds x (List.mem_cons_of_mem _ hx)) (acc * 16 + (fromHexChar c).getD 0)
    rw [List.foldl_cons, List.length_cons, pow_succ]
    calc _ < (acc * 16 + (fromHexChar c).getD 0 + 1) * 16 ^ rest.length := h
      _ ≤ ((acc + 1) * 16) * 16 ^ rest.length := Nat.mul_le_mul_right _ (by omega)
      _ = (acc + 1) * (16 ^ rest.length * 16) := by ring

theorem hexValue_lt (ds : GoString) (hds : isHexDigits ds) : hexValue ds < 16 ^ ds.length := by
  have h := hexValue_foldl_lt ds hds 0
  simpa [hexValue] using h

theorem bitLen_hexValue_le (ds : GoString) (hds : isHexDigits ds) :
    bitLen (hexValue ds) ≤ 4 * ds.length := by
  rw [bitLen_le_iff, pow_mul]
  exact hexValue_lt ds hds

theorem isHexDigits_cons_zero (ds : GoString) (hds : isHexDigits ds) : isHexDigits (48 :: ds) := by
  intro c hc
  rcases List.mem_cons.mp hc with h | h
  · subst h; decide
  · exact hds c h

theorem hexValue_foldl_zeros (k : Nat) : ∀ acc : Nat,
    (List.replicate k 48).foldl (fun acc c => acc * 16 + (fromHexChar c).getD 0) acc = acc * 16 ^ k := by
  induction k with
  | zero => intro acc; simp
  | succ n ih =>
    intro acc
    rw [List.replicate_succ, List.foldl_cons, ih]
    have : (fromHexChar 48).getD 0 = 0 := by decide
    rw [this, pow_succ]
    ring

theorem hexValue_one_zeros (k : Nat) : hexValue (49 :: List.replicate k 48) = 16 ^ k := by
  unfold hexValue
  rw [List.foldl_cons, hexValue_foldl_zeros]
  have : (fromHexChar 49).getD 0 = 1 := by decide
  rw [this]
  ring

theorem isHexDigits_one_zeros (k : Nat) : isHexDigits (49 :: List.replicate k 48) := by
  intro c hc
  rcases List.mem_cons.mp hc with h | h
  · subst h; decide
  · rw [List.eq_of_mem_replicate h]; decide

/-- The result of `hexStringToFloat64` depends on the digits only through the
number they denote. -/
theorem hexStringToFloat64_congr (a b : GoString) (ha : isHexDigits a) (hb : isHexDigits b)
    (hane : a ≠ []) (hbne : b ≠ []) (h : hexValue a = hexValue b) :
    hexStringToFloat64 (48 :: 120 :: a) = hexStringToFloat64 (48 :: 120 :: b) := by
  unfold hexStringToFloat64
  rw [floatParse_hex, floatParse_hex, floatScan_hex a ha hane, floatScan_hex b hb hbne, h]

/-- A literal whose number has more than `MaxExp` bits: the scan fails with an
exponent overflow and the result is zero. -/
theorem hexStringToFloat64_overflow (ds : GoString) (hds : isHexDigits ds) (hne : ds ≠ [])
    (h : 2147483647 < bitLen (hexValue ds)) :
    hexStringToFloat64 (48 :: 120 :: ds) = F64.finite false 0 0 := by
  unfold hexStringToFloat64
  rw [floatParse_hex, floatScan_hex ds hds hne]
  have h0 : hexValue ds ≠ 0 := by
    intro h0
    rw [h0] at h
    have : bitLen 0 = 0 := rfl
    omega
  have h1 : ¬ ((bitLen (hexValue ds) : Int) ≤ MaxExp) := by unfold MaxExp; omega
  rw [if_neg h0, if_neg h1]
  rfl

/-- The finite case of `hexStringToFloat64`: the number rounded to 64 and then
to 53 significant bits. -/
theorem hexStringToFloat64_value (ds : GoString) (hds : isHexDigits ds) (hne : ds ≠ [])
    (hlen : bitLen (hexValue ds) + 1 < 2147483647)
    (hfin : bitLen (roundNat 53 (roundNat 64 (hexValue ds))) ≤ 1024) :
    ∃ m s : Nat, hexStringToFloat64 (48 :: 120 :: ds) = F64.finite false m (s : Int)
      ∧ m * 2 ^ s = roundNat 53 (roundNat 64 (hexValue ds)) := by
  obtain ⟨hz, hnz⟩ := hexStringToFloat64_hex ds hds hne hlen
  by_cases h0 : hexValue ds = 0
  · refine ⟨0, 0, hz h0, ?_⟩
    rw [h0, roundNat_zero, roundNat_zero]
    rfl
  · obtain ⟨m, s, hv, hF⟩ := hnz h0
    rw [if_neg (by omega)] at hF
    exact ⟨m, s, hF, hv⟩

/-- The infinite case of `hexStringToFloat64`. -/
theorem hexStringToFloat64_inf (ds : GoString) (hds : isHexDigits ds) (hne : ds ≠ [])
    (hlen : bitLen (hexValue ds) + 1 < 2147483647)
    (hbig : 1024 < bitLen (roundNat 53 (roundNat 64 (hexValue ds)))) :
    hexStringToFloat64 (48 :: 120 :: ds) = F64.inf false := by
  obtain ⟨_, hnz⟩ := hexStringToFloat64_hex ds hds hne hlen
  have h0 : hexValue ds ≠ 0 := by
    intro h0
    rw [h0, roundNat_zero, roundNat_zero] at hbig
    have : bitLen 0 = 0 := rfl
    omega
  obtain ⟨m, s, _, hF⟩ := hnz h0
  rw [if_pos hbig] at hF
  exact hF

/-- A number with at most 53 significant bits and at most 1024 bits is
returned exactly. -/
theorem hexStringToFloat64_exact (ds : GoString) (hds : isHexDigits ds) (hne : ds ≠ [])
    (m k : Nat) (hv : hexValue ds = m * 2 ^ k) (hm : m < 2 ^ 53) (hlt : hexValue ds < 2 ^ 1024) :
    ∃ m1 s1 : Nat, hexStringToFloat64 (48 :: 120 :: ds) = F64.finite false m1 (s1 : Int)
      ∧ m1 * 2 ^ s1 = hexValue ds := by
  have hb : bitLen (hexValue ds) ≤ 1024 := bitLen_le_iff.mpr hlt
  have hm53 : bitLen m ≤ 53 := bitLen_le_iff.mpr hm
  have e64 : roundNat 64 (hexValue ds) = hexValue ds := by
    rw [hv]; exact roundNat_exact 64 m k (by omega)
  have e53 : roundNat 53 (hexValue ds) = hexValue ds := by
    rw [hv]; exact roundNat_exact 53 m k hm53
  have h := hexStringToFloat64_value ds hds hne (by omega) (by rw [e64, e53]; exact hb)
  rw [e64, e53] at h
  exact h

/-- Monotonicity of `hexStringToFloat64` below the exponent limit of
`big.Float`. -/
theorem hexStringToFloat64_mono (a b : GoString) (ha : isHexDigits a) (hb : isHexDigits b)
    (hane : a ≠ []) (hbne : b ≠ [])
    (hla : bitLen (hexValue a) + 1 < 2147483647) (hlb : bitLen (hexValue b) + 1 < 2147483647)
    (h : hexValue a ≤ hexValue b) :
    F64.le (hexStringToFloat64 (48 :: 120 :: a)) (hexStringToFloat64 (48 :: 120 :: b)) := by
  have hR : roundNat 53 (roundNat 64 (hexValue a)) ≤ roundNat 53 (roundNat 64 (hexValue b)) :=
    roundNat_mono (by decide) (roundNat_mono (by decide) h)
  by_cases hbb : 1024 < bitLen (roundNat 53 (roundNat 64 (hexValue b)))
  · rw [hexStringToFloat64_inf b hb hbne hlb hbb]
    cases hexStringToFloat64 (48 :: 120 :: a) with
    | finite n m e => simp [F64.le]
    | inf n => cases n <;> simp [F64.le]
  · have hba : ¬ 1024 < bitLen (roundNat 53 (roundNat 64 (hexValue a))) := by
      have := bitLen_mono hR
      omega
    obtain ⟨ma, sa, hFa, hva⟩ := hexStringToFloat64_value a ha hane hla (by omega)
    obtain ⟨mb, sb, hFb, hvb⟩ := hexStringToFloat64_value b hb hbne hlb (by omega)
    rw [hFa, hFb]
    show (F64.finite false ma (sa : Int)).toRat ≤ (F64.finite false mb (sb : Int)).toRat
    rw [F64.toRat_nat, F64.toRat_nat, hva, hvb]
    exact_mod_cast hR

theorem bitLen_sixteen_pow (k : Nat) : bitLen (16 ^ k) = 4 * k + 1 := by
  have h : (16 : Nat) ^ k = 2 ^ (4 * k) := by
    rw [pow_mul]
    rfl
  rw [h, bitLen_two_pow]

/-- The literal `1` followed by `k` zeros denotes at least one. -/
theorem hexValue_one_le_zeros (k : Nat) : hexValue [49] ≤ hexValue (49 :: List.replicate k 48) := by
  rw [hexValue_one_zeros]
  have h1 : hexValue [49] = 1 := by decide
  rw [h1]
  exact Nat.one_le_pow _ _ (by decide)

theorem hexStringToFloat64_one : hexStringToFloat64 (48 :: 120 :: [49]) = F64.finite false 1 0 := by
  decide

/-- From `2 ^ 29` zeros after the digit `1` on, the number has more bits than
`MaxExp` and the result is zero. -/
theorem hexStringToFloat64_one_zeros (k : Nat) (hk : 536870912 ≤ k) :
    hexStringToFloat64 (48 :: 120 :: 49 :: List.replicate k 48) = F64.finite false 0 0 := by
  apply hexStringToFloat64_overflow _ (isHexDigits_one_zeros k) (List.cons_ne_nil _ _)
  rw [hexValue_one_zeros, bitLen_sixteen_pow]
  omega

theorem F64.not_le_one_zero : ¬ F64.le (F64.finite false 1 0) (F64.finite false 0 0) := by
  simp [F64.le, F64.toRat]

/-- On input that is not empty `scanSign` reads a sign, negative exactly for a
leading `-`. -/
theorem scanSign_cons (c : Nat) (rest : GoString) :
    ∃ s1, scanSign (c :: rest) = some (c == 45, s1) := by
  by_cases h45 : c = 45
  · subst h45
    exact ⟨rest, rfl⟩
  · by_cases h43 : c = 43
    · subst h43
      exact ⟨rest, rfl⟩
    · refine ⟨c :: rest, ?_⟩
      have hb : (c == 45) = false := by simp [h45]
      rw [hb]
      unfold scanSign
      split
      · rename_i heq; cases heq
      · rename_i heq; cases heq; exact absurd rfl h45
      · rename_i heq; cases heq; exact absurd rfl h43
      · rename_i heq; cases heq; rfl

/-- The sign that `scanSign` reads is negative exactly for a leading `-`. -/
theorem scanSign_neg (s s1 : GoString) (neg : Bool) (h : scanSign s = some (neg, s1)) :
    neg = (s.head? == some 45) := by
  cases s with
  | nil => simp [scanSign] at h
  | cons c rest =>
    obtain ⟨s2, hs⟩ := scanSign_cons c rest
    rw [hs] at h
    simp only [Option.some.injEq, Prod.mk.injEq] at h
    rw [← h.1]
    by_cases h45 : c = 45 <;> simp [h45]

/-- A failed scan leaves the receiver a zero, negative exactly for a leading
`-`. -/
theorem floatScan_err_zero (s : GoString) (h : (floatScan s).err = true) :
    (floatScan s).z.form = Form.zero ∧ (floatScan s).z.neg = (s.head? == some 45) := by
  revert h
  unfold floatScan
  cases hs : scanSign s with
  | none =>
    intro _
    refine ⟨rfl, ?_⟩
    cases s with
    | nil => rfl
    | cons c rest =>
      obtain ⟨s2, hs2⟩ := scanSign_cons c rest
      rw [hs2] at hs
      cases hs
  | some p =>
    obtain ⟨neg, s1⟩ := p
    have hneg := scanSign_neg s s1 neg hs
    dsimp only
    generalize natScan s1 = m
    generalize scanExponent m.rest = x
    by_cases h1 : m.err = true
    · rw [if_pos h1]; intro _; exact ⟨rfl, hneg⟩
    · rw [if_neg h1]
      by_cases h2 : x.err = true
      · rw [if_pos h2]; intro _; exact ⟨rfl, hneg⟩
      · rw [if_neg h2]
        by_cases h3 : m.res = 0
        · rw [if_pos h3]; intro _; exact ⟨rfl, hneg⟩
        · rw [if_neg h3]
          split_ifs <;> intro h <;> first | exact h.elim | exact ⟨rfl, hneg⟩

/-- A character that is no hexadecimal digit ends the digits of `nat.scan` in
base 16. -/
theorem digitValue_not_hex (c : Nat) (h : (fromHexChar c).isSome = false) :
    16 ≤ digitValue 16 c := by
  unfold fromHexChar at h
  unfold digitValue
  split_ifs at h ⊢ <;> simp at h ⊢ <;> omega

theorem scanMantLoop_hex_tail (ds : GoString) (hds : isHexDigits ds) (ch : Nat) (t : GoString)
    (hch : (fromHexChar ch).isSome = false) (h46 : ch ≠ 46) (h95 : ch ≠ 95) :
    ∀ st : MantScan,
    scanMantLoop 16 (ds ++ ch :: t) st =
      ({ st with
          z := ds.foldl (fun acc c => acc * 16 + (fromHexChar c).getD 0) st.z
          count := st.count + ds.length
          prev := if ds = [] then st.prev else 48 }, ch :: t) := by
  induction ds with
  | nil =>
    intro st
    have hd := digitValue_not_hex ch hch
    rw [List.nil_append, scanMantLoop]
    simp only [h46, false_and, if_false, h95]
    rw [if_pos (by omega)]
    simp
  | cons c rest ih =>
    intro st
    obtain ⟨h1, h2, h3, h4⟩ := digitValue_hex c (hds c (List.mem_cons_self _ _))
    have hrest : isHexDigits rest := fun x hx => hds x (List.mem_cons_of_mem _ hx)
    rw [List.cons_append, scanMantLoop]
    simp only [h1, false_and, if_false, h2]
    rw [if_neg (by omega)]
    rw [ih hrest]
    simp only [List.foldl_cons, h3, List.length_cons, reduceCtorEq, if_false]
    congr 2
    · omega
    · split_ifs <;> rfl

theorem natScan_hex_tail (ds : GoString) (hds : isHexDigits ds) (hne : ds ≠ []) (ch : Nat)
    (t : GoString) (hch : (fromHexChar ch).isSome = false) (h46 : ch ≠ 46) (h95 : ch ≠ 95) :
    natScan (48 :: 120 :: (ds ++ ch :: t))
      = { res := hexValue ds, b := 16, count := (ds.length : Int), err := false
          rest := ch :: t } := by
  have hlen : 0 < ds.length := List.length_pos.mpr hne
  unfold natScan
  rw [scanBase_hex]
  simp only [scanMantLoop_hex_tail ds hds ch t hch h46 h95]
  simp only [hexValue, if_neg hne]
  simp
  exact hne

theorem floatScan_hex_tail_eq (ds : GoString) (hds : isHexDigits ds) (hne : ds ≠ []) (ch : Nat)
    (t : GoString) (hch : (fromHexChar ch).isSome = false) (h46 : ch ≠ 46) (h95 : ch ≠ 95)
    (h112 : ch ≠ 112) (h80 : ch ≠ 80) :
    floatScan (48 :: 120 :: (ds ++ ch :: t)) =
      if hexValue ds = 0 then
        { z := { prec := 64, neg := false, form := Form.zero, mant := 0, exp := 0 }
          err := false, rest := ch :: t }
      else if (bitLen (hexValue ds) : Int) ≤ MaxExp then
        { z := ({ prec := 64, neg := false, form := Form.finite, mant := hexValue ds
                  exp := (bitLen (hexValue ds) : Int) } : BigFloat).round false
          err := false, rest := ch :: t }
      else
        { z := { prec := 0, neg := false, form := Form.zero, mant := hexValue ds, exp := 0 }
          err := true, rest := ch :: t } := by
  have h101 : ch ≠ 101 := by rintro rfl; exact absurd hch (by decide)
  have h69 : ch ≠ 69 := by rintro rfl; exact absurd hch (by decide)
  have hx : scanExponent (ch :: t) = { exp := 0, base := 10, err := false, rest := ch :: t } := by
    unfold scanExponent
    simp only [h101, h69, h112, h80, or_self, if_false]
  unfold floatScan
  simp only [scanSign, natScan_hex_tail ds hds hne ch t hch h46 h95, hx]
  by_cases h0 : hexValue ds = 0
  · simp [h0]
  · simp only [h0, if_false]
    have hnn : ¬ ((ds.length : Int) < 0) := by omega
    simp only [hnn, if_false]
    norm_num
    have hmin : MinExp ≤ (bitLen (hexValue ds) : Int) := by
      unfold MinExp; omega
    simp only [hmin, true_and]

/-- The scan of a hexadecimal literal followed by a character that is no part
of it: the receiver is the one of the literal alone, and the character and
what follows are left unread. -/
theorem floatScan_hex_tail (ds : GoString) (hds : isHexDigits ds) (hne : ds ≠ []) (ch : Nat)
    (t : GoString) (hch : (fromHexChar ch).isSome = false) (h46 : ch ≠ 46) (h95 : ch ≠ 95)
    (h112 : ch ≠ 112) (h80 : ch ≠ 80) :
    (floatScan (48 :: 120 :: (ds ++ ch :: t))).z = (floatScan (48 :: 120 :: ds)).z
      ∧ (floatScan (48 :: 120 :: (ds ++ ch :: t))).err = (floatScan (48 :: 120 :: ds)).err
      ∧ (floatScan (48 :: 120 :: (ds ++ ch :: t))).rest = ch :: t := by
  rw [floatScan_hex_tail_eq ds hds hne ch t hch h46 h95 h112 h80, floatScan_hex ds hds hne]
  split_ifs <;> exact ⟨rfl, rfl, rfl⟩

/-- A string that `SetString` rejects is none of the spellings of an
infinity, so the receiver is what the scan left. -/
theorem floatParse_of_not_ok (s : GoString) (h : floatSetStringOk s = false) :
    floatParse s = (floatScan s).z := by
  unfold floatSetStringOk at h
  unfold floatParse
  by_cases hinf : s = bytesOf "Inf" ∨ s = bytesOf "inf" ∨ s = bytesOf "+Inf" ∨ s = bytesOf "+inf"
      ∨ s = bytesOf "-Inf" ∨ s = bytesOf "-inf"
  · rw [if_pos hinf] at h
    exact absurd h (by decide)
  · have h1 : ¬ (s = bytesOf "Inf" ∨ s = bytesOf "inf" ∨ s = bytesOf "+Inf" ∨ s = bytesOf "+inf") := by
      tauto
    have h2 : ¬ (s = bytesOf "-Inf" ∨ s = bytesOf "-inf") := by tauto
    simp only [h1, h2, if_false]

/-- Claim C2, counterexample: `"0x10zz"` is not a number in its entirety
(`SetString` reports failure), yet `hexStringToFloat64` returns 16, not 0:
the scan has written the leading number `0x10` to the receiver before the
unread `zz` is found, and the result of `SetString` is dropped. -/
theorem hexStringToFloat64_trailing_garbage :
    floatSetStringOk (bytesOf "0x10zz") = false
      ∧ hexStringToFloat64 (bytesOf "0x10zz") = F64.finite false 16 0 := by
  constructor <;> decide

/-- Claim C2, amended: `hexStringToFloat64` returns a `float64` and no error
on every input. For a string `s` that `SetString` rejects because the scan of
the number itself fails (no digits, a misplaced separator, a bad exponent, an
exponent out of range), the result is the zero with the sign of a leading
`-`. For a hexadecimal literal `0x` and digits `ds` followed by a character
`ch` that is no hexadecimal digit, radix point, separator or `p` exponent
mark, and by anything `t`, `SetString` rejects the string too, but the result
is the one for the literal alone: the number that the digits denote, exactly
when it has at most 53 significant bits and is below `2 ^ 1024`. -/
theorem hexStringToFloat64_unparsable (s ds t : GoString) (ch : Nat) (hds : isHexDigits ds)
    (hne : ds ≠ []) (hch : (fromHexChar ch).isSome = false) (h46 : ch ≠ 46) (h95 : ch ≠ 95)
    (h112 : ch ≠ 112) (h80 : ch ≠ 80) :
    (floatSetStringOk s = false → (floatScan s).err = true →
        hexStringToFloat64 s = F64.finite (s.head? == some 45) 0 0)
      ∧ floatSetStringOk (48 :: 120 :: (ds ++ ch :: t)) = false
      ∧ hexStringToFloat64 (48 :: 120 :: (ds ++ ch :: t)) = hexStringToFloat64 (48 :: 120 :: ds)
      ∧ (∀ m k : Nat, hexValue ds = m * 2 ^ k → m < 2 ^ 53 → hexValue ds < 2 ^ 1024 →
          ∃ m1 s1 : Nat,
            hexStringToFloat64 (48 :: 120 :: (ds ++ ch :: t)) = F64.finite false m1 (s1 : Int)
              ∧ m1 * 2 ^ s1 = hexValue ds) := by
  obtain ⟨hz, herr, hrest⟩ := floatScan_hex_tail ds hds hne ch t hch h46 h95 h112 h80
  have heq : hexStringToFloat64 (48 :: 120 :: (ds ++ ch :: t))
      = hexStringToFloat64 (48 :: 120 :: ds) := by
    unfold hexStringToFloat64
    rw [floatParse_hex, floatParse_hex, hz]
  refine ⟨?_, ?_, heq, ?_⟩
  · intro h herr1
    obtain ⟨hform, hneg⟩ := floatScan_err_zero s herr1
    unfold hexStringToFloat64
    rw [floatParse_of_not_ok s h]
    unfold BigFloat.Float64
    rw [hform, hneg]
  · unfold floatSetStringOk
    have e : ∀ u : GoString, u.head? ≠ some 48 → (48 :: 120 :: (ds ++ ch :: t)) ≠ u := by
      intro u hu h
      rw [← h] at hu
      simp at hu
    have e1 := e (bytesOf "Inf") (by decide)
    have e2 := e (bytesOf "inf") (by decide)
    have e3 := e (bytesOf "+Inf") (by decide)
    have e4 := e (bytesOf "+inf") (by decide)
    have e5 := e (bytesOf "-Inf") (by decide)
    have e6 := e (bytesOf "-inf") (by decide)
    simp only [e1, e2, e3, e4, e5, e6, or_self, if_false, hrest]
    simp
  · intro m k hv hm hlt
    rw [heq]
    exact hexStringToFloat64_exact ds hds hne m k hv hm hlt

/-- Claim C2, witness: the empty string, the prefix `"0x"` without digits and
a string that starts with a character of no number give zero, `"-"` gives the
negative zero; `"0x10zz"`, the literal `0x10` followed by `zz`, is rejected
by `SetString` and gives 16. -/
theorem hexStringToFloat64_unparsable_witness :
    hexStringToFloat64 (bytesOf "") = F64.finite false 0 0
      ∧ hexStringToFloat64 (bytesOf "0x") = F64.finite false 0 0
      ∧ hexStringToFloat64 (bytesOf "zz10") = F64.finite false 0 0
      ∧ hexStringToFloat64 (bytesOf "-") = F64.finite true 0 0
      ∧ floatSetStringOk (48 :: 120 :: (bytesOf "10" ++ 122 :: bytesOf "z")) = false
      ∧ (∃ m1 s1 : Nat,
          hexStringToFloat64 (48 :: 120 :: (bytesOf "10" ++ 122 :: bytesOf "z"))
              = F64.finite false m1 (s1 : Int)
            ∧ m1 * 2 ^ s1 = 16) :=
  ⟨(hexStringToFloat64_unparsable (bytesOf "") (bytesOf "10") (bytesOf "z") 122 (by decide)
      (by decide) (by decide) (by decide) (by decide) (by decide) (by decide)).1 (by decide)
      (by decide),
    (hexStringToFloat64_unparsable (bytesOf "0x") (bytesOf "10") (bytesOf "z") 122 (by decide)
      (by decide) (by decide) (by decide) (by decide) (by decide) (by decide)).1 (by decide)
      (by decide),
    (hexStringToFloat64_unparsable (bytesOf "zz10") (bytesOf "10") (bytesOf "z") 122 (by decide)
      (by decide) (by decide) (by decide) (by decide) (by decide) (by decide)).1 (by decide)
      (by decide),
    (hexStringToFloat64_unparsable (bytesOf "-") (bytesOf "10") (bytesOf "z") 122 (by decide)
      (by decide) (by decide) (by decide) (by decide) (by decide) (by decide)).1 (by decide)
      (by decide),
    (hexStringToFloat64_unparsable (bytesOf "") (bytesOf "10") (bytesOf "z") 122 (by decide)
      (by decide) (by decide) (by decide) (by decide) (by decide) (by decide)).2.1,
    (hexStringToFloat64_unparsable (bytesOf "") (bytesOf "10") (bytesOf "z") 122 (by decide)
      (by decide) (by decide) (by decide) (by decide) (by decide) (by decide)).2.2.2 1 4
      (by decide) (by decide)
      (lt_of_lt_of_le (show hexValue (bytesOf "10") < 2 ^ 8 by decide)
        (Nat.pow_le_pow_right (by decide) (by decide)))⟩

/-- Claim C1, counterexample: the 64-digit string for `10 ^ 18 + 1` (a balance
of one ether and one wei) gives `7812500000000000 * 2 ^ 7 = 10 ^ 18`, not the
integer that the digits denote. -/
theorem hexStringToFloat64_loses_low_bits :
    (bytesOf "0000000000000000000000000000000000000000000000000de0b6b3a7640001").length = 64
      ∧ hexValue (bytesOf "0000000000000000000000000000000000000000000000000de0b6b3a7640001")
          = 1000000000000000001
      ∧ hexStringToFloat64
          (bytesOf "0x0000000000000000000000000000000000000000000000000de0b6b3a7640001")
          = F64.finite false 7812500000000000 7
      ∧ (F64.finite false 7812500000000000 7).toRat = 1000000000000000000 := by
  refine ⟨by decide, by decide, by decide, ?_⟩
  norm_num [F64.toRat]

/-- Claim C1, amended: for `"0x"` followed by at least one and fewer than 256
hexadecimal digits (so for 64, 128 and 192 digits), `hexStringToFloat64` is a
non-negative finite `float64` whose value is the number the digits denote
rounded to 64 and then to 53 significant bits, ties to even; it equals that
number whenever the number has at most 53 significant bits. -/
theorem hexStringToFloat64_aligned (ds : GoString) (hds : isHexDigits ds) (hne : ds ≠ [])
    (hlen : ds.length < 256) :
    (hexStringToFloat64 (48 :: 120 :: ds)).nonNeg = true
      ∧ (hexStringToFloat64 (48 :: 120 :: ds)).isFinite = true
      ∧ (hexStringToFloat64 (48 :: 120 :: ds)).toRat
          = ((roundNat 53 (roundNat 64 (hexValue ds)) : Nat) : ℚ)
      ∧ ∀ m k : Nat, hexValue ds = m * 2 ^ k → m < 2 ^ 53 →
          (hexStringToFloat64 (48 :: 120 :: ds)).toRat = ((hexValue ds : Nat) : ℚ) := by
  have hb := bitLen_hexValue_le ds hds
  have h64 := bitLen_roundNat_le (p := 64) (by decide) (hexValue ds)
  have h53 := bitLen_roundNat_le (p := 53) (by decide) (roundNat 64 (hexValue ds))
  obtain ⟨m1, s1, hF, hv⟩ := hexStringToFloat64_value ds hds hne (by omega) (by omega)
  rw [hF]
  refine ⟨rfl, rfl, ?_, ?_⟩
  · rw [F64.toRat_nat, hv]
  · intro m k hmk hm
    rw [F64.toRat_nat, hv, hmk, roundNat_exact 64 m k (by have := bitLen_le_iff.mpr hm; omega),
      roundNat_exact 53 m k (bitLen_le_iff.mpr hm)]

/-- Claim C1, witness: the example of the specification,
`"0x0de0b6b3a7640000"`, gives `10 ^ 18`. -/
theorem hexStringToFloat64_aligned_witness :
    (hexStringToFloat64 (48 :: 120 :: bytesOf "0de0b6b3a7640000")).nonNeg = true
      ∧ (hexStringToFloat64 (48 :: 120 :: bytesOf "0de0b6b3a7640000")).isFinite = true
      ∧ (hexStringToFloat64 (48 :: 120 :: bytesOf "0de0b6b3a7640000")).toRat
          = ((1000000000000000000 : Nat) : ℚ) :=
  have h := hexStringToFloat64_aligned (bytesOf "0de0b6b3a7640000") (by decide) (by decide)
    (by decide)
  ⟨h.1, h.2.1, h.2.2.2 3814697265625 18 (by decide) (by decide)⟩

/-- Claim C27: for `"0x"` followed by one or more hexadecimal digits, of any
length and with any number of leading zeros, whose number `v` has at most 53
significant bits (`v = m * 2 ^ k` with `m < 2 ^ 53`) and is below `2 ^ 1024`,
`hexStringToFloat64` returns the non-negative finite `float64` of value
exactly `v`. -/
theorem hexStringToFloat64_representable (ds : GoString) (hds : isHexDigits ds) (hne : ds ≠ [])
    (m k : Nat) (hv : hexValue ds = m * 2 ^ k) (hm : m < 2 ^ 53) (hlt : hexValue ds < 2 ^ 1024) :
    ∃ m1 s1 : Nat, hexStringToFloat64 (48 :: 120 :: ds) = F64.finite false m1 (s1 : Int)
      ∧ m1 * 2 ^ s1 = hexValue ds :=
  hexStringToFloat64_exact ds hds hne m k hv hm hlt

/-- Claim C27, witness: the values of the tests, `"0x0de0b6b3a7640000"`
(`10 ^ 18`), `"0x56bc75e2d63100000"` (`10 ^ 20`) and `"0x0"` (`0`). -/
theorem hexStringToFloat64_representable_witness :
    (hexValue (bytesOf "0de0b6b3a7640000") = 10 ^ 18
        ∧ ∃ m1 s1 : Nat, hexStringToFloat64 (48 :: 120 :: bytesOf "0de0b6b3a7640000")
            = F64.finite false m1 (s1 : Int) ∧ m1 * 2 ^ s1 = hexValue (bytesOf "0de0b6b3a7640000"))
      ∧ (hexValue (bytesOf "56bc75e2d63100000") = 10 ^ 20
        ∧ ∃ m1 s1 : Nat, hexStringToFloat64 (48 :: 120 :: bytesOf "56bc75e2d63100000")
            = F64.finite false m1 (s1 : Int) ∧ m1 * 2 ^ s1 = hexValue (bytesOf "56bc75e2d63100000"))
      ∧ (hexValue (bytesOf "0") = 0
        ∧ ∃ m1 s1 : Nat, hexStringToFloat64 (48 :: 120 :: bytesOf "0")
            = F64.finite false m1 (s1 : Int) ∧ m1 * 2 ^ s1 = hexValue (bytesOf "0")) :=
  ⟨⟨by decide, hexStringToFloat64_representable (bytesOf "0de0b6b3a7640000") (by decide) (by decide)
      3814697265625 18 (by decide) (by decide)
      (lt_of_lt_of_le (show hexValue (bytesOf "0de0b6b3a7640000") < 2 ^ 64 by decide)
        (Nat.pow_le_pow_right (by decide) (by decide)))⟩,
    ⟨by decide, hexStringToFloat64_representable (bytesOf "56bc75e2d63100000") (by decide) (by decide)
      95367431640625 20 (by decide) (by decide)
      (lt_of_lt_of_le (show hexValue (bytesOf "56bc75e2d63100000") < 2 ^ 68 by decide)
        (Nat.pow_le_pow_right (by decide) (by decide)))⟩,
    ⟨by decide, hexStringToFloat64_representable (bytesOf "0") (by decide) (by decide)
      0 0 (by decide) (by decide)
      (lt_of_lt_of_le (show hexValue (bytesOf "0") < 2 ^ 4 by decide)
        (Nat.pow_le_pow_right (by decide) (by decide)))⟩⟩

/-- Claim C30, counterexample: `"0x1"` denotes 1 and gives 1; `"0x1"` followed
by `2 ^ 29` zeros denotes `16 ^ (2 ^ 29)`, a number of `2 ^ 31 + 1` bits, for
which the scan fails with an exponent overflow, and gives 0. -/
theorem hexStringToFloat64_not_monotone :
    isHexDigits (49 :: List.replicate 536870912 48)
      ∧ hexValue [49] ≤ hexValue (49 :: List.replicate 536870912 48)
      ∧ hexStringToFloat64 (48 :: 120 :: [49]) = F64.finite false 1 0
      ∧ hexStringToFloat64 (48 :: 120 :: 49 :: List.replicate 536870912 48) = F64.finite false 0 0
      ∧ ¬ F64.le (F64.finite false 1 0) (F64.finite false 0 0) :=
  ⟨isHexDigits_one_zeros 536870912, hexValue_one_le_zeros 536870912, hexStringToFloat64_one,
    hexStringToFloat64_one_zeros 536870912 (Nat.le_refl 536870912), F64.not_le_one_zero⟩

/-- Claim C30, amended: on `"0x"` followed by one or more and fewer than
`2 ^ 29` hexadecimal digits, `hexStringToFloat64` is monotone in the number
denoted; and on hexadecimal digits of any length a leading zero after `"0x"`
does not change the result. -/
theorem hexStringToFloat64_monotone (a b : GoString) (ha : isHexDigits a) (hb : isHexDigits b)
    (hane : a ≠ []) (hbne : b ≠ []) :
    (a.length < 536870912 → b.length < 536870912 → hexValue a ≤ hexValue b →
        F64.le (hexStringToFloat64 (48 :: 120 :: a)) (hexStringToFloat64 (48 :: 120 :: b)))
      ∧ hexStringToFloat64 (48 :: 120 :: 48 :: a) = hexStringToFloat64 (48 :: 120 :: a) := by
  constructor
  · intro hla hlb h
    have h1 := bitLen_hexValue_le a ha
    have h2 := bitLen_hexValue_le b hb
    exact hexStringToFloat64_mono a b ha hb hane hbne (by omega) (by omega) h
  · exact hexStringToFloat64_congr (48 :: a) a (isHexDigits_cons_zero a ha) ha (by simp) hane
      (hexValue_cons_zero a)

/-- Claim C30, witness: `10 ^ 18` and `10 ^ 20` from the tests, and a leading
zero. -/
theorem hexStringToFloat64_monotone_witness :
    F64.le (hexStringToFloat64 (48 :: 120 :: bytesOf "de0b6b3a7640000"))
        (hexStringToFloat64 (48 :: 120 :: bytesOf "56bc75e2d63100000"))
      ∧ hexStringToFloat64 (48 :: 120 :: 48 :: bytesOf "de0b6b3a7640000")
          = hexStringToFloat64 (48 :: 120 :: bytesOf "de0b6b3a7640000") :=
  have h := hexStringToFloat64_monotone (bytesOf "de0b6b3a7640000") (bytesOf "56bc75e2d63100000")
    (by decide) (by decide) (by decide) (by decide)
  ⟨h.1 (by decide) (by decide) (by decide), h.2⟩

end Jobs
